import Mathlib

/-!
# A Scheme-like interpreter: tokenizer, parser, object model, evaluator

Shallow embedding of the C++ sources `tokenizer.{h,cpp}`, `parser.cpp`, `object.{h,cpp}`,
`scheme.{h,cpp}` and `functions.cpp`.

Conventions of the embedding.

* `Obj` models a `std::shared_ptr<Object>`: `Obj.null` is the null pointer, the other
  constructors are the dynamic type of the pointee.  Within one evaluation of a tree-shaped
  expression no object is reachable along two paths, so the only mutation of the sources
  (`SetIsHead`, `SetSecond`) is modelled by rebuilding the value.
* `std::string` and the character stream are lists of 7-bit characters (`List Char`), symbol
  names are `String`s.
* `int64_t` values are `Int`s; `wrap64` is arithmetic modulo `2^64`, `wrap32` is the conversion
  to the 32-bit `int` that `Number::GetValue` returns.
* A C++ exception is an `Except.error`; dereferencing a null pointer, dividing by zero and
  the exceptions of `std::stoll` are `Error.HostFault`.  `Error.OutOfFuel` is not an outcome
  of the program: it is returned by the fuel-indexed recursions only when the fuel given is
  too small.
-/

deriving instance DecidableEq for Except

namespace Scheme

/-! ## Errors (`error.h`) -/

/-- Modelled from the spec: the exception classes declared in `error.h`, which is not among the
sources.  `SyntaxError`, `RuntimeError` and `NameError` are the classes that the sources throw by
name; `InternalError` is the further failure kind of the specification, distinct from
`RuntimeError`, and nothing in the sources throws it.  `HostFault` (a fault of the host: null
dereference, division by zero, an exception of `std::stoll`) and `OutOfFuel` (exhaustion of the
fuel of the model) are not exception classes of the program. -/
inductive Error where
  | SyntaxError
  | RuntimeError
  | NameError
  | HostFault
  | OutOfFuel
  | InternalError
  deriving DecidableEq, Repr

/-! ## Built-in procedures (`functions.cpp`) -/

/-- The classes derived from `Function`, one per entry of `GetBuiltInFunctions`. -/
inductive Builtin where
  | IsNumber | IsBoolean | IsPair | IsSymbol | IsNull | IsList
  | Add | Multiply | Subtract | Divide
  | Equal | Less | Greater | LessEqual | GreaterEqual
  | Min | Max | Abs | Not | And | Or | Quote
  | Cons | Car | Cdr | MakeList | MakeListRef | MakeListTail
  deriving DecidableEq, Repr

/-! ## Object model (`object.h`) -/

/-- A `std::shared_ptr<Object>`: null, or a `Number`, `Symbol`, `Boolean`, `Cell`
(`first_`, `second_`, `is_head_`) or `Function`. -/
inductive Obj where
  | null : Obj
  | number (value : Int) : Obj
  | symbol (name : String) : Obj
  | boolean (value : Bool) : Obj
  | cell (first second : Obj) (is_head : Bool) : Obj
  | function (f : Builtin) : Obj
  deriving DecidableEq, Repr

namespace Obj

/-- Models `Is<Number>(obj)`. -/
def IsNumber : Obj → Bool
  | number _ => true
  | _ => false

/-- Models `Is<Symbol>(obj)`. -/
def IsSymbol : Obj → Bool
  | symbol _ => true
  | _ => false

/-- Models `Is<Boolean>(obj)`. -/
def IsBoolean : Obj → Bool
  | boolean _ => true
  | _ => false

/-- Models `Is<Cell>(obj)`. -/
def IsCell : Obj → Bool
  | cell _ _ _ => true
  | _ => false

/-- Models `!obj`: the pointer is null. -/
def isNull : Obj → Bool
  | null => true
  | _ => false

/-- Nesting depth of a tree: the fuel that evaluation of the tree needs. -/
def depth : Obj → Nat
  | cell first second _ => 1 + max (depth first) (depth second)
  | _ => 0

end Obj

/-! ## Machine integers -/

/-- Two's-complement reduction of an integer to the range of `int64_t`. -/
def wrap64 (v : Int) : Int := (v + 9223372036854775808) % 18446744073709551616 - 9223372036854775808

/-- Conversion of an `int64_t` to the 32-bit `int`. -/
def wrap32 (v : Int) : Int := (v + 2147483648) % 4294967296 - 2147483648

/-- The range of `int64_t`. -/
def IsInt64 (v : Int) : Prop := -9223372036854775808 ≤ v ∧ v ≤ 9223372036854775807

instance (v : Int) : Decidable (IsInt64 v) := by unfold IsInt64; infer_instance

/-- Models `Number::GetValue`: declared `int GetValue() const`, it returns the 64-bit `value_`
converted to a 32-bit `int`. -/
def Number.GetValue (value_ : Int) : Int := wrap32 value_

/-! ## Scope (`scheme.h`) -/

/-- Models `Scope`: the mapping `symbols_` and the optional `parent_`. -/
inductive Scope where
  | mk (symbols_ : List (String × Obj)) (parent_ : Option Scope) : Scope

namespace Scope

/-- The mapping of a scope. -/
def symbols_ : Scope → List (String × Obj)
  | mk s _ => s

/-- The parent of a scope. -/
def parent_ : Scope → Option Scope
  | mk _ p => p

/-- Models `symbols_[name] = obj`: every earlier binding of `name` is replaced. -/
def assign (symbols : List (String × Obj)) (name : String) (obj : Obj) : List (String × Obj) :=
  (name, obj) :: symbols.filter (fun kv => kv.1 != name)

/-- Models `Scope::Define`. -/
def Define : Scope → String → Obj → Scope
  | mk s p, name, obj => mk (assign s name obj) p

/-- Models `Scope::Reset`. -/
def Reset : Scope → String → Obj → Scope
  | mk s p, name, obj => mk (assign s name obj) p

/-- Models `Scope::LookUp`: the scope's own mapping, then the parent's, else `NameError`. -/
def LookUp : Scope → String → Except Error Obj
  | mk s none, name =>
    match s.lookup name with
    | some obj => .ok obj
    | none => .error .NameError
  | mk s (some p), name =>
    match s.lookup name with
    | some obj => .ok obj
    | none => LookUp p name

end Scope

/-! ## Argument helpers (`functions.cpp`) -/

/-- Models `GetArgsList`: the `first` fields along a chain of cells.  A null or non-cell
argument gives the empty vector; a cell whose `second` is neither null nor a cell throws
`RuntimeError`. -/
def GetArgsList : Obj → Except Error (List Obj)
  | .cell first second _ =>
    match second with
    | .null => .ok [first]
    | .cell _ _ _ =>
      match GetArgsList second with
      | .ok rest => .ok (first :: rest)
      | .error e => .error e
    | _ => .error .RuntimeError
  | _ => .ok []

/-- The loop of `EvalArgsList`: a null argument throws `RuntimeError`, any other is evaluated
(`arg->Eval(scope)`, here the parameter `ev`), left to right. -/
def EvalArgsLoop (ev : Obj → Except Error Obj) : List Obj → Except Error (List Obj)
  | [] => .ok []
  | arg :: rest =>
    if arg.isNull then .error .RuntimeError
    else
      match ev arg with
      | .error e => .error e
      | .ok v =>
        match EvalArgsLoop ev rest with
        | .error e => .error e
        | .ok vs => .ok (v :: vs)

/-- Models `EvalArgsList`. -/
def EvalArgsList (ev : Obj → Except Error Obj) (obj : Obj) : Except Error (List Obj) :=
  match GetArgsList obj with
  | .error e => .error e
  | .ok args => EvalArgsLoop ev args

/-- Models `ValidateArgs<Number, ExpectedCount>`: the count test (skipped when `ExpectedCount`
is 0), then the type test of every element. -/
def ValidateArgs (ExpectedCount : Nat) (list : List Obj) : Except Error Unit :=
  if ExpectedCount != 0 && list.length != ExpectedCount then .error .RuntimeError
  else if list.all Obj.IsNumber then .ok ()
  else .error .RuntimeError

/-- Models `IsListImpl`: follow `second` while the object is a cell; true iff the walk ends in
null. -/
def IsListImpl : Obj → Bool
  | .cell _ second _ => IsListImpl second
  | .null => true
  | _ => false

/-- Models `As<Number>(obj)->GetValue()`; on an object that is not a `Number` the cast gives
null and the call is a host fault. -/
def GetValue : Obj → Except Error Int
  | .number v => .ok (Number.GetValue v)
  | _ => .error .HostFault

/-- Models `Fold`: `in = f(in, As<Number>(*begin)->GetValue())` over the range. -/
def Fold (f : Int → Int → Except Error Int) : List Obj → Int → Except Error Int
  | [], acc => .ok acc
  | x :: rest, acc =>
    match GetValue x with
    | .error e => .error e
    | .ok value =>
      match f acc value with
      | .error e => .error e
      | .ok acc' => Fold f rest acc'

/-- Models `std::plus<>` on `int64_t`. -/
def plus (a b : Int) : Except Error Int := .ok (wrap64 (a + b))

/-- Models `std::multiplies<>` on `int64_t`. -/
def multiplies (a b : Int) : Except Error Int := .ok (wrap64 (a * b))

/-- Models `std::minus<int64_t>`. -/
def minus (a b : Int) : Except Error Int := .ok (wrap64 (a - b))

/-- Models `std::divides<int64_t>`: truncating division; a zero divisor is a host fault. -/
def divides (a b : Int) : Except Error Int :=
  if b = 0 then .error .HostFault else .ok (wrap64 (Int.tdiv a b))

/-- Models `MinFunction`. -/
def MinFunction (a b : Int) : Except Error Int := .ok (min a b)

/-- Models `MaxFunction`. -/
def MaxFunction (a b : Int) : Except Error Int := .ok (max a b)

/-- Models `ArithmeticFolder::Apply` after the arguments have been evaluated. -/
def ArithmeticFolder (f : Int → Int → Except Error Int) (default_num : Int) (list : List Obj) :
    Except Error Obj :=
  match ValidateArgs 0 list with
  | .error e => .error e
  | .ok _ =>
    match Fold f list default_num with
    | .error e => .error e
    | .ok r => .ok (.number r)

/-- Models `NotEmptyFolder::Apply` after the arguments have been evaluated. -/
def NotEmptyFolder (f : Int → Int → Except Error Int) (list : List Obj) : Except Error Obj :=
  match ValidateArgs 0 list with
  | .error e => .error e
  | .ok _ =>
    match list with
    | [] => .error .RuntimeError
    | front :: rest =>
      match GetValue front with
      | .error e => .error e
      | .ok seed =>
        match Fold f rest seed with
        | .error e => .error e
        | .ok r => .ok (.number r)

/-- The loop of `Comparison::Apply`: `prev` is `*std::prev(it)`. -/
def ComparisonLoop (f : Int → Int → Bool) : Obj → List Obj → Except Error Obj
  | _, [] => .ok (.boolean true)
  | prev, x :: rest =>
    match GetValue prev, GetValue x with
    | .ok a, .ok b => if !f a b then .ok (.boolean false) else ComparisonLoop f x rest
    | _, _ => .error .HostFault

/-- Models `Comparison::Apply` after the arguments have been evaluated. -/
def Comparison (f : Int → Int → Bool) (list : List Obj) : Except Error Obj :=
  match ValidateArgs 0 list with
  | .error e => .error e
  | .ok _ =>
    match list with
    | [] => .ok (.boolean true)
    | [_] => .ok (.boolean true)
    | front :: rest => ComparisonLoop f front rest

/-- Models `MakeAllListsImpl`: a fresh chain of cells over the range, the first one marked as a list
head; null for the empty range. -/
def MakeAllListsTail : List Obj → Obj
  | [] => .null
  | x :: rest => .cell x (MakeAllListsTail rest) false

/-- Models `MakeAllListsImpl`. -/
def MakeAllListsImpl : List Obj → Obj
  | [] => .null
  | x :: rest => .cell x (MakeAllListsTail rest) true

/-! ## The built-ins' `Apply` (`functions.cpp`) -/

/-- The value an element of `and`/`or` contributes: `unevaluated_arg->Eval(scope)`, or null
for a null element. -/
def EvalOrNull (ev : Obj → Except Error Obj) (arg : Obj) : Except Error Obj :=
  if arg.isNull then .ok .null else ev arg

/-- The loop of `And::Apply`; `result` is the local variable of that name. -/
def AndLoop (ev : Obj → Except Error Obj) : List Obj → Obj → Except Error Obj
  | [], result => .ok result
  | unevaluated_arg :: rest, _ =>
    match EvalOrNull ev unevaluated_arg with
    | .error e => .error e
    | .ok result =>
      match result with
      | .boolean false => .ok (.boolean false)
      | _ => AndLoop ev rest result

/-- Models `And::Apply`. -/
def AndApply (ev : Obj → Except Error Obj) (obj : Obj) : Except Error Obj :=
  match GetArgsList obj with
  | .error e => .error e
  | .ok unevaluated_list =>
    if unevaluated_list.isEmpty then .ok (.boolean true)
    else AndLoop ev unevaluated_list .null

/-- The loop of `Or::Apply`; `result` is the local variable of that name. -/
def OrLoop (ev : Obj → Except Error Obj) : List Obj → Obj → Except Error Obj
  | [], result => .ok result
  | unevaluated_arg :: rest, _ =>
    match EvalOrNull ev unevaluated_arg with
    | .error e => .error e
    | .ok result =>
      match result with
      | .boolean false => OrLoop ev rest result
      | _ => .ok result

/-- Models `Or::Apply`. -/
def OrApply (ev : Obj → Except Error Obj) (obj : Obj) : Except Error Obj :=
  match GetArgsList obj with
  | .error e => .error e
  | .ok list =>
    if list.isEmpty then .ok (.boolean false)
    else OrLoop ev list .null

/-- Models `Quote::Apply`: `As<Cell>(obj)` is dereferenced unchecked, so an argument that is not a
cell is a host fault. -/
def QuoteApply : Obj → Except Error Obj
  | .cell first second _ => if !second.isNull then .error .RuntimeError else .ok first
  | _ => .error .HostFault

/-- Models `As<Cell>(tail)->SetIsHead(true)` when `tail` is a cell. -/
def SetIsHead (is_head : Bool) : Obj → Obj
  | .cell first second _ => .cell first second is_head
  | obj => obj

/-- Models `IsExpectedType<T>::Apply`, `IsNull::Apply` and `IsList::Apply` after
`auto list = EvalArgsList(scope, obj)`: exactly one argument, then the test `is`. -/
def IsExpectedType (is : Obj → Bool) : List Obj → Except Error Obj
  | [front] => .ok (.boolean (is front))
  | _ => .error .RuntimeError

/-- Models `Abs::Apply` after the arguments have been evaluated. -/
def AbsApply (list : List Obj) : Except Error Obj :=
  match ValidateArgs 1 list with
  | .error e => .error e
  | .ok _ =>
    match list with
    | front :: _ =>
      match GetValue front with
      | .error e => .error e
      | .ok v => .ok (.number (Int.natAbs v))
    | [] => .error .HostFault

/-- Models `Not::Apply` after the arguments have been evaluated. -/
def NotApply : List Obj → Except Error Obj
  | [.boolean value] => .ok (.boolean (!value))
  | [_] => .ok (.boolean false)
  | _ => .error .RuntimeError

/-- Models `Cons::Apply` after the arguments have been evaluated: a new cell over `list.front()`,
marked as a list head, with `list.back()` as its `second`. -/
def ConsApply : List Obj → Except Error Obj
  | [front, back] => .ok (.cell front back true)
  | _ => .error .RuntimeError

/-- Models `Car::Apply` after the arguments have been evaluated. -/
def CarApply : List Obj → Except Error Obj
  | [.cell first _ _] => .ok first
  | _ => .error .RuntimeError

/-- Models `Cdr::Apply` after the arguments have been evaluated: null when `second` is null, else
`second`, marked as a list head when it is a cell. -/
def CdrApply : List Obj → Except Error Obj
  | [.cell _ second _] => if second.isNull then .ok .null else .ok (SetIsHead true second)
  | _ => .error .RuntimeError

/-- Models `MakeListRef::Apply` after the arguments have been evaluated; `n` is the `int64_t`
initialised from `GetValue()`. -/
def MakeListRefApply : List Obj → Except Error Obj
  | [front, back] =>
    if !IsListImpl front || !back.IsNumber then .error .RuntimeError
    else
      match GetArgsList front with
      | .error e => .error e
      | .ok values =>
        match GetValue back with
        | .error e => .error e
        | .ok n =>
          if n < 0 || n ≥ (values.length : Int) then .error .RuntimeError
          else .ok (values.getD n.toNat .null)
  | _ => .error .RuntimeError

/-- Models `MakeListTail::Apply` after the arguments have been evaluated. -/
def MakeListTailApply : List Obj → Except Error Obj
  | [front, back] =>
    if !IsListImpl front || !back.IsNumber then .error .RuntimeError
    else
      match GetArgsList front with
      | .error e => .error e
      | .ok values =>
        match GetValue back with
        | .error e => .error e
        | .ok n =>
          if n < 0 || n > (values.length : Int) then .error .RuntimeError
          else .ok (MakeAllListsImpl (values.drop n.toNat))
  | _ => .error .RuntimeError

/-- The body of `Apply` that follows `auto list = EvalArgsList(scope, obj)`, for every built-in
that starts this way (`and`, `or` and `quote` do not and never reach this function). -/
def ApplyEvaluated : Builtin → List Obj → Except Error Obj
  | .IsNumber, list => IsExpectedType Obj.IsNumber list
  | .IsBoolean, list => IsExpectedType Obj.IsBoolean list
  | .IsPair, list => IsExpectedType Obj.IsCell list
  | .IsSymbol, list => IsExpectedType Obj.IsSymbol list
  | .IsNull, list => IsExpectedType Obj.isNull list
  | .IsList, list => IsExpectedType IsListImpl list
  | .Add, list => ArithmeticFolder plus 0 list
  | .Multiply, list => ArithmeticFolder multiplies 1 list
  | .Subtract, list => NotEmptyFolder minus list
  | .Divide, list => NotEmptyFolder divides list
  | .Min, list => NotEmptyFolder MinFunction list
  | .Max, list => NotEmptyFolder MaxFunction list
  | .Equal, list => Comparison (fun a b => decide (a = b)) list
  | .Less, list => Comparison (fun a b => decide (a < b)) list
  | .Greater, list => Comparison (fun a b => decide (a > b)) list
  | .LessEqual, list => Comparison (fun a b => decide (a ≤ b)) list
  | .GreaterEqual, list => Comparison (fun a b => decide (a ≥ b)) list
  | .Abs, list => AbsApply list
  | .Not, list => NotApply list
  | .Cons, list => ConsApply list
  | .Car, list => CarApply list
  | .Cdr, list => CdrApply list
  | .MakeList, list => .ok (MakeAllListsImpl list)
  | .MakeListRef, list => MakeListRefApply list
  | .MakeListTail, list => MakeListTailApply list
  | .And, _ => .error .HostFault
  | .Or, _ => .error .HostFault
  | .Quote, _ => .error .HostFault

/-- Models `Function::Apply` of each built-in: `scope` only reaches the evaluation of the arguments,
which is the parameter `ev`. -/
def FunctionApply (ev : Obj → Except Error Obj) (f : Builtin) (obj : Obj) : Except Error Obj :=
  match f with
  | .And => AndApply ev obj
  | .Or => OrApply ev obj
  | .Quote => QuoteApply obj
  | f =>
    match EvalArgsList ev obj with
    | .error e => .error e
    | .ok list => ApplyEvaluated f list

/-- The virtual `Apply`: `Object::Apply` throws `RuntimeError` for every object that is not a
`Function`. -/
def Apply (ev : Obj → Except Error Obj) (function : Obj) (args : Obj) : Except Error Obj :=
  match function with
  | .function f => FunctionApply ev f args
  | _ => .error .RuntimeError

/-! ## Evaluation (`object.h`, `object.cpp`, `scheme.cpp`) -/

/-- Models `Cell::Eval`, with the evaluation of sub-expressions as the parameter `ev`. -/
def CellEval (ev : Obj → Except Error Obj) (scope : Scope) (first_ second_ : Obj) :
    Except Error Obj :=
  if first_.isNull then .error .RuntimeError
  else
    match first_ with
    | .symbol name =>
      match scope.LookUp name with
      | .error e => .error e
      | .ok function =>
        if !function.isNull then Apply ev function second_ else .error .RuntimeError
    | _ => .error .RuntimeError

/-- The virtual `Eval(scope)` of the object `obj` points to.  Atoms evaluate to a copy of
themselves, a `Function` throws, a `Cell` runs `Cell::Eval`; the recursion is bounded by the
fuel, which only cells consume. -/
def Eval : Nat → Scope → Obj → Except Error Obj
  | _, _, .null => .error .HostFault
  | _, _, .number value_ => .ok (.number value_)
  | _, _, .symbol name_ => .ok (.symbol name_)
  | _, _, .boolean value_ => .ok (.boolean value_)
  | _, _, .function _ => .error .RuntimeError
  | 0, _, .cell _ _ _ => .error .OutOfFuel
  | fuel + 1, scope, .cell first_ second_ _ => CellEval (Eval fuel scope) scope first_ second_

/-- Models `Interpreter::GetBuiltInFunctions`. -/
def GetBuiltInFunctions : List (String × Obj) :=
  [("number?", .function .IsNumber), ("boolean?", .function .IsBoolean),
   ("pair?", .function .IsPair), ("symbol?", .function .IsSymbol),
   ("null?", .function .IsNull), ("list?", .function .IsList),
   ("+", .function .Add), ("*", .function .Multiply),
   ("-", .function .Subtract), ("/", .function .Divide),
   ("=", .function .Equal), ("<", .function .Less), (">", .function .Greater),
   ("<=", .function .LessEqual), (">=", .function .GreaterEqual),
   ("min", .function .Min), ("max", .function .Max), ("abs", .function .Abs),
   ("not", .function .Not), ("and", .function .And), ("or", .function .Or),
   ("quote", .function .Quote), ("cons", .function .Cons), ("car", .function .Car),
   ("cdr", .function .Cdr), ("list", .function .MakeList),
   ("list-ref", .function .MakeListRef), ("list-tail", .function .MakeListTail)]

/-- The member `global_scope_` of `Interpreter`; `Interpreter::Eval` evaluates in a copy. -/
def global_scope_ : Scope := .mk GetBuiltInFunctions none

/-- Models `expression->Eval(scope)` with the fuel the expression needs. -/
def ObjectEval (scope : Scope) (expression : Obj) : Except Error Obj :=
  Eval expression.depth scope expression

/-- Models `Interpreter::Eval`. -/
def Interpreter.Eval (expression : Obj) : Except Error Obj :=
  if expression.isNull then .error .RuntimeError
  else ObjectEval global_scope_ expression

/-! ## Decimal text of integers (`std::to_string`, `std::stoll`) -/

/-- Models `std::isdigit`. -/
def isdigit (c : Char) : Bool := 48 ≤ c.toNat && c.toNat ≤ 57

/-- Models `std::isalpha` in the "C" locale. -/
def isalpha (c : Char) : Bool :=
  (65 ≤ c.toNat && c.toNat ≤ 90) || (97 ≤ c.toNat && c.toNat ≤ 122)

/-- Models `std::isspace` in the "C" locale: space, `\t`, `\n`, `\v`, `\f`, `\r`. -/
def isspace (c : Char) : Bool := c.toNat = 32 || (9 ≤ c.toNat && c.toNat ≤ 13)

/-- The character of a decimal digit. -/
def digitChar (d : Nat) : Char := Char.ofNat (d + 48)

/-- The decimal digits of a natural number, most significant first, without leading zeros;
the fuel bounds the number of digits. -/
def decimal : Nat → Nat → List Char
  | 0, _ => []
  | fuel + 1, n => if n < 10 then [digitChar n] else decimal fuel (n / 10) ++ [digitChar (n % 10)]

/-- Models `std::to_string` on an `int64_t`. -/
def to_string (value : Int) : List Char :=
  if value < 0 then '-' :: decimal (value.natAbs + 1) value.natAbs
  else decimal (value.natAbs + 1) value.natAbs

/-- The value of a run of decimal digits, read left to right from the accumulator `acc`. -/
def digitsValue (acc : Nat) (cs : List Char) : Nat :=
  cs.foldl (fun a c => a * 10 + (c.toNat - 48)) acc

/-- The test `p(in_->peek())`, false at the end of the stream; also the test of the first
character of a string. -/
def peekIs (p : Char → Bool) : List Char → Bool
  | [] => false
  | c :: _ => p c

/-- Models `std::stoll` on the strings the tokenizer hands it (an optional sign, then digits): the
value when it fits an `int64_t`; `std::out_of_range` and `std::invalid_argument` are host
faults. -/
def stoll (cur : List Char) : Except Error Int :=
  let negative : Bool := peekIs (fun c => c = '-') cur
  let signed : Bool := negative || peekIs (fun c => c = '+') cur
  let digits : List Char := (if signed then cur.tail else cur).takeWhile isdigit
  if digits.isEmpty then .error .HostFault
  else
    let magnitude : Int := (digitsValue 0 digits : Nat)
    let value : Int := if negative then -magnitude else magnitude
    if -9223372036854775808 ≤ value ∧ value ≤ 9223372036854775807 then .ok value
    else .error .HostFault

/-! ## Tokenizer (`tokenizer.h`, `tokenizer.cpp`) -/

/-- Models `enum class BracketToken`. -/
inductive BracketToken where
  | OPEN
  | CLOSE
  deriving DecidableEq, Repr

/-- The variant `Token`. -/
inductive Token where
  | ConstantToken (value : Int)
  | BracketToken (bracket : BracketToken)
  | SymbolToken (name : String)
  | QuoteToken
  | DotToken
  | BooleanToken (value : Bool)
  deriving DecidableEq, Repr

/-- Models `IsFirstSymbolToken`. -/
def IsFirstSymbolToken (symbol : Char) : Bool :=
  isalpha symbol || symbol = '<' || symbol = '=' || symbol = '>' ||
    symbol = '*' || symbol = '/' || symbol = '#'

/-- Models `IsMiddleSymbolToken`. -/
def IsMiddleSymbolToken (symbol : Char) : Bool :=
  IsFirstSymbolToken symbol || isdigit symbol || symbol = '?' || symbol = '!' || symbol = '-'

/-- Models `IsDotToken`. -/
def IsDotToken (symbol : Char) : Bool := symbol = '.'

/-- Models `IsBracketToken`. -/
def IsBracketToken (symbol : Char) : Bool := symbol = '(' || symbol = ')'

/-- Models `IsFirstConstantToken`. -/
def IsFirstConstantToken (symbol : Char) : Bool :=
  isdigit symbol || symbol = '+' || symbol = '-'

/-- Models `IsMiddleConstantToken`. -/
def IsMiddleConstantToken (symbol : Char) : Bool := isdigit symbol

/-- Models `Tokenizer`: the current token `token_` and the unread characters of the stream `in_`. -/
structure Tokenizer where
  token_ : Option Token
  in_ : List Char
  deriving DecidableEq, Repr

namespace Tokenizer

/-- Models `Tokenizer::IsEnd`. -/
def IsEnd (t : Tokenizer) : Bool := t.token_.isNone

/-- Models `Tokenizer::Next`: skip white space, then read one token by its first character. -/
def Next (t : Tokenizer) : Except Error Tokenizer :=
  match t.in_.dropWhile isspace with
  | [] => .ok ⟨none, []⟩
  | symbol :: rest =>
    if symbol = '\'' then .ok ⟨some .QuoteToken, rest⟩
    else if IsDotToken symbol then .ok ⟨some .DotToken, rest⟩
    else if IsBracketToken symbol then
      if symbol = '(' then .ok ⟨some (.BracketToken .OPEN), rest⟩
      else .ok ⟨some (.BracketToken .CLOSE), rest⟩
    else if symbol = '#' && (peekIs (fun c => c = 't') rest || peekIs (fun c => c = 'f') rest) then
      .ok ⟨some (.BooleanToken (peekIs (fun c => c = 't') rest)), rest.tail⟩
    else if (symbol = '+' || symbol = '-') && !peekIs isdigit rest then
      .ok ⟨some (.SymbolToken (String.mk [symbol])), rest⟩
    else if IsFirstSymbolToken symbol then
      .ok ⟨some (.SymbolToken (String.mk (symbol :: rest.takeWhile IsMiddleSymbolToken))),
        rest.dropWhile IsMiddleSymbolToken⟩
    else if IsFirstConstantToken symbol then
      match stoll (symbol :: rest.takeWhile IsMiddleConstantToken) with
      | .error e => .error e
      | .ok value => .ok ⟨some (.ConstantToken value), rest.dropWhile IsMiddleConstantToken⟩
    else .error .SyntaxError

/-- The constructor `Tokenizer(std::istream* in)`: it reads the first token. -/
def new (in_ : List Char) : Except Error Tokenizer := Next ⟨none, in_⟩

end Tokenizer

/-! ## Parser (`parser.cpp`) -/

/-- Models `cell->SetSecond(x)` in `ReadList`, seen from `root`: `cell` is the last cell of the
chain that starts at `root`, the one whose `second` is still null. -/
def SetSecondOfLast : Obj → Obj → Obj
  | .cell first second is_head, x =>
    match second with
    | .null => .cell first x is_head
    | _ => .cell first (SetSecondOfLast second x) is_head
  | obj, _ => obj

mutual
/-- Models `Read`: one expression from the tokenizer; the result carries the tokenizer's new
state. -/
def Read : Nat → Tokenizer → Except Error (Obj × Tokenizer)
  | 0, _ => .error .OutOfFuel
  | fuel + 1, tokenizer =>
    match tokenizer.token_ with
    | none => .error .SyntaxError
    | some token =>
      match tokenizer.Next with
      | .error e => .error e
      | .ok tokenizer =>
        match token with
        | .BracketToken .OPEN => ReadList fuel tokenizer .null false false
        | .BracketToken .CLOSE => .error .SyntaxError
        | .SymbolToken name => .ok (.symbol name, tokenizer)
        | .ConstantToken value => .ok (.number value, tokenizer)
        | .BooleanToken value => .ok (.boolean value, tokenizer)
        | .QuoteToken =>
          match Read fuel tokenizer with
          | .error e => .error e
          | .ok (first_subcell, tokenizer) =>
            .ok (.cell (.symbol "quote") (.cell first_subcell .null false) false, tokenizer)
        | .DotToken => .error .SyntaxError
/-- The `while` loop of `ReadList`, one iteration per call, over the locals `root`, `dotted`
and `need_close_bracket` (`cell` is the last cell of `root`). -/
def ReadList : Nat → Tokenizer → Obj → Bool → Bool → Except Error (Obj × Tokenizer)
  | 0, _, _, _, _ => .error .OutOfFuel
  | fuel + 1, tokenizer, root, dotted, need_close_bracket =>
    match tokenizer.token_ with
    | none => .error .SyntaxError
    | some (.BracketToken .CLOSE) =>
      if dotted then .error .SyntaxError
      else
        match tokenizer.Next with
        | .error e => .error e
        | .ok tokenizer => .ok (root, tokenizer)
    | some .DotToken =>
      if need_close_bracket then .error .SyntaxError
      else if root.isNull then .error .SyntaxError
      else
        match tokenizer.Next with
        | .error e => .error e
        | .ok tokenizer => ReadList fuel tokenizer root true need_close_bracket
    | some _ =>
      if need_close_bracket then .error .SyntaxError
      else
        match Read fuel tokenizer with
        | .error e => .error e
        | .ok (head, tokenizer) =>
          if root.isNull then
            ReadList fuel tokenizer (.cell head .null true) dotted need_close_bracket
          else if dotted then
            ReadList fuel tokenizer (SetSecondOfLast root (SetIsHead false head)) false true
          else
            ReadList fuel tokenizer (SetSecondOfLast root (.cell head .null false)) dotted
              need_close_bracket
end

/-- Models `Interpreter::Parse`.  Every call of `Read` or turn of the loop of `ReadList` follows the
reading of a token, at most two of them per token, so twice the length of the text is fuel
enough. -/
def Interpreter.Parse (expression : String) : Except Error Obj :=
  match Tokenizer.new expression.toList with
  | .error e => .error e
  | .ok tokenizer =>
    match Read (2 * expression.length + 2) tokenizer with
    | .error e => .error e
    | .ok (expr, tokenizer) =>
      if !tokenizer.IsEnd then .error .SyntaxError else .ok expr

/-! ## Stringification (`object.h`) -/

/-- The virtual `operator std::string` of the object `obj` points to; `Object` and `Function`
throw `RuntimeError`.  It is never called through a null pointer. -/
def ToString : Obj → Except Error (List Char)
  | .null => .error .HostFault
  | .number value_ => .ok (to_string value_)
  | .symbol name_ => .ok name_.toList
  | .boolean value_ => .ok (if value_ then ['#', 't'] else ['#', 'f'])
  | .function _ => .error .RuntimeError
  | .cell first_ second_ is_head_ =>
    let opening : List Char := if is_head_ then ['('] else []
    match (if first_.isNull then .ok ['(', ')'] else ToString first_) with
    | .error e => .error e
    | .ok first =>
      if second_.isNull then .ok (opening ++ first ++ [')'])
      else
        match ToString second_ with
        | .error e => .error e
        | .ok second =>
          if !second_.IsCell then .ok (opening ++ first ++ [' ', '.', ' '] ++ second ++ [')'])
          else .ok (opening ++ first ++ [' '] ++ second)

/-- The rendering `evaluated ? std::string(*evaluated) : "()"` of `Interpreter::Run`. -/
def Render (evaluated : Obj) : Except Error String :=
  if evaluated.isNull then .ok "()"
  else
    match ToString evaluated with
    | .error e => .error e
    | .ok output => .ok (String.mk output)

/-- Models `Interpreter::Run`. -/
def Interpreter.Run (expression : String) : Except Error String :=
  match Interpreter.Parse expression with
  | .error e => .error e
  | .ok source =>
    match Interpreter.Eval source with
    | .error e => .error e
    | .ok evaluated => Render evaluated

/-! ## Expressions and texts the statements below are about -/

/-- The expression `(car (cons a b))`, whatever the list-head flags of its cells. -/
def CarConsExpr (a b : Obj) (h1 h2 h3 h4 h5 : Bool) : Obj :=
  .cell (.symbol "car")
    (.cell (.cell (.symbol "cons") (.cell a (.cell b .null h5) h4) h3) .null h2) h1

/-- The expression `(cdr (cons a b))`, whatever the list-head flags of its cells. -/
def CdrConsExpr (a b : Obj) (h1 h2 h3 h4 h5 : Bool) : Obj :=
  .cell (.symbol "cdr")
    (.cell (.cell (.symbol "cons") (.cell a (.cell b .null h5) h4) h3) .null h2) h1

/-- The expression `(quote (quote x))` as `Read` builds it from the text `''x`. -/
def QuoteQuoteX : Obj :=
  .cell (.symbol "quote")
    (.cell (.cell (.symbol "quote") (.cell (.symbol "x") .null false) false) .null false) false

/-- The expression `(f a b)` over two integers, whatever the list-head flags of its cells. -/
def BinaryExpr (f : String) (a b : Int) (h1 h2 h3 : Bool) : Obj :=
  .cell (.symbol f) (.cell (.number a) (.cell (.number b) .null h3) h2) h1

/-- The argument list of `(and (+ 1 2) #f (undefined-symbol))`. -/
def AndWitnessArgs : Obj :=
  .cell (BinaryExpr "+" 1 2 true false false) (.cell (.boolean false)
    (.cell (.cell (.symbol "undefined-symbol") .null true) .null false) false) false

/-- The argument list of `(and 1 (+ 1 2))`. -/
def AndLastArgs : Obj :=
  .cell (.number 1) (.cell (BinaryExpr "+" 1 2 true false false) .null false) false

/-- The argument list of `(or #f (+ 1 2) (undefined-symbol))`. -/
def OrWitnessArgs : Obj :=
  .cell (.boolean false) (.cell (BinaryExpr "+" 1 2 true false false)
    (.cell (.cell (.symbol "undefined-symbol") .null true) .null false) false) false

/-- The text of a proper list of integers after its first element: each further element
preceded by one space, then the closing bracket. -/
def TailText : List Int → List Char
  | [] => [')']
  | y :: ys => ' ' :: (to_string y ++ TailText ys)

/-- The text of a proper list of integers after its opening bracket. -/
def BodyText : List Int → List Char
  | [] => [')']
  | x :: xs => to_string x ++ TailText xs

/-- The text `()` or `(a1 a2 ... an)` of the proper list of the integers `a1 .. an`. -/
def ListText (xs : List Int) : List Char := '(' :: BodyText xs

/-- The tokenizer inside the text of a list of integers: the current token is the first of the
integers still to be read, or the closing bracket. -/
def TokensAt : List Int → Tokenizer
  | [] => ⟨some (.BracketToken .CLOSE), []⟩
  | y :: ys => ⟨some (.ConstantToken y), TailText ys⟩

/-- The proper lists in the words of the specification: the empty value, or a Pair whose
`second` is a proper list (a chain of Pairs whose final `second` is empty). -/
inductive ProperList : Obj → Prop where
  | empty : ProperList .null
  | pair (first second : Obj) (is_head : Bool) :
      ProperList second → ProperList (.cell first second is_head)

/-- The expression `(list? e)`, whatever the list-head flags of its cells. -/
def IsListExpr (e : Obj) (h1 h2 : Bool) : Obj :=
  .cell (.symbol "list?") (.cell e .null h2) h1

/-- The expression `(cons a b)`, whatever the list-head flags of its cells. -/
def ConsExpr (a b : Obj) (h1 h2 h3 : Bool) : Obj :=
  .cell (.symbol "cons") (.cell a (.cell b .null h3) h2) h1

/-- The test that a name is bound in a scope or in one of its ancestors. -/
def Scope.Bound : Scope → String → Bool
  | .mk s none, name => (s.lookup name).isSome
  | .mk s (some p), name => (s.lookup name).isSome || Scope.Bound p name

/-- The characters that continue a symbol token according to the claim under test: letters,
digits and `? ! -`. -/
def ClaimedMiddle (c : Char) : Bool :=
  isalpha c || isdigit c || c = '?' || c = '!' || c = '-'

/-- The characters that continue a symbol token in the amended rule: letters, digits and
`< = > * / # ? ! -`. -/
def AmendedMiddle (c : Char) : Bool :=
  isalpha c || isdigit c || c = '<' || c = '=' || c = '>' || c = '*' || c = '/' || c = '#' ||
    c = '?' || c = '!' || c = '-'

/-- The characters that may start a symbol token (other than the one-character `+` and `-`):
letters and `< = > * / #`. -/
def SymbolStart (c : Char) : Bool :=
  isalpha c || c = '<' || c = '=' || c = '>' || c = '*' || c = '/' || c = '#'

/-- The state `t` of a tokenizer over some text, moved to the same text followed by the text
`S`: while a token is current only the unread characters grow; at the end of the first text the
current token is the first token of `S`. -/
def Tokenizer.extend (S : List Char) (t : Tokenizer) : Except Error Tokenizer :=
  if t.token_.isSome then .ok ⟨t.token_, t.in_ ++ S⟩ else Tokenizer.Next ⟨none, S⟩

/-- The `first`/`second` structure of a tree: the tree with every list-head flag cleared. -/
def Obj.eraseFlags : Obj → Obj
  | .cell first second _ => .cell (Obj.eraseFlags first) (Obj.eraseFlags second) false
  | obj => obj

/-- The text `(quote X)` for the text `X`. -/
def QuoteFormText (X : List Char) : List Char :=
  '(' :: 'q' :: 'u' :: 'o' :: 't' :: 'e' :: ' ' :: (X ++ [')'])

/-- The text of the elements `es` of a list, each followed by one space, and then the text
`T`: the text `e1 e2 ... ek T`. -/
def ElementsText : List (List Char) → List Char → List Char
  | [], T => T
  | e :: es, T => e ++ ' ' :: ElementsText es T

/-- The chain `root` of `ReadList` after one more element `head` has been read outside a dotted
tail: a new list head on an empty `root`, a new last cell otherwise. -/
def AppendElement (root head : Obj) : Obj :=
  if root.isNull then .cell head .null true else SetSecondOfLast root (.cell head .null false)

/-- The expression `(list-ref e k)`, whatever the list-head flags of its cells. -/
def ListRefExpr (e : Obj) (k : Int) (h1 h2 h3 : Bool) : Obj :=
  .cell (.symbol "list-ref") (.cell e (.cell (.number k) .null h3) h2) h1

/-- The expression `(list-tail e k)`, whatever the list-head flags of its cells. -/
def ListTailExpr (e : Obj) (k : Int) (h1 h2 h3 : Bool) : Obj :=
  .cell (.symbol "list-tail") (.cell e (.cell (.number k) .null h3) h2) h1

/-- The expression `(car e)`, whatever the list-head flags of its cells. -/
def CarExpr (e : Obj) (h1 h2 : Bool) : Obj :=
  .cell (.symbol "car") (.cell e .null h2) h1

/-- The expression `(quote X)` as `ReadList` builds it. -/
def QuoteExpr (X : Obj) : Obj :=
  .cell (.symbol "quote") (.cell X .null false) true

/-- A length beyond the range of the 32-bit `int`. -/
def HugeLength : Nat := 2147483649

/-- The proper list `(0 0 ... 0)` of `HugeLength` elements, as `ReadList` builds it. -/
def HugeChain : Obj := MakeAllListsImpl (List.replicate HugeLength (.number 0))

/-- The expression `(+ 1 (car (quote (2))))`. -/
def TotalWitnessExpr : Obj :=
  .cell (.symbol "+") (.cell (.number 1) (.cell (CarExpr (QuoteExpr
    (.cell (.number 2) .null true)) true false) .null false) false) true

/-- The list-head flag of a Pair; false for every other object. -/
def Obj.IsFlagged : Obj → Bool
  | .cell _ _ is_head => is_head
  | _ => false

/-- No Pair of the tree that is the `second` of another Pair has its list-head flag set. -/
def SecondsUnflagged : Obj → Bool
  | .cell first second _ =>
    SecondsUnflagged first && SecondsUnflagged second && !second.IsFlagged
  | _ => true

/-! ## Fuel: evaluation does not depend on it once it covers the depth -/

theorem GetArgsList_cell_null (first : Obj) (is_head : Bool) :
    GetArgsList (.cell first .null is_head) = .ok [first] := rfl

theorem GetArgsList_cell_cell (first f2 s2 : Obj) (h2 is_head : Bool) :
    GetArgsList (.cell first (.cell f2 s2 h2) is_head) =
      (match GetArgsList (.cell f2 s2 h2) with
       | .ok rest => .ok (first :: rest)
       | .error e => .error e) := by
  rw [GetArgsList]

theorem GetArgsList_depth (obj : Obj) :
    ∀ args, GetArgsList obj = .ok args → ∀ a ∈ args, a.depth < obj.depth := by
  induction obj with
  | cell first second is_head _ ih2 =>
    intro args h a ha
    cases second with
    | null =>
      simp only [GetArgsList, Except.ok.injEq] at h
      subst h
      simp only [List.mem_singleton] at ha
      subst ha
      simp only [Obj.depth]
      omega
    | cell f2 s2 h2 =>
      rw [GetArgsList_cell_cell] at h
      cases hr : GetArgsList (.cell f2 s2 h2) with
      | error e => rw [hr] at h; simp at h
      | ok rest =>
        rw [hr] at h
        simp only [Except.ok.injEq] at h
        subst h
        simp only [List.mem_cons] at ha
        rcases ha with ha | ha
        · subst ha
          simp only [Obj.depth]
          omega
        · have := ih2 rest hr a ha
          simp only [Obj.depth] at this ⊢
          omega
    | number _ => simp [GetArgsList] at h
    | symbol _ => simp [GetArgsList] at h
    | boolean _ => simp [GetArgsList] at h
    | function _ => simp [GetArgsList] at h
  | null =>
    intro args h a ha; simp only [GetArgsList, Except.ok.injEq] at h; subst h; simp at ha
  | number _ =>
    intro args h a ha; simp only [GetArgsList, Except.ok.injEq] at h; subst h; simp at ha
  | symbol _ =>
    intro args h a ha; simp only [GetArgsList, Except.ok.injEq] at h; subst h; simp at ha
  | boolean _ =>
    intro args h a ha; simp only [GetArgsList, Except.ok.injEq] at h; subst h; simp at ha
  | function _ =>
    intro args h a ha; simp only [GetArgsList, Except.ok.injEq] at h; subst h; simp at ha

theorem EvalArgsLoop_congr (ev1 ev2 : Obj → Except Error Obj) (args : List Obj)
    (h : ∀ a ∈ args, ev1 a = ev2 a) : EvalArgsLoop ev1 args = EvalArgsLoop ev2 args := by
  induction args with
  | nil => rfl
  | cons a rest ih =>
    simp only [EvalArgsLoop]
    rw [h a (List.mem_cons_self _ _), ih (fun x hx => h x (List.mem_cons_of_mem _ hx))]

theorem EvalOrNull_congr (ev1 ev2 : Obj → Except Error Obj) (a : Obj) (h : ev1 a = ev2 a) :
    EvalOrNull ev1 a = EvalOrNull ev2 a := by
  simp only [EvalOrNull, h]

theorem AndLoop_congr (ev1 ev2 : Obj → Except Error Obj) (args : List Obj)
    (h : ∀ a ∈ args, ev1 a = ev2 a) (r : Obj) : AndLoop ev1 args r = AndLoop ev2 args r := by
  induction args generalizing r with
  | nil => rfl
  | cons a rest ih =>
    simp only [AndLoop]
    rw [EvalOrNull_congr ev1 ev2 a (h a (List.mem_cons_self _ _))]
    cases EvalOrNull ev2 a with
    | error e => rfl
    | ok v =>
      have ih' := fun r => ih (fun x hx => h x (List.mem_cons_of_mem _ hx)) r
      cases v <;> simp only [ih']

theorem OrLoop_congr (ev1 ev2 : Obj → Except Error Obj) (args : List Obj)
    (h : ∀ a ∈ args, ev1 a = ev2 a) (r : Obj) : OrLoop ev1 args r = OrLoop ev2 args r := by
  induction args generalizing r with
  | nil => rfl
  | cons a rest ih =>
    simp only [OrLoop]
    rw [EvalOrNull_congr ev1 ev2 a (h a (List.mem_cons_self _ _))]
    cases EvalOrNull ev2 a with
    | error e => rfl
    | ok v =>
      have ih' := fun r => ih (fun x hx => h x (List.mem_cons_of_mem _ hx)) r
      cases v <;> simp only [ih']

theorem FunctionApply_congr (ev1 ev2 : Obj → Except Error Obj) (f : Builtin) (obj : Obj)
    (h : ∀ args, GetArgsList obj = .ok args → ∀ a ∈ args, ev1 a = ev2 a) :
    FunctionApply ev1 f obj = FunctionApply ev2 f obj := by
  have hargs : EvalArgsList ev1 obj = EvalArgsList ev2 obj := by
    unfold EvalArgsList
    cases hg : GetArgsList obj with
    | error e => rfl
    | ok args => exact EvalArgsLoop_congr ev1 ev2 args (h args hg)
  have hand : AndApply ev1 obj = AndApply ev2 obj := by
    unfold AndApply
    cases hg : GetArgsList obj with
    | error e => rfl
    | ok args => simp only [AndLoop_congr ev1 ev2 args (h args hg)]
  have hor : OrApply ev1 obj = OrApply ev2 obj := by
    unfold OrApply
    cases hg : GetArgsList obj with
    | error e => rfl
    | ok args => simp only [OrLoop_congr ev1 ev2 args (h args hg)]
  cases f <;> simp only [FunctionApply, hargs, hand, hor]

theorem CellEval_congr (ev1 ev2 : Obj → Except Error Obj) (scope : Scope) (first second : Obj)
    (h : ∀ args, GetArgsList second = .ok args → ∀ a ∈ args, ev1 a = ev2 a) :
    CellEval ev1 scope first second = CellEval ev2 scope first second := by
  have key : ∀ function, Apply ev1 function second = Apply ev2 function second := by
    intro function
    cases function <;> simp only [Apply, FunctionApply_congr ev1 ev2 _ second h]
  simp only [CellEval, key]

theorem Eval_fuel (scope : Scope) :
    ∀ (n : Nat) (obj : Obj) (f1 f2 : Nat), obj.depth ≤ n → obj.depth ≤ f1 → obj.depth ≤ f2 →
      Eval f1 scope obj = Eval f2 scope obj := by
  intro n
  induction n with
  | zero =>
    intro obj f1 f2 hn _ _
    cases obj with
    | cell first second h => simp only [Obj.depth] at hn; omega
    | null => simp only [Eval]
    | number _ => simp only [Eval]
    | symbol _ => simp only [Eval]
    | boolean _ => simp only [Eval]
    | function _ => simp only [Eval]
  | succ n ih =>
    intro obj f1 f2 hn h1 h2
    cases obj with
    | cell first second h =>
      simp only [Obj.depth] at hn h1 h2
      obtain ⟨g1, rfl⟩ : ∃ g, f1 = g + 1 := ⟨f1 - 1, by omega⟩
      obtain ⟨g2, rfl⟩ : ∃ g, f2 = g + 1 := ⟨f2 - 1, by omega⟩
      simp only [Eval]
      apply CellEval_congr
      intro args hargs a ha
      have hd := GetArgsList_depth second args hargs a ha
      exact ih a g1 g2 (by omega) (by omega) (by omega)
    | null => simp only [Eval]
    | number _ => simp only [Eval]
    | symbol _ => simp only [Eval]
    | boolean _ => simp only [Eval]
    | function _ => simp only [Eval]

/-- The evaluation of a cell is `Cell::Eval` over the evaluation of its sub-expressions. -/
theorem ObjectEval_cell (scope : Scope) (first second : Obj) (is_head : Bool) :
    ObjectEval scope (.cell first second is_head) =
      CellEval (ObjectEval scope) scope first second := by
  have hd : (Obj.cell first second is_head).depth = max first.depth second.depth + 1 := by
    simp only [Obj.depth]; omega
  unfold ObjectEval
  rw [hd]
  simp only [Eval]
  apply CellEval_congr
  intro args hargs a ha
  have hlt := GetArgsList_depth second args hargs a ha
  exact Eval_fuel scope (max first.depth second.depth) a _ _ (by omega) (by omega) (le_refl _)

/-- Any fuel that covers the depth gives the evaluation `ObjectEval`: in particular the result
is never `OutOfFuel` for want of fuel. -/
theorem Eval_eq_ObjectEval (scope : Scope) (obj : Obj) (fuel : Nat) (h : obj.depth ≤ fuel) :
    Eval fuel scope obj = ObjectEval scope obj :=
  Eval_fuel scope fuel obj fuel obj.depth h h (le_refl _)

/-! ## Evaluation in the global scope -/

theorem Interpreter_Eval_cell (first second : Obj) (is_head : Bool) :
    Interpreter.Eval (.cell first second is_head) =
      CellEval (ObjectEval global_scope_) global_scope_ first second := by
  simp only [Interpreter.Eval, Obj.isNull, ObjectEval_cell]
  rfl

theorem Interpreter_Eval_ok (a va : Obj) (h : Interpreter.Eval a = .ok va) :
    a.isNull = false ∧ ObjectEval global_scope_ a = .ok va := by
  unfold Interpreter.Eval at h
  cases hn : a.isNull with
  | true => rw [hn] at h; simp at h
  | false => rw [hn] at h; exact ⟨rfl, by simpa using h⟩

/-- A call `(name args...)` of a built-in that evaluates its arguments first. -/
theorem CellEval_builtin (ev : Obj → Except Error Obj) (name : String) (f : Builtin)
    (second : Obj) (args vals : List Obj)
    (hf : global_scope_.LookUp name = .ok (.function f))
    (hargs : GetArgsList second = .ok args) (hvals : EvalArgsLoop ev args = .ok vals)
    (hand : f ≠ .And) (hor : f ≠ .Or) (hquote : f ≠ .Quote) :
    CellEval ev global_scope_ (.symbol name) second = ApplyEvaluated f vals := by
  simp only [CellEval, Obj.isNull, hf, Apply]
  cases f <;> simp_all [FunctionApply, EvalArgsList]

theorem eval_cons (a b va vb : Obj) (h3 h4 h5 : Bool)
    (ha : Interpreter.Eval a = .ok va) (hb : Interpreter.Eval b = .ok vb) :
    ObjectEval global_scope_ (.cell (.symbol "cons") (.cell a (.cell b .null h5) h4) h3) =
      .ok (.cell va vb true) := by
  obtain ⟨han, hav⟩ := Interpreter_Eval_ok a va ha
  obtain ⟨hbn, hbv⟩ := Interpreter_Eval_ok b vb hb
  rw [ObjectEval_cell]
  rw [CellEval_builtin (ObjectEval global_scope_) "cons" .Cons _ [a, b] [va, vb] (by rfl) (by rfl)
    (by simp [EvalArgsLoop, han, hbn, hav, hbv]) (by decide) (by decide) (by decide)]
  rfl

/-- C2: for all argument expressions `a` and `b` whose evaluation succeeds, the evaluation of
`(car (cons a b))` succeeds and yields the value of `a`. -/
theorem car_cons (a b va vb : Obj) (h1 h2 h3 h4 h5 : Bool)
    (ha : Interpreter.Eval a = .ok va) (hb : Interpreter.Eval b = .ok vb) :
    Interpreter.Eval (CarConsExpr a b h1 h2 h3 h4 h5) = .ok va := by
  unfold CarConsExpr
  rw [Interpreter_Eval_cell]
  rw [CellEval_builtin (ObjectEval global_scope_) "car" .Car _ _ [.cell va vb true] (by rfl)
    (by rfl) (by simp [EvalArgsLoop, Obj.isNull, eval_cons a b va vb h3 h4 h5 ha hb])
    (by decide) (by decide) (by decide)]
  rfl

/-- Witness of C2 at `(car (cons 1 (list 2)))`. -/
theorem car_cons_witness :
    Interpreter.Eval (.number 1) = .ok (.number 1) ∧
    Interpreter.Eval (.cell (.symbol "list") (.cell (.number 2) .null false) true) =
      .ok (.cell (.number 2) .null true) ∧
    Interpreter.Eval
      (CarConsExpr (.number 1) (.cell (.symbol "list") (.cell (.number 2) .null false) true)
        true false true false false) = .ok (.number 1) :=
  ⟨by decide, by decide,
    car_cons (.number 1) (.cell (.symbol "list") (.cell (.number 2) .null false) true)
      (.number 1) (.cell (.number 2) .null true) true false true false false
      (by decide) (by decide)⟩

/-- C3, counterexample: the text `''x` parses to an expression `b` whose value is a cell that is
not marked as a list head and renders as `quote x)`, while `(cdr (cons 1 b))` yields that cell
marked as a list head, which renders as `(quote x)`: a different value with a different text. -/
theorem cdr_cons_counterexample :
    Interpreter.Parse "''x" = .ok QuoteQuoteX ∧
    Interpreter.Eval QuoteQuoteX =
      .ok (.cell (.symbol "quote") (.cell (.symbol "x") .null false) false) ∧
    Interpreter.Eval (CdrConsExpr (.number 1) QuoteQuoteX true false true false false) =
      .ok (.cell (.symbol "quote") (.cell (.symbol "x") .null false) true) ∧
    Interpreter.Run "''x" = .ok "quote x)" ∧
    Interpreter.Run "(cdr (cons 1 ''x))" = .ok "(quote x)" := by
  refine ⟨by decide, by decide, by decide, by decide, by decide⟩

/-- C3, amended: for all argument expressions `a` and `b` whose evaluation succeeds, the
evaluation of `(cdr (cons a b))` succeeds and yields the value of `b` with its list-head flag
set when that value is a cell (the same `first` and `second`); it is the value of `b` itself,
with the same text, unless the value of `b` is a cell not marked as a list head. -/
theorem cdr_cons (a b va vb : Obj) (h1 h2 h3 h4 h5 : Bool)
    (ha : Interpreter.Eval a = .ok va) (hb : Interpreter.Eval b = .ok vb) :
    Interpreter.Eval (CdrConsExpr a b h1 h2 h3 h4 h5) = .ok (SetIsHead true vb) ∧
    ((∀ first second, vb ≠ .cell first second false) →
      Interpreter.Eval (CdrConsExpr a b h1 h2 h3 h4 h5) = .ok vb) := by
  have key : Interpreter.Eval (CdrConsExpr a b h1 h2 h3 h4 h5) = .ok (SetIsHead true vb) := by
    unfold CdrConsExpr
    rw [Interpreter_Eval_cell]
    rw [CellEval_builtin (ObjectEval global_scope_) "cdr" .Cdr _ _ [.cell va vb true] (by rfl)
      (by rfl) (by simp [EvalArgsLoop, Obj.isNull, eval_cons a b va vb h3 h4 h5 ha hb])
      (by decide) (by decide) (by decide)]
    cases vb <;> simp [ApplyEvaluated, CdrApply, Obj.isNull, SetIsHead]
  refine ⟨key, fun hflag => ?_⟩
  rw [key]
  cases vb with
  | cell first second is_head =>
    cases is_head with
    | true => rfl
    | false => exact absurd rfl (hflag first second)
  | null => rfl
  | number _ => rfl
  | symbol _ => rfl
  | boolean _ => rfl
  | function _ => rfl

/-- Witness of C3 (amended) at `(cdr (cons 1 (list 2)))`. -/
theorem cdr_cons_witness :
    Interpreter.Eval (.number 1) = .ok (.number 1) ∧
    Interpreter.Eval (.cell (.symbol "list") (.cell (.number 2) .null false) true) =
      .ok (.cell (.number 2) .null true) ∧
    Interpreter.Eval
      (CdrConsExpr (.number 1) (.cell (.symbol "list") (.cell (.number 2) .null false) true)
        true false true false false) = .ok (.cell (.number 2) .null true) :=
  ⟨by decide, by decide,
    (cdr_cons (.number 1) (.cell (.symbol "list") (.cell (.number 2) .null false) true)
      (.number 1) (.cell (.number 2) .null true) true false true false false
      (by decide) (by decide)).1⟩

theorem wrap64_add_comm (a b : Int) :
    wrap64 (wrap64 (0 + wrap32 a) + wrap32 b) = wrap64 (wrap64 (0 + wrap32 b) + wrap32 a) := by
  unfold wrap64 wrap32
  omega

theorem eval_add (a b : Int) (h1 h2 h3 : Bool) :
    Interpreter.Eval (BinaryExpr "+" a b h1 h2 h3) =
      .ok (.number (wrap64 (wrap64 (0 + wrap32 a) + wrap32 b))) := by
  unfold BinaryExpr
  rw [Interpreter_Eval_cell]
  rw [CellEval_builtin (ObjectEval global_scope_) "+" .Add _ [.number a, .number b]
    [.number a, .number b] (by rfl) (by rfl) (by rfl) (by decide) (by decide) (by decide)]
  rfl

/-- C5: for all integers `a` and `b`, the evaluations of `(+ a b)` and of `(+ b a)` succeed and
yield the same Integer. -/
theorem add_comm_eval (a b : Int) (h1 h2 h3 k1 k2 k3 : Bool) :
    ∃ r : Int, Interpreter.Eval (BinaryExpr "+" a b h1 h2 h3) = .ok (.number r) ∧
      Interpreter.Eval (BinaryExpr "+" b a k1 k2 k3) = .ok (.number r) := by
  refine ⟨wrap64 (wrap64 (0 + wrap32 a) + wrap32 b), eval_add a b h1 h2 h3, ?_⟩
  rw [eval_add b a k1 k2 k3, wrap64_add_comm]

/-- C4, the failing input: `(* 4294967296 1)` evaluates to `0`, not to `4294967296`, because
`Number::GetValue` returns the value cut to 32 bits. -/
theorem multiply_by_one_truncates :
    Interpreter.Parse "(* 4294967296 1)" = .ok (BinaryExpr "*" 4294967296 1 true false false) ∧
    Interpreter.Eval (BinaryExpr "*" 4294967296 1 true false false) = .ok (.number 0) ∧
    Interpreter.Run "(* 4294967296 1)" = .ok "0" := by
  refine ⟨by decide, by decide, by decide⟩

/-- C8: for every expression `X` (null included), the evaluation of `(quote X)` succeeds and
returns `X` itself, nothing in it being evaluated; so `(quote undefined-symbol)` and
`(quote (undefined-symbol))` raise no error, and `(quote (1 2 3))` renders as `(1 2 3)`. -/
theorem quote_returns_argument (X : Obj) (h1 h2 : Bool) :
    Interpreter.Eval (.cell (.symbol "quote") (.cell X .null h2) h1) = .ok X ∧
    Interpreter.Run "(quote (1 2 3))" = .ok "(1 2 3)" ∧
    Interpreter.Run "(quote undefined-symbol)" = .ok "undefined-symbol" ∧
    Interpreter.Run "(quote (undefined-symbol))" = .ok "(undefined-symbol)" ∧
    Interpreter.Run "(undefined-symbol)" = .error .NameError := by
  refine ⟨?_, by decide, by decide, by decide, by decide⟩
  rw [Interpreter_Eval_cell]
  rfl

/-! ## `and` and `or` -/

theorem EvalOrNull_of_Eval_ok (x v : Obj) (h : Interpreter.Eval x = .ok v) :
    EvalOrNull (ObjectEval global_scope_) x = .ok v := by
  obtain ⟨hn, hv⟩ := Interpreter_Eval_ok x v h
  simp only [EvalOrNull, hn, Bool.false_eq_true, if_false, hv]

theorem EvalOrNull_of_Eval_error (x : Obj) (err : Error) (hx : x ≠ .null)
    (h : Interpreter.Eval x = .error err) :
    EvalOrNull (ObjectEval global_scope_) x = .error err := by
  have hn : x.isNull = false := by
    cases x with
    | null => exact absurd rfl hx
    | _ => rfl
  unfold Interpreter.Eval at h
  rw [hn] at h
  simp only [EvalOrNull, hn, Bool.false_eq_true, if_false] at h ⊢
  exact h

theorem EvalOrNull_pre_ne_false (pre : List Obj)
    (hpre : ∀ x ∈ pre, ∃ v, Interpreter.Eval x = .ok v ∧ v ≠ .boolean false) :
    ∀ x ∈ pre, ∃ v, EvalOrNull (ObjectEval global_scope_) x = .ok v ∧ v ≠ .boolean false :=
  fun x hx => (hpre x hx).elim fun v hv => ⟨v, EvalOrNull_of_Eval_ok x v hv.1, hv.2⟩

theorem EvalOrNull_pre_false (pre : List Obj)
    (hpre : ∀ x ∈ pre, Interpreter.Eval x = .ok (.boolean false)) :
    ∀ x ∈ pre, EvalOrNull (ObjectEval global_scope_) x = .ok (.boolean false) :=
  fun x hx => EvalOrNull_of_Eval_ok x _ (hpre x hx)

theorem AndLoop_step (ev : Obj → Except Error Obj) (x v : Obj) (rest : List Obj) (r : Obj)
    (hx : EvalOrNull ev x = .ok v) (hv : v ≠ .boolean false) :
    AndLoop ev (x :: rest) r = AndLoop ev rest v := by
  rw [AndLoop, hx]
  cases v with
  | boolean b => cases b with
    | false => exact absurd rfl hv
    | true => rfl
  | null => rfl
  | number _ => rfl
  | symbol _ => rfl
  | cell _ _ _ => rfl
  | function _ => rfl

theorem AndLoop_false (ev : Obj → Except Error Obj) (e : Obj) (post : List Obj) :
    ∀ (pre : List Obj) (r : Obj),
      (∀ x ∈ pre, ∃ v, EvalOrNull ev x = .ok v ∧ v ≠ .boolean false) →
      EvalOrNull ev e = .ok (.boolean false) →
      AndLoop ev (pre ++ e :: post) r = .ok (.boolean false) := by
  intro pre
  induction pre with
  | nil => intro r _ he; simp only [List.nil_append, AndLoop, he]
  | cons x pre ih =>
    intro r hpre he
    obtain ⟨v, hx, hv⟩ := hpre x (List.mem_cons_self _ _)
    rw [List.cons_append, AndLoop_step ev x v _ r hx hv]
    exact ih v (fun y hy => hpre y (List.mem_cons_of_mem _ hy)) he

theorem AndLoop_last (ev : Obj → Except Error Obj) (e v : Obj) :
    ∀ (pre : List Obj) (r : Obj),
      (∀ x ∈ pre, ∃ w, EvalOrNull ev x = .ok w ∧ w ≠ .boolean false) →
      EvalOrNull ev e = .ok v →
      AndLoop ev (pre ++ [e]) r = .ok v := by
  intro pre
  induction pre with
  | nil =>
    intro r _ he
    simp only [List.nil_append, AndLoop, he]
    cases v with
    | boolean b => cases b <;> rfl
    | null => rfl
    | number _ => rfl
    | symbol _ => rfl
    | cell _ _ _ => rfl
    | function _ => rfl
  | cons x pre ih =>
    intro r hpre he
    obtain ⟨w, hx, hw⟩ := hpre x (List.mem_cons_self _ _)
    rw [List.cons_append, AndLoop_step ev x w _ r hx hw]
    exact ih w (fun y hy => hpre y (List.mem_cons_of_mem _ hy)) he

theorem AndLoop_error (ev : Obj → Except Error Obj) (e : Obj) (post : List Obj) (err : Error) :
    ∀ (pre : List Obj) (r : Obj),
      (∀ x ∈ pre, ∃ v, EvalOrNull ev x = .ok v ∧ v ≠ .boolean false) →
      EvalOrNull ev e = .error err →
      AndLoop ev (pre ++ e :: post) r = .error err := by
  intro pre
  induction pre with
  | nil => intro r _ he; rw [List.nil_append, AndLoop, he]
  | cons x pre ih =>
    intro r hpre he
    obtain ⟨v, hx, hv⟩ := hpre x (List.mem_cons_self _ _)
    rw [List.cons_append, AndLoop_step ev x v _ r hx hv]
    exact ih v (fun y hy => hpre y (List.mem_cons_of_mem _ hy)) he

theorem Interpreter_Eval_and (args : Obj) (is_head : Bool) :
    Interpreter.Eval (.cell (.symbol "and") args is_head) =
      AndApply (ObjectEval global_scope_) args :=
  (Interpreter_Eval_cell _ _ _).trans rfl

/-- C6: `and` over the argument list `e1 .. en`.  With no argument the result is `#t`.  If the
elements before `ei` evaluate to values other than `#f` and `ei` evaluates to `#f`, the result
is `#f` whatever follows `ei` (what follows is not evaluated, so it cannot fail).  If the
elements before `en` evaluate to values other than `#f`, the result is the value of `en`.
The order is left to right: if the elements before `ei` evaluate to values other than `#f`
and the evaluation of `ei`, an element other than `()`, fails, the `and` fails with the error
of `ei`.  To evaluate is `Interpreter::Eval` throughout. -/
theorem and_semantics (args : Obj) (es : List Obj) (is_head : Bool)
    (hargs : GetArgsList args = .ok es) :
    (es = [] → Interpreter.Eval (.cell (.symbol "and") args is_head) = .ok (.boolean true)) ∧
    (∀ pre e post, es = pre ++ e :: post →
      (∀ x ∈ pre, ∃ v, Interpreter.Eval x = .ok v ∧ v ≠ .boolean false) →
      Interpreter.Eval e = .ok (.boolean false) →
      Interpreter.Eval (.cell (.symbol "and") args is_head) = .ok (.boolean false)) ∧
    (∀ pre e v, es = pre ++ [e] →
      (∀ x ∈ pre, ∃ w, Interpreter.Eval x = .ok w ∧ w ≠ .boolean false) →
      Interpreter.Eval e = .ok v →
      Interpreter.Eval (.cell (.symbol "and") args is_head) = .ok v) ∧
    (∀ pre e post err, es = pre ++ e :: post →
      (∀ x ∈ pre, ∃ v, Interpreter.Eval x = .ok v ∧ v ≠ .boolean false) →
      e ≠ .null → Interpreter.Eval e = .error err →
      Interpreter.Eval (.cell (.symbol "and") args is_head) = .error err) := by
  rw [Interpreter_Eval_and]
  simp only [AndApply, hargs]
  refine ⟨fun h => by simp [h], fun pre e post h hpre he => ?_, fun pre e v h hpre he => ?_,
    fun pre e post err h hpre hne he => ?_⟩
  · subst h
    simp only [List.isEmpty_eq_true, List.append_eq_nil, reduceCtorEq, and_false, if_false]
    exact AndLoop_false _ e post pre .null (EvalOrNull_pre_ne_false pre hpre)
      (EvalOrNull_of_Eval_ok e _ he)
  · subst h
    simp only [List.isEmpty_eq_true, List.append_eq_nil, reduceCtorEq, and_false, if_false]
    exact AndLoop_last _ e v pre .null (EvalOrNull_pre_ne_false pre hpre)
      (EvalOrNull_of_Eval_ok e v he)
  · subst h
    simp only [List.isEmpty_eq_true, List.append_eq_nil, reduceCtorEq, and_false, if_false]
    exact AndLoop_error _ e post err pre .null (EvalOrNull_pre_ne_false pre hpre)
      (EvalOrNull_of_Eval_error e err hne he)

/-- Witness of C6.  At `(and (+ 1 2) #f (undefined-symbol))` the first element evaluates to `3`,
the second to `#f`, the call of the unbound symbol fails with `NameError` when evaluated, and
the `and` yields `#f`.  At `(and 1 (+ 1 2))` the `and` yields `3`, the value of the last
element and not the element. -/
theorem and_semantics_witness :
    GetArgsList AndWitnessArgs =
      .ok [BinaryExpr "+" 1 2 true false false, .boolean false,
        .cell (.symbol "undefined-symbol") .null true] ∧
    Interpreter.Eval (BinaryExpr "+" 1 2 true false false) = .ok (.number 3) ∧
    Interpreter.Eval (.cell (.symbol "undefined-symbol") .null true) = .error .NameError ∧
    Interpreter.Eval (.cell (.symbol "and") AndWitnessArgs true) = .ok (.boolean false) ∧
    Interpreter.Eval (.cell (.symbol "and") AndLastArgs true) = .ok (.number 3) :=
  ⟨by decide, by decide, by decide,
    (and_semantics AndWitnessArgs
      [BinaryExpr "+" 1 2 true false false, .boolean false,
        .cell (.symbol "undefined-symbol") .null true] true
      (by decide)).2.1 [BinaryExpr "+" 1 2 true false false] (.boolean false)
      [.cell (.symbol "undefined-symbol") .null true] (by decide)
      (fun x hx => ⟨.number 3, by simp only [List.mem_singleton] at hx; subst hx; decide,
        by decide⟩)
      (by decide),
    (and_semantics AndLastArgs [.number 1, BinaryExpr "+" 1 2 true false false] true
      (by decide)).2.2.1 [.number 1] (BinaryExpr "+" 1 2 true false false) (.number 3)
      (by decide)
      (fun x hx => ⟨.number 1, by simp only [List.mem_singleton] at hx; subst hx; decide,
        by decide⟩)
      (by decide)⟩

theorem OrLoop_step (ev : Obj → Except Error Obj) (x : Obj) (rest : List Obj) (r : Obj)
    (hx : EvalOrNull ev x = .ok (.boolean false)) :
    OrLoop ev (x :: rest) r = OrLoop ev rest (.boolean false) := by
  rw [OrLoop, hx]

theorem OrLoop_first (ev : Obj → Except Error Obj) (e v : Obj) (post : List Obj)
    (hv : v ≠ .boolean false) :
    ∀ (pre : List Obj) (r : Obj),
      (∀ x ∈ pre, EvalOrNull ev x = .ok (.boolean false)) →
      EvalOrNull ev e = .ok v →
      OrLoop ev (pre ++ e :: post) r = .ok v := by
  intro pre
  induction pre with
  | nil =>
    intro r _ he
    rw [List.nil_append, OrLoop, he]
    cases v with
    | boolean b => cases b with
      | false => exact absurd rfl hv
      | true => rfl
    | null => rfl
    | number _ => rfl
    | symbol _ => rfl
    | cell _ _ _ => rfl
    | function _ => rfl
  | cons x pre ih =>
    intro r hpre he
    rw [List.cons_append, OrLoop_step ev x _ r (hpre x (List.mem_cons_self _ _))]
    exact ih _ (fun y hy => hpre y (List.mem_cons_of_mem _ hy)) he

theorem OrLoop_all_false (ev : Obj → Except Error Obj) :
    ∀ (es : List Obj) (r : Obj), (∀ x ∈ es, EvalOrNull ev x = .ok (.boolean false)) →
      OrLoop ev es r = .ok (if es.isEmpty then r else .boolean false) := by
  intro es
  induction es with
  | nil => intro r _; rfl
  | cons x es ih =>
    intro r hes
    rw [OrLoop_step ev x es r (hes x (List.mem_cons_self _ _)),
      ih _ (fun y hy => hes y (List.mem_cons_of_mem _ hy))]
    cases es <;> rfl

theorem OrLoop_error (ev : Obj → Except Error Obj) (e : Obj) (post : List Obj) (err : Error) :
    ∀ (pre : List Obj) (r : Obj),
      (∀ x ∈ pre, EvalOrNull ev x = .ok (.boolean false)) →
      EvalOrNull ev e = .error err →
      OrLoop ev (pre ++ e :: post) r = .error err := by
  intro pre
  induction pre with
  | nil => intro r _ he; rw [List.nil_append, OrLoop, he]
  | cons x pre ih =>
    intro r hpre he
    rw [List.cons_append, OrLoop_step ev x _ r (hpre x (List.mem_cons_self _ _))]
    exact ih _ (fun y hy => hpre y (List.mem_cons_of_mem _ hy)) he

theorem Interpreter_Eval_or (args : Obj) (is_head : Bool) :
    Interpreter.Eval (.cell (.symbol "or") args is_head) =
      OrApply (ObjectEval global_scope_) args :=
  (Interpreter_Eval_cell _ _ _).trans rfl

/-- C7: `or` over the argument list `e1 .. en`.  With no argument the result is `#f`.  If the
elements before `ei` evaluate to `#f` and `ei` evaluates to a value other than `#f`, the result
is that value whatever follows `ei` (what follows is not evaluated, so it cannot fail).  If
every element evaluates to `#f`, the result is `#f`.  The order is left to right: if the
elements before `ei` evaluate to `#f` and the evaluation of `ei`, an element other than `()`,
fails, the `or` fails with the error of `ei`.  To evaluate is `Interpreter::Eval` throughout. -/
theorem or_semantics (args : Obj) (es : List Obj) (is_head : Bool)
    (hargs : GetArgsList args = .ok es) :
    (es = [] → Interpreter.Eval (.cell (.symbol "or") args is_head) = .ok (.boolean false)) ∧
    (∀ pre e post v, es = pre ++ e :: post →
      (∀ x ∈ pre, Interpreter.Eval x = .ok (.boolean false)) →
      Interpreter.Eval e = .ok v → v ≠ .boolean false →
      Interpreter.Eval (.cell (.symbol "or") args is_head) = .ok v) ∧
    ((∀ x ∈ es, Interpreter.Eval x = .ok (.boolean false)) →
      Interpreter.Eval (.cell (.symbol "or") args is_head) = .ok (.boolean false)) ∧
    (∀ pre e post err, es = pre ++ e :: post →
      (∀ x ∈ pre, Interpreter.Eval x = .ok (.boolean false)) →
      e ≠ .null → Interpreter.Eval e = .error err →
      Interpreter.Eval (.cell (.symbol "or") args is_head) = .error err) := by
  rw [Interpreter_Eval_or]
  simp only [OrApply, hargs]
  refine ⟨fun h => by simp [h], fun pre e post v h hpre he hv => ?_, fun hes => ?_,
    fun pre e post err h hpre hne he => ?_⟩
  · subst h
    simp only [List.isEmpty_eq_true, List.append_eq_nil, reduceCtorEq, and_false, if_false]
    exact OrLoop_first _ e v post hv pre .null (EvalOrNull_pre_false pre hpre)
      (EvalOrNull_of_Eval_ok e v he)
  · rw [OrLoop_all_false _ es .null (EvalOrNull_pre_false es hes)]
    cases es <;> rfl
  · subst h
    simp only [List.isEmpty_eq_true, List.append_eq_nil, reduceCtorEq, and_false, if_false]
    exact OrLoop_error _ e post err pre .null (EvalOrNull_pre_false pre hpre)
      (EvalOrNull_of_Eval_error e err hne he)

/-- Witness of C7 at `(or #f (+ 1 2) (undefined-symbol))`: the second element evaluates to `3`,
the call of the unbound symbol fails with `NameError` when evaluated, and the `or` yields `3`,
the value of the second element and not the element; the text `(or 1 2)` runs to `1`. -/
theorem or_semantics_witness :
    GetArgsList OrWitnessArgs =
      .ok [.boolean false, BinaryExpr "+" 1 2 true false false,
        .cell (.symbol "undefined-symbol") .null true] ∧
    Interpreter.Eval (BinaryExpr "+" 1 2 true false false) = .ok (.number 3) ∧
    Interpreter.Eval (.cell (.symbol "undefined-symbol") .null true) = .error .NameError ∧
    Interpreter.Eval (.cell (.symbol "or") OrWitnessArgs true) = .ok (.number 3) ∧
    Interpreter.Run "(or 1 2)" = .ok "1" :=
  ⟨by decide, by decide, by decide,
    (or_semantics OrWitnessArgs
      [.boolean false, BinaryExpr "+" 1 2 true false false,
        .cell (.symbol "undefined-symbol") .null true] true
      (by decide)).2.1 [.boolean false] (BinaryExpr "+" 1 2 true false false)
      [.cell (.symbol "undefined-symbol") .null true] (.number 3) (by decide)
      (fun x hx => by simp only [List.mem_singleton] at hx; subst hx; decide)
      (by decide) (by decide),
    by decide⟩

/-! ## `list-ref` and `list-tail` -/

/-- C9, the failing input: `(list-ref (list 10 20 30) 4294967296)` returns `10`, the element at
index 0, where the index 4294967296 is out of range: the index is read through
`Number::GetValue`, which cuts it to 32 bits. -/
theorem list_ref_index_truncates :
    Interpreter.Run "(list-ref (list 10 20 30) 4294967296)" = .ok "10" ∧
    Interpreter.Run "(list-ref (list 10 20 30) 4294967297)" = .ok "20" ∧
    Interpreter.Run "(list-ref (list 10 20 30) 1)" = .ok "20" ∧
    Interpreter.Run "(list-ref (list 10 20 30) 3)" = .error .RuntimeError := by
  refine ⟨by decide, by decide, by decide, by decide⟩

/-- C10, the failing input: `(list-tail (list 10 20 30) 4294967296)` returns `(10 20 30)`, the
tail from index 0, where the index 4294967296 is out of range: the index is read through
`Number::GetValue`, which cuts it to 32 bits. -/
theorem list_tail_index_truncates :
    Interpreter.Run "(list-tail (list 10 20 30) 4294967296)" = .ok "(10 20 30)" ∧
    Interpreter.Run "(list-tail (list 10 20 30) 4294967298)" = .ok "(30)" ∧
    Interpreter.Run "(list-tail (list 10 20 30) 3)" = .ok "()" ∧
    Interpreter.Run "(list-tail (list 10 20 30) 4)" = .error .RuntimeError := by
  refine ⟨by decide, by decide, by decide, by decide⟩

/-! ## Decimal text: `std::stoll` inverts `std::to_string` -/

theorem digitChar_isdigit : ∀ d, d < 10 → isdigit (digitChar d) = true := by decide

theorem digitChar_value : ∀ d, d < 10 → (digitChar d).toNat - 48 = d := by decide

theorem decimal_isdigit : ∀ (fuel n : Nat) (c : Char), c ∈ decimal fuel n → isdigit c = true := by
  intro fuel
  induction fuel with
  | zero => intro n c hc; simp [decimal] at hc
  | succ fuel ih =>
    intro n c hc
    rw [decimal] at hc
    split at hc
    · rename_i hn
      simp only [List.mem_singleton] at hc
      subst hc
      exact digitChar_isdigit n hn
    · simp only [List.mem_append, List.mem_singleton] at hc
      rcases hc with hc | hc
      · exact ih _ c hc
      · subst hc
        exact digitChar_isdigit _ (Nat.mod_lt _ (by decide))

theorem decimal_ne_nil (fuel n : Nat) : decimal (fuel + 1) n ≠ [] := by
  rw [decimal]
  split <;> simp

theorem digitsValue_append (acc : Nat) (a b : List Char) :
    digitsValue acc (a ++ b) = digitsValue (digitsValue acc a) b := by
  simp only [digitsValue, List.foldl_append]

theorem decimal_value : ∀ (fuel n : Nat), n < fuel → digitsValue 0 (decimal fuel n) = n := by
  intro fuel
  induction fuel with
  | zero => intro n hn; omega
  | succ fuel ih =>
    intro n hn
    rw [decimal]
    split
    · rename_i hlt
      simp only [digitsValue, List.foldl_cons, List.foldl_nil, digitChar_value n hlt]
      omega
    · rename_i hge
      rw [digitsValue_append, ih (n / 10) (by omega)]
      simp only [digitsValue, List.foldl_cons, List.foldl_nil,
        digitChar_value (n % 10) (Nat.mod_lt _ (by decide))]
      omega

theorem takeWhile_append_of_all (p : Char → Bool) (rest : List Char) (hrest : peekIs p rest = false) :
    ∀ ds : List Char, (∀ c ∈ ds, p c = true) →
      (ds ++ rest).takeWhile p = ds ∧ (ds ++ rest).dropWhile p = rest := by
  intro ds
  induction ds with
  | nil =>
    intro _
    cases rest with
    | nil => exact ⟨rfl, rfl⟩
    | cons c cs =>
      simp only [peekIs] at hrest
      simp [List.takeWhile, List.dropWhile, hrest]
  | cons d ds ih =>
    intro h
    have hd := h d (List.mem_cons_self _ _)
    obtain ⟨h1, h2⟩ := ih (fun c hc => h c (List.mem_cons_of_mem _ hc))
    simp [List.takeWhile, List.dropWhile, hd, h1, h2]

theorem takeWhile_of_all (p : Char → Bool) (ds : List Char) (h : ∀ c ∈ ds, p c = true) :
    ds.takeWhile p = ds := by
  have := (takeWhile_append_of_all p [] rfl ds h).1
  simpa using this

theorem peekIs_of_digits (p : Char → Bool) (hp : ∀ c, isdigit c = true → p c = false)
    (ds : List Char) (h : ∀ c ∈ ds, isdigit c = true) : peekIs p ds = false := by
  cases ds with
  | nil => rfl
  | cons d ds => exact hp d (h d (List.mem_cons_self _ _))

theorem isdigit_ne (c d : Char) (hd : isdigit d = false) (hc : isdigit c = true) :
    decide (c = d) = false := by
  simp only [decide_eq_false_iff_not]
  rintro rfl
  rw [hd] at hc
  exact Bool.noConfusion hc

theorem stoll_to_string (x : Int) (hx : IsInt64 x) : stoll (to_string x) = .ok x := by
  have hds := decimal_isdigit (x.natAbs + 1) x.natAbs
  have hne := decimal_ne_nil x.natAbs x.natAbs
  have hval := decimal_value (x.natAbs + 1) x.natAbs (by omega)
  have htw := takeWhile_of_all isdigit _ hds
  unfold IsInt64 at hx
  by_cases hneg : x < 0
  · have hts : to_string x = '-' :: decimal (x.natAbs + 1) x.natAbs := by
      simp only [to_string, hneg, if_true]
    rw [hts]
    simp only [stoll, peekIs, decide_True, Bool.true_or, if_true, List.tail_cons, htw, hval,
      List.isEmpty_eq_true, hne, if_false]
    have : -(x.natAbs : Int) = x := by omega
    rw [this]
    simp [hx.1, hx.2]
  · have hts : to_string x = decimal (x.natAbs + 1) x.natAbs := by
      simp only [to_string, hneg, if_false]
    rw [hts]
    have h1 := peekIs_of_digits (fun c => decide (c = '-'))
      (fun c hc => isdigit_ne c '-' (by decide) hc) _ hds
    have h2 := peekIs_of_digits (fun c => decide (c = '+'))
      (fun c hc => isdigit_ne c '+' (by decide) hc) _ hds
    simp only [stoll, h1, h2, Bool.or_self, if_false, htw, hval, List.isEmpty_eq_true, hne,
      Bool.false_eq_true]
    have : (x.natAbs : Int) = x := by omega
    rw [this]
    simp [hx.1, hx.2]

/-! ## The tokenizer on the text of a list of integers -/

theorem Next_constant (tok : Option Token) (c : Char) (cs rest : List Char)
    (hsp : isspace c = false) (hq : c ≠ '\'') (hdot : IsDotToken c = false)
    (hbr : IsBracketToken c = false) (hsharp : c ≠ '#')
    (hsign : (c = '+' ∨ c = '-') → peekIs isdigit (cs ++ rest) = true)
    (hsym : IsFirstSymbolToken c = false) (hconst : IsFirstConstantToken c = true)
    (hcs : ∀ d ∈ cs, isdigit d = true) (hrest : peekIs isdigit rest = false) :
    Tokenizer.Next ⟨tok, c :: (cs ++ rest)⟩ =
      (match stoll (c :: cs) with
       | .error e => .error e
       | .ok value => .ok ⟨some (.ConstantToken value), rest⟩) := by
  obtain ⟨htake, hdrop⟩ := takeWhile_append_of_all isdigit rest hrest cs hcs
  have hdw : List.dropWhile isspace (c :: (cs ++ rest)) = c :: (cs ++ rest) := by
    simp [List.dropWhile, hsp]
  have hsign' : ((decide (c = '+') || decide (c = '-')) && !peekIs isdigit (cs ++ rest)) = false := by
    by_cases h : c = '+' ∨ c = '-'
    · simp [hsign h]
    · push_neg at h
      simp [h.1, h.2]
  have hfun : IsMiddleConstantToken = isdigit := rfl
  unfold Tokenizer.Next
  simp only [hdw, hq, hdot, hbr, hsharp, hsign', hsym, hconst, if_false, if_true,
    hfun, htake, hdrop, decide_False, Bool.false_and, Bool.false_eq_true]

theorem isdigit_ne_char (c d : Char) (hd : isdigit d = false) (hc : isdigit c = true) : c ≠ d := by
  rintro rfl
  rw [hd] at hc
  exact Bool.noConfusion hc

theorem isdigit_facts (c : Char) (h : isdigit c = true) :
    isspace c = false ∧ IsDotToken c = false ∧ IsBracketToken c = false ∧
      IsFirstSymbolToken c = false ∧ IsFirstConstantToken c = true := by
  have hb : 48 ≤ c.toNat ∧ c.toNat ≤ 57 := by simpa [isdigit] using h
  have n1 := isdigit_ne_char c '.' (by decide) h
  have n2 := isdigit_ne_char c '(' (by decide) h
  have n3 := isdigit_ne_char c ')' (by decide) h
  have n4 := isdigit_ne_char c '<' (by decide) h
  have n5 := isdigit_ne_char c '=' (by decide) h
  have n6 := isdigit_ne_char c '>' (by decide) h
  have n7 := isdigit_ne_char c '*' (by decide) h
  have n8 := isdigit_ne_char c '/' (by decide) h
  have n9 := isdigit_ne_char c '#' (by decide) h
  have hsp : isspace c = false := by
    simp only [isspace, Bool.or_eq_false_iff, decide_eq_false_iff_not, Bool.and_eq_false_iff,
      Nat.not_le]
    omega
  have hal : isalpha c = false := by
    simp only [isalpha, Bool.or_eq_false_iff, decide_eq_false_iff_not, Bool.and_eq_false_iff,
      Nat.not_le]
    omega
  refine ⟨hsp, by simp [IsDotToken, n1], by simp [IsBracketToken, n2, n3],
    by simp [IsFirstSymbolToken, hal, n4, n5, n6, n7, n8, n9], by simp [IsFirstConstantToken, h]⟩

theorem Next_number (tok : Option Token) (x : Int) (hx : IsInt64 x) (rest : List Char)
    (hrest : peekIs isdigit rest = false) :
    Tokenizer.Next ⟨tok, to_string x ++ rest⟩ = .ok ⟨some (.ConstantToken x), rest⟩ := by
  have hds := decimal_isdigit (x.natAbs + 1) x.natAbs
  have hne := decimal_ne_nil x.natAbs x.natAbs
  have hst := stoll_to_string x hx
  by_cases hneg : x < 0
  · have hts : to_string x = '-' :: decimal (x.natAbs + 1) x.natAbs := by
      simp only [to_string, hneg, if_true]
    rw [hts] at hst ⊢
    rw [List.cons_append, Next_constant tok '-' _ rest (by decide) (by decide) (by decide)
      (by decide) (by decide) ?_ (by decide) (by decide) hds hrest, hst]
    intro _
    cases hd : decimal (x.natAbs + 1) x.natAbs with
    | nil => exact absurd hd hne
    | cons d ds =>
      have := hds d (by rw [hd]; exact List.mem_cons_self _ _)
      simpa [peekIs] using this
  · have hts : to_string x = decimal (x.natAbs + 1) x.natAbs := by
      simp only [to_string, hneg, if_false]
    rw [hts] at hst ⊢
    cases hd : decimal (x.natAbs + 1) x.natAbs with
    | nil => exact absurd hd hne
    | cons d ds =>
      rw [hd] at hst hds
      have hdig := hds d (List.mem_cons_self _ _)
      obtain ⟨f1, f2, f3, f4, f5⟩ := isdigit_facts d hdig
      rw [List.cons_append, Next_constant tok d ds rest f1
        (isdigit_ne_char d '\'' (by decide) hdig) f2 f3 (isdigit_ne_char d '#' (by decide) hdig)
        ?_ f4 f5 (fun c hc => hds c (List.mem_cons_of_mem _ hc)) hrest, hst]
      intro hor
      rcases hor with h | h
      · exact absurd h (isdigit_ne_char d '+' (by decide) hdig)
      · exact absurd h (isdigit_ne_char d '-' (by decide) hdig)

theorem Next_space (tok : Option Token) (l : List Char) :
    Tokenizer.Next ⟨tok, ' ' :: l⟩ = Tokenizer.Next ⟨tok, l⟩ := by
  have h : isspace ' ' = true := by decide
  simp only [Tokenizer.Next, List.dropWhile, h]

theorem peekIs_TailText (ys : List Int) : peekIs isdigit (TailText ys) = false := by
  cases ys <;> simp only [TailText, peekIs] <;> decide

theorem Next_TailText (tok : Option Token) (ys : List Int) (hys : ∀ y ∈ ys, IsInt64 y) :
    Tokenizer.Next ⟨tok, TailText ys⟩ = .ok (TokensAt ys) := by
  cases ys with
  | nil => rfl
  | cons y ys =>
    simp only [TailText, TokensAt]
    rw [Next_space, Next_number tok y (hys y (List.mem_cons_self _ _)) _ (peekIs_TailText ys)]

theorem Next_BodyText (tok : Option Token) (xs : List Int) (hxs : ∀ x ∈ xs, IsInt64 x) :
    Tokenizer.Next ⟨tok, BodyText xs⟩ = .ok (TokensAt xs) := by
  cases xs with
  | nil => rfl
  | cons x xs =>
    simp only [BodyText, TokensAt]
    rw [Next_number tok x (hxs x (List.mem_cons_self _ _)) _ (peekIs_TailText xs)]

theorem Tokenizer_new_ListText (xs : List Int) :
    Tokenizer.new (ListText xs) = .ok ⟨some (.BracketToken .OPEN), BodyText xs⟩ := rfl

theorem length_TailText (ys : List Int) : ys.length + 1 ≤ (TailText ys).length := by
  induction ys with
  | nil => simp [TailText]
  | cons y ys ih => simp only [TailText, List.length_cons, List.length_append]; omega

theorem length_ListText (xs : List Int) : xs.length + 1 ≤ (ListText xs).length := by
  cases xs with
  | nil => simp [ListText, BodyText]
  | cons x xs =>
    have := length_TailText xs
    simp only [ListText, BodyText, List.length_cons, List.length_append]
    omega

/-! ## The parser on the text of a list of integers -/

theorem SetSecondOfLast_tail (y : Obj) :
    ∀ (x : Obj) (l : List Obj),
      SetSecondOfLast (MakeAllListsTail (x :: l)) (.cell y .null false) =
        MakeAllListsTail (x :: l ++ [y]) := by
  intro x l
  induction l generalizing x with
  | nil => rfl
  | cons z l ih =>
    have := ih z
    simp only [MakeAllListsTail, SetSecondOfLast, List.cons_append] at this ⊢
    rw [this]

theorem SetSecondOfLast_list (y x : Obj) (l : List Obj) :
    SetSecondOfLast (MakeAllListsImpl (x :: l)) (.cell y .null false) =
      MakeAllListsImpl (x :: l ++ [y]) := by
  cases l with
  | nil => rfl
  | cons z l =>
    have := SetSecondOfLast_tail y z l
    simp only [MakeAllListsImpl, MakeAllListsTail, SetSecondOfLast, List.cons_append] at this ⊢
    rw [this]
    rfl

theorem Read_number (fuel : Nat) (y : Int) (ys : List Int) (hys : ∀ z ∈ ys, IsInt64 z) :
    Read (fuel + 1) (TokensAt (y :: ys)) = .ok (.number y, TokensAt ys) := by
  simp only [Read, TokensAt, Next_TailText _ ys hys]

theorem ReadList_numbers :
    ∀ (ys done : List Int) (fuel : Nat), ys.length + 1 ≤ fuel → (∀ y ∈ ys, IsInt64 y) →
      ReadList fuel (TokensAt ys) (MakeAllListsImpl (done.map .number)) false false =
        .ok (MakeAllListsImpl ((done ++ ys).map .number), ⟨none, []⟩) := by
  intro ys
  induction ys with
  | nil =>
    intro done fuel hf _
    obtain ⟨f, rfl⟩ : ∃ f, fuel = f + 1 := ⟨fuel - 1, by simp at hf; omega⟩
    simp only [List.append_nil]
    rfl
  | cons y ys ih =>
    intro done fuel hf hys
    simp only [List.length_cons] at hf
    obtain ⟨f, rfl⟩ : ∃ f, fuel = f + 1 + 1 := ⟨fuel - 2, by omega⟩
    have hys' : ∀ z ∈ ys, IsInt64 z := fun z hz => hys z (List.mem_cons_of_mem _ hz)
    have hread := Read_number f y ys hys'
    cases done with
    | nil =>
      have := ih [y] (f + 1) (by omega) hys'
      simp only [TokensAt] at hread
      simp only [ReadList, TokensAt, hread, List.map_nil, MakeAllListsImpl, Obj.isNull,
        Bool.false_eq_true, if_false, if_true, List.nil_append]
      simpa [MakeAllListsImpl, MakeAllListsTail] using this
    | cons d ds =>
      have := ih (d :: ds ++ [y]) (f + 1) (by omega) hys'
      have hset := SetSecondOfLast_list (.number y) (.number d) (ds.map .number)
      simp only [TokensAt] at hread
      simp only [MakeAllListsImpl, List.map_cons] at hset
      simp only [ReadList, TokensAt, hread, List.map_cons, MakeAllListsImpl, Obj.isNull,
        Bool.false_eq_true, if_false, hset]
      simpa [MakeAllListsImpl, MakeAllListsTail] using this

/-! ## The printer on a list of integers, and the round trip -/

theorem ToString_cell_null (a : Obj) (is_head : Bool) (fa : List Char)
    (ha : a.isNull = false) (h1 : ToString a = .ok fa) :
    ToString (.cell a .null is_head) = .ok ((if is_head then ['('] else []) ++ fa ++ [')']) := by
  have hn : Obj.isNull .null = true := rfl
  rw [ToString]
  simp only [ha, h1, hn, Bool.false_eq_true, if_false, if_true]

theorem ToString_cell_cell (a f s : Obj) (h is_head : Bool) (fa fs : List Char)
    (ha : a.isNull = false) (h1 : ToString a = .ok fa) (h2 : ToString (.cell f s h) = .ok fs) :
    ToString (.cell a (.cell f s h) is_head) =
      .ok ((if is_head then ['('] else []) ++ fa ++ [' '] ++ fs) := by
  have hn : (Obj.cell f s h).isNull = false := rfl
  have hc : (Obj.cell f s h).IsCell = true := rfl
  rw [ToString]
  simp only [ha, h1, h2, hn, hc, Bool.false_eq_true, if_false, Bool.not_true]

theorem ToString_tail :
    ∀ (ys : List Int) (y : Int),
      ToString (MakeAllListsTail ((y :: ys).map .number)) = .ok (to_string y ++ TailText ys) := by
  intro ys
  induction ys with
  | nil =>
    intro y
    exact ToString_cell_null (.number y) false _ rfl rfl
  | cons z ys ih =>
    intro y
    have hz := ih z
    simp only [List.map_cons, MakeAllListsTail] at hz
    simp only [List.map_cons, MakeAllListsTail]
    rw [ToString_cell_cell (.number y) _ _ _ false _ _ rfl rfl hz]
    simp [TailText]

theorem ToString_list (x : Int) (xs : List Int) :
    ToString (MakeAllListsImpl ((x :: xs).map .number)) = .ok (ListText (x :: xs)) := by
  cases xs with
  | nil => exact ToString_cell_null (.number x) true _ rfl rfl
  | cons z ys =>
    have hz := ToString_tail ys z
    simp only [List.map_cons, MakeAllListsTail] at hz
    simp only [List.map_cons, MakeAllListsImpl, MakeAllListsTail]
    rw [ToString_cell_cell (.number x) _ _ _ true _ _ rfl rfl hz]
    simp [ListText, BodyText, TailText]

theorem Render_list (xs : List Int) :
    Render (MakeAllListsImpl (xs.map .number)) = .ok (String.mk (ListText xs)) := by
  cases xs with
  | nil => rfl
  | cons x xs =>
    have h := ToString_list x xs
    simp only [List.map_cons, MakeAllListsImpl] at h
    simp only [Render, List.map_cons, MakeAllListsImpl, Obj.isNull, Bool.false_eq_true, if_false, h]

theorem Parse_ListText (xs : List Int) (hxs : ∀ x ∈ xs, IsInt64 x) :
    Interpreter.Parse (String.mk (ListText xs)) = .ok (MakeAllListsImpl (xs.map .number)) := by
  have hlen := length_ListText xs
  have hnew := Tokenizer_new_ListText xs
  have hbody := Next_BodyText (some (.BracketToken .OPEN)) xs hxs
  have hloop := ReadList_numbers xs [] (2 * (ListText xs).length + 1) (by omega) hxs
  simp only [List.map_nil, MakeAllListsImpl, List.nil_append] at hloop
  have hl : (String.mk (ListText xs)).length = (ListText xs).length := rfl
  have ht : (String.mk (ListText xs)).toList = ListText xs := rfl
  simp only [Interpreter.Parse, ht, hl, hnew, Read, hbody, hloop, Tokenizer.IsEnd]
  rfl

/-- C1: for every finite sequence `xs` of signed 64-bit integers, the proper list holding them
renders as the text `()` or `(a1 a2 ... an)`, parsing that text succeeds with the same list as
result, and rendering the parsed result yields the text again. -/
theorem print_parse_roundtrip (xs : List Int) (hxs : ∀ x ∈ xs, IsInt64 x) :
    ∃ (t : String) (parsed : Obj),
      Render (MakeAllListsImpl (xs.map .number)) = .ok t ∧ t.toList = ListText xs ∧
      Interpreter.Parse t = .ok parsed ∧ Render parsed = .ok t :=
  ⟨String.mk (ListText xs), MakeAllListsImpl (xs.map .number), Render_list xs, rfl,
    Parse_ListText xs hxs, Render_list xs⟩

/-- Witness of C1 at the integers -9223372036854775808, 0 and 42. -/
theorem print_parse_roundtrip_witness :
    (∀ x ∈ [(-9223372036854775808 : Int), 0, 42], IsInt64 x) ∧
    ∃ (t : String) (parsed : Obj),
      Render (MakeAllListsImpl ([(-9223372036854775808 : Int), 0, 42].map .number)) = .ok t ∧
      t.toList = ListText [(-9223372036854775808 : Int), 0, 42] ∧
      Interpreter.Parse t = .ok parsed ∧ Render parsed = .ok t :=
  ⟨by decide, print_parse_roundtrip [(-9223372036854775808 : Int), 0, 42] (by decide)⟩

/-! ## `list?` -/

theorem IsListImpl_iff_ProperList (v : Obj) : IsListImpl v = true ↔ ProperList v := by
  induction v with
  | null => exact ⟨fun _ => .empty, fun _ => rfl⟩
  | cell first second is_head _ ih =>
    constructor
    · intro h
      exact .pair first second is_head (ih.mp (by simpa [IsListImpl] using h))
    · intro h
      cases h with
      | pair _ _ _ hs => simpa [IsListImpl] using ih.mpr hs
  | number _ => exact ⟨fun h => by simp [IsListImpl] at h, fun h => by cases h⟩
  | symbol _ => exact ⟨fun h => by simp [IsListImpl] at h, fun h => by cases h⟩
  | boolean _ => exact ⟨fun h => by simp [IsListImpl] at h, fun h => by cases h⟩
  | function _ => exact ⟨fun h => by simp [IsListImpl] at h, fun h => by cases h⟩

theorem IsListImpl_MakeAllListsTail (vs : List Obj) : IsListImpl (MakeAllListsTail vs) = true := by
  induction vs with
  | nil => rfl
  | cons v vs ih => simpa [MakeAllListsTail, IsListImpl] using ih

theorem IsListImpl_MakeAllListsImpl (vs : List Obj) : IsListImpl (MakeAllListsImpl vs) = true := by
  cases vs with
  | nil => rfl
  | cons v vs => simpa [MakeAllListsImpl, IsListImpl] using IsListImpl_MakeAllListsTail vs

theorem EvalArgsLoop_ok (es : List Obj) (hes : ∀ e ∈ es, ∃ v, Interpreter.Eval e = .ok v) :
    ∃ vs, EvalArgsLoop (ObjectEval global_scope_) es = .ok vs := by
  induction es with
  | nil => exact ⟨[], rfl⟩
  | cons e es ih =>
    obtain ⟨v, hv⟩ := hes e (List.mem_cons_self _ _)
    obtain ⟨hn, hev⟩ := Interpreter_Eval_ok e v hv
    obtain ⟨vs, hvs⟩ := ih (fun x hx => hes x (List.mem_cons_of_mem _ hx))
    exact ⟨v :: vs, by simp [EvalArgsLoop, hn, hev, hvs]⟩

theorem eval_is_list (e v : Obj) (h1 h2 : Bool) (he : ObjectEval global_scope_ e = .ok v)
    (hn : e.isNull = false) :
    Interpreter.Eval (IsListExpr e h1 h2) = .ok (.boolean (IsListImpl v)) := by
  unfold IsListExpr
  rw [Interpreter_Eval_cell]
  rw [CellEval_builtin (ObjectEval global_scope_) "list?" .IsList _ [e] [v] (by rfl) (by rfl)
    (by simp [EvalArgsLoop, hn, he]) (by decide) (by decide) (by decide)]
  rfl

/-- C11: if the argument expression `e` evaluates to `v`, then `(list? e)` evaluates to the
Boolean `IsListImpl v`, which is true exactly when `v` is a proper list (the empty value or a
chain of Pairs ending in the empty value) and false for every other value.  In particular
`(list? (list e1 ... en))` is `#t` for every `n` when the `ei` evaluate, and
`(list? (cons a b))` is `#f` when `b` evaluates to a value that is neither a Pair nor empty. -/
theorem list_predicate :
    (∀ (e v : Obj) (h1 h2 : Bool), Interpreter.Eval e = .ok v →
      Interpreter.Eval (IsListExpr e h1 h2) = .ok (.boolean (IsListImpl v)) ∧
      (IsListImpl v = true ↔ ProperList v)) ∧
    (∀ (args : Obj) (es : List Obj) (h1 h2 k : Bool), GetArgsList args = .ok es →
      (∀ e ∈ es, ∃ v, Interpreter.Eval e = .ok v) →
      Interpreter.Eval (IsListExpr (.cell (.symbol "list") args k) h1 h2) =
        .ok (.boolean true)) ∧
    (∀ (a b va vb : Obj) (h1 h2 k1 k2 k3 : Bool), Interpreter.Eval a = .ok va →
      Interpreter.Eval b = .ok vb → vb.IsCell = false → vb.isNull = false →
      Interpreter.Eval (IsListExpr (ConsExpr a b k1 k2 k3) h1 h2) = .ok (.boolean false)) := by
  refine ⟨fun e v h1 h2 he => ?_, fun args es h1 h2 k hargs hes => ?_,
    fun a b va vb h1 h2 k1 k2 k3 ha hb hcell hnull => ?_⟩
  · obtain ⟨hn, hev⟩ := Interpreter_Eval_ok e v he
    exact ⟨eval_is_list e v h1 h2 hev hn, IsListImpl_iff_ProperList v⟩
  · obtain ⟨vs, hvs⟩ := EvalArgsLoop_ok es hes
    have hlist : ObjectEval global_scope_ (.cell (.symbol "list") args k) =
        .ok (MakeAllListsImpl vs) := by
      rw [ObjectEval_cell, CellEval_builtin (ObjectEval global_scope_) "list" .MakeList _ es vs
        (by rfl) hargs hvs (by decide) (by decide) (by decide)]
      rfl
    rw [eval_is_list _ _ h1 h2 hlist rfl, IsListImpl_MakeAllListsImpl]
  · have hcons := eval_cons a b va vb k1 k2 k3 ha hb
    unfold ConsExpr
    rw [eval_is_list _ _ h1 h2 hcons rfl]
    cases vb <;> simp_all [IsListImpl, Obj.IsCell, Obj.isNull]

/-- Witness of C11 at `(list? 5)`, `(list? (list 1 2))` and `(list? (cons 1 2))`. -/
theorem list_predicate_witness :
    Interpreter.Eval (.number 5) = .ok (.number 5) ∧
    Interpreter.Eval (IsListExpr (.number 5) true false) =
      .ok (.boolean (IsListImpl (.number 5))) ∧
    Interpreter.Eval (IsListExpr (.cell (.symbol "list")
      (.cell (.number 1) (.cell (.number 2) .null false) false) true) true false) =
        .ok (.boolean true) ∧
    Interpreter.Eval (IsListExpr (ConsExpr (.number 1) (.number 2) true false false)
      true false) = .ok (.boolean false) :=
  ⟨by decide,
    (list_predicate.1 (.number 5) (.number 5) true false (by decide)).1,
    list_predicate.2.1 (.cell (.number 1) (.cell (.number 2) .null false) false)
      [.number 1, .number 2] true false true (by decide)
      (fun e he => by
        simp only [List.mem_cons, List.mem_singleton, List.not_mem_nil, or_false] at he
        rcases he with rfl | rfl
        · exact ⟨.number 1, by decide⟩
        · exact ⟨.number 2, by decide⟩),
    list_predicate.2.2 (.number 1) (.number 2) (.number 1) (.number 2) true false true false
      false (by decide) (by decide) (by decide) (by decide)⟩

/-! ## Comparisons -/

/-- C12, the failing input: `(= 4294967296 0)` is `#t` and `(< 0 4294967296)` is `#f`, where
the 64-bit values are different and ordered: both operands are read through
`Number::GetValue`, which cuts them to 32 bits.  Within 32 bits the chain is as claimed. -/
theorem comparison_truncates :
    Interpreter.Run "(= 4294967296 0)" = .ok "#t" ∧
    Interpreter.Run "(< 0 4294967296)" = .ok "#f" ∧
    Interpreter.Run "(< 1 2 3)" = .ok "#t" ∧
    Interpreter.Run "(< 1 3 2)" = .ok "#f" ∧
    Interpreter.Run "(<)" = .ok "#t" ∧
    Interpreter.Run "(< 1 #t)" = .error .RuntimeError := by
  refine ⟨by decide, by decide, by decide, by decide, by decide, by decide⟩

/-! ## Evaluation of a Pair -/

theorem LookUp_of_not_Bound (scope : Scope) (name : String) (h : scope.Bound name = false) :
    scope.LookUp name = .error .NameError := by
  match scope with
  | .mk s none =>
    simp only [Scope.Bound] at h
    cases hl : s.lookup name with
    | none => simp only [Scope.LookUp, hl]
    | some obj => rw [hl] at h; simp at h
  | .mk s (some p) =>
    simp only [Scope.Bound, Bool.or_eq_false_iff] at h
    cases hl : s.lookup name with
    | none =>
      simp only [Scope.LookUp, hl]
      exact LookUp_of_not_Bound p name h.2
    | some obj => rw [hl] at h; simp at h

/-- C16: the evaluation of a Pair in a scope fails with `RuntimeError` when its `first` is
empty and when its `first` is not a Symbol; when `first` is a Symbol bound neither in the scope
nor in an ancestor it fails with `NameError`; when `first` is a Symbol that the scope binds to
a built-in, the result is the `Apply` of that built-in on the unevaluated `second`.  The
interpreter evaluates a Pair in the global scope. -/
theorem cell_eval (scope : Scope) (first second : Obj) (is_head : Bool) :
    (first = .null → ObjectEval scope (.cell first second is_head) = .error .RuntimeError) ∧
    (first.IsSymbol = false →
      ObjectEval scope (.cell first second is_head) = .error .RuntimeError) ∧
    (∀ name, first = .symbol name → scope.Bound name = false →
      ObjectEval scope (.cell first second is_head) = .error .NameError) ∧
    (∀ name f, first = .symbol name → scope.LookUp name = .ok (.function f) →
      ObjectEval scope (.cell first second is_head) =
        FunctionApply (ObjectEval scope) f second) ∧
    Interpreter.Eval (.cell first second is_head) =
      ObjectEval global_scope_ (.cell first second is_head) := by
  rw [ObjectEval_cell]
  refine ⟨fun h => ?_, fun h => ?_, fun name h hb => ?_, fun name f h hl => ?_, ?_⟩
  · subst h; rfl
  · cases first <;> simp_all [CellEval, Obj.IsSymbol, Obj.isNull]
  · subst h
    simp only [CellEval, Obj.isNull, LookUp_of_not_Bound scope name hb]
    rfl
  · subst h
    simp only [CellEval, Obj.isNull, hl, Apply]
    rfl
  · rw [Interpreter_Eval_cell, ObjectEval_cell]

/-- Witness of C16 at `(() 1)`, `(1 2)`, `(undefined-symbol 1)` and `(car 1)`. -/
theorem cell_eval_witness :
    Interpreter.Eval (.cell .null (.cell (.number 1) .null false) true) =
      .error .RuntimeError ∧
    Interpreter.Eval (.cell (.number 1) (.cell (.number 2) .null false) true) =
      .error .RuntimeError ∧
    global_scope_.Bound "undefined-symbol" = false ∧
    ObjectEval global_scope_
      (.cell (.symbol "undefined-symbol") (.cell (.number 1) .null false) true) =
        .error .NameError ∧
    global_scope_.LookUp "car" = .ok (.function .Car) ∧
    ObjectEval global_scope_ (.cell (.symbol "car") (.cell (.number 1) .null false) true) =
      FunctionApply (ObjectEval global_scope_) .Car (.cell (.number 1) .null false) :=
  ⟨by decide, by decide, by decide,
    (cell_eval global_scope_ (.symbol "undefined-symbol") (.cell (.number 1) .null false)
      true).2.2.1 "undefined-symbol" rfl (by decide),
    by decide,
    (cell_eval global_scope_ (.symbol "car") (.cell (.number 1) .null false)
      true).2.2.2.1 "car" .Car rfl (by decide)⟩

/-! ## `quote` with a wrong number of arguments, `cons` on a list -/

/-- C17, the failing input: `(quote)` parses to a Pair whose `second` is null, and
`Quote::Apply` calls `GetSecond` through the null result of `As<Cell>`: a host fault, not a
`RuntimeError`.  With two arguments, `(quote a b)`, it throws `RuntimeError` as claimed. -/
theorem quote_without_argument :
    Interpreter.Parse "(quote)" = .ok (.cell (.symbol "quote") .null true) ∧
    Interpreter.Eval (.cell (.symbol "quote") .null true) = .error .HostFault ∧
    Interpreter.Run "(quote)" = .error .HostFault ∧
    Interpreter.Run "(quote a b)" = .error .RuntimeError := by
  refine ⟨by decide, by decide, by decide, by decide⟩

/-- C19, the failing input: the value of `(cons 1 (list 2 3))` renders as `(1 (2 3)`, with a
second opening bracket and no matching closing one, not as `(1 2 3)`: `Cons::Apply` installs
the list as `second` without clearing its list-head flag, which `ReadList` does clear when it
installs a dotted tail. -/
theorem cons_list_rendering :
    Interpreter.Run "(cons 1 (list 2 3))" = .ok "(1 (2 3)" ∧
    Interpreter.Run "(quote (1 . (2 3)))" = .ok "(1 2 3)" := by
  refine ⟨by decide, by decide⟩

/-- C14, the failing input: `(1 . . 2)` parses, to the Pair `(1 . 2)`: the dot branch of
`ReadList` tests `need_close_bracket` and `root` but not `dotted`, so a dot directly after a
dot is accepted.  A second dot after the dotted tail's element, `(1 . 2 . 3)`, is a
`SyntaxError` as claimed. -/
theorem second_dot_after_dot :
    Interpreter.Parse "(1 . . 2)" = .ok (.cell (.number 1) (.number 2) true) ∧
    Interpreter.Parse "(1 . 2)" = .ok (.cell (.number 1) (.number 2) true) ∧
    Interpreter.Parse "(1 . 2 . 3)" = .error .SyntaxError := by
  refine ⟨by decide, by decide, by decide⟩

/-! ## The symbol rule of the tokenizer -/

theorem AmendedMiddle_eq : AmendedMiddle = IsMiddleSymbolToken := by
  funext c
  simp only [AmendedMiddle, IsMiddleSymbolToken, IsFirstSymbolToken]
  ac_rfl

theorem isalpha_facts (c : Char) (h : isalpha c = true) :
    isspace c = false ∧ c ≠ '\'' ∧ IsDotToken c = false ∧ IsBracketToken c = false ∧
      c ≠ '#' ∧ c ≠ '+' ∧ c ≠ '-' := by
  have hne : ∀ d : Char, isalpha d = false → c ≠ d := by
    intro d hd hcd
    subst hcd
    rw [hd] at h
    exact Bool.noConfusion h
  have hb : (65 ≤ c.toNat ∧ c.toNat ≤ 90) ∨ (97 ≤ c.toNat ∧ c.toNat ≤ 122) := by
    simpa [isalpha] using h
  have hsp : isspace c = false := by
    simp only [isspace, Bool.or_eq_false_iff, decide_eq_false_iff_not, Bool.and_eq_false_iff,
      Nat.not_le]
    omega
  refine ⟨hsp, hne _ (by decide), ?_, ?_, hne _ (by decide), hne _ (by decide),
    hne _ (by decide)⟩
  · simp [IsDotToken, hne '.' (by decide)]
  · simp [IsBracketToken, hne '(' (by decide), hne ')' (by decide)]

theorem SymbolStart_facts (c : Char) (h : SymbolStart c = true) :
    isspace c = false ∧ c ≠ '\'' ∧ IsDotToken c = false ∧ IsBracketToken c = false ∧
      c ≠ '+' ∧ c ≠ '-' := by
  simp only [SymbolStart, Bool.or_eq_true, decide_eq_true_eq] at h
  rcases h with (((((h | h) | h) | h) | h) | h) | h
  · obtain ⟨f1, f2, f3, f4, _, f6, f7⟩ := isalpha_facts c h
    exact ⟨f1, f2, f3, f4, f6, f7⟩
  all_goals subst h; decide

theorem peekIs_dropWhile (p : Char → Bool) (l : List Char) :
    peekIs p (l.dropWhile p) = false := by
  induction l with
  | nil => rfl
  | cons x xs ih =>
    cases hx : p x with
    | true => simpa [List.dropWhile, hx] using ih
    | false => simp [List.dropWhile, hx, peekIs]

/-- C20, counterexample: on the text `<=` the tokenizer reads the one Symbol token `<=` and
leaves nothing, where the rule of the claim ends the token before `=`: it gives the token `<`
and leaves `=`.  The built-in `<=` is bound under that two-character name. -/
theorem symbol_rule_counterexample :
    Tokenizer.Next ⟨none, ['<', '=']⟩ = .ok ⟨some (.SymbolToken "<="), []⟩ ∧
    String.mk ('<' :: ['='].takeWhile ClaimedMiddle) = "<" ∧
    ['='].dropWhile ClaimedMiddle = ['='] ∧
    Interpreter.Run "(<= 1 2)" = .ok "#t" := by
  refine ⟨by decide, by decide, by decide, by decide⟩

/-- C20, amended: a Symbol token (other than the one-character `+` and `-`) is a first
character that is a letter or one of `< = > * / #` (a `#` directly followed by `t` or `f`
excepted, which is a Boolean token), followed by the longest run of characters that are
letters, digits, or one of `< = > * / # ? ! -`; any other character ends the token.  A `+` or
`-` not followed by a digit is a one-character Symbol token. -/
theorem symbol_token_rule (tok : Option Token) (c : Char) (rest : List Char) :
    (SymbolStart c = true →
      ¬ (c = '#' ∧ (peekIs (fun x => x = 't') rest = true ∨
        peekIs (fun x => x = 'f') rest = true)) →
      Tokenizer.Next ⟨tok, c :: rest⟩ =
        .ok ⟨some (.SymbolToken (String.mk (c :: rest.takeWhile AmendedMiddle))),
          rest.dropWhile AmendedMiddle⟩ ∧
      peekIs AmendedMiddle (rest.dropWhile AmendedMiddle) = false) ∧
    ((c = '+' ∨ c = '-') → peekIs isdigit rest = false →
      Tokenizer.Next ⟨tok, c :: rest⟩ = .ok ⟨some (.SymbolToken (String.mk [c])), rest⟩) := by
  constructor
  · intro hstart hbool
    obtain ⟨f1, f2, f3, f4, f5, f6⟩ := SymbolStart_facts c hstart
    have hfirst : IsFirstSymbolToken c = true := hstart
    have hdw : List.dropWhile isspace (c :: rest) = c :: rest := by
      simp [List.dropWhile, f1]
    have hb : (decide (c = '#') && (peekIs (fun x => decide (x = 't')) rest ||
        peekIs (fun x => decide (x = 'f')) rest)) = false := by
      by_cases hc : c = '#'
      · have h1 : ¬ (peekIs (fun x => decide (x = 't')) rest = true ∨
            peekIs (fun x => decide (x = 'f')) rest = true) := fun h => hbool ⟨hc, h⟩
        rw [not_or, Bool.not_eq_true, Bool.not_eq_true] at h1
        rw [h1.1, h1.2]
        simp
      · simp [hc]
    constructor
    · unfold Tokenizer.Next
      simp only [hdw, f2, f3, f4, f5, f6, hb, hfirst, AmendedMiddle_eq, if_false, if_true,
        decide_False, Bool.false_or, Bool.false_and, Bool.false_eq_true]
    · exact peekIs_dropWhile AmendedMiddle rest
  · intro hsign hpeek
    have hdw : List.dropWhile isspace (c :: rest) = c :: rest := by
      rcases hsign with h | h <;> subst h <;> rfl
    unfold Tokenizer.Next
    rw [hdw]
    rcases hsign with h | h <;> subst h <;> simp [hpeek, IsDotToken, IsBracketToken]

/-- Witness of C20 (amended) at the texts `list-ref)` and `- 1`. -/
theorem symbol_token_rule_witness :
    Tokenizer.Next ⟨none, "list-ref)".toList⟩ = .ok ⟨some (.SymbolToken "list-ref"), [')']⟩ ∧
    Tokenizer.Next ⟨none, "- 1".toList⟩ = .ok ⟨some (.SymbolToken "-"), [' ', '1']⟩ :=
  ⟨((symbol_token_rule none 'l' "ist-ref)".toList).1 (by decide) (by decide)).1,
    (symbol_token_rule none '-' " 1".toList).2 (by decide) (by decide)⟩

/-! ## The tokenizer is local: a text that follows does not change the tokens read before it -/

theorem dropWhile_append_of_nil (p : Char → Bool) (S : List Char) :
    ∀ cs : List Char, cs.dropWhile p = [] → (cs ++ S).dropWhile p = S.dropWhile p := by
  intro cs
  induction cs with
  | nil => intro _; rfl
  | cons x xs ih =>
    intro h
    cases hx : p x with
    | true =>
      simp only [List.dropWhile, hx] at h
      simpa [List.dropWhile, hx] using ih h
    | false => simp [List.dropWhile, hx] at h

theorem dropWhile_append_of_cons (p : Char → Bool) (S : List Char) (c : Char) (rest : List Char) :
    ∀ cs : List Char, cs.dropWhile p = c :: rest → (cs ++ S).dropWhile p = c :: (rest ++ S) := by
  intro cs
  induction cs with
  | nil => intro h; simp at h
  | cons x xs ih =>
    intro h
    cases hx : p x with
    | true =>
      simp only [List.dropWhile, hx] at h
      simpa [List.dropWhile, hx] using ih h
    | false =>
      simp only [List.dropWhile, hx, List.cons.injEq] at h
      obtain ⟨rfl, rfl⟩ := h
      simp [List.dropWhile, hx]

theorem takeWhile_append_stop (p : Char → Bool) (d : Char) (R : List Char) (hd : p d = false) :
    ∀ rest : List Char, (rest ++ d :: R).takeWhile p = rest.takeWhile p ∧
      (rest ++ d :: R).dropWhile p = rest.dropWhile p ++ d :: R := by
  intro rest
  induction rest with
  | nil => simp [List.takeWhile, List.dropWhile, hd]
  | cons x xs ih =>
    cases hx : p x with
    | true => simp [List.takeWhile, List.dropWhile, hx, ih.1, ih.2]
    | false => simp [List.takeWhile, List.dropWhile, hx]

theorem peekIs_append (p : Char → Bool) (d : Char) (R : List Char) (hd : p d = false)
    (rest : List Char) : peekIs p (rest ++ d :: R) = peekIs p rest := by
  cases rest with
  | nil => simpa [peekIs] using hd
  | cons x xs => rfl

theorem not_middle_facts (d : Char) (hd : IsMiddleSymbolToken d = false) :
    isdigit d = false ∧ decide (d = 't') = false ∧ decide (d = 'f') = false := by
  simp only [IsMiddleSymbolToken, IsFirstSymbolToken, Bool.or_eq_false_iff] at hd
  have halpha : isalpha d = false := hd.1.1.1.1.1.1.1.1.1.1
  have hne : ∀ x : Char, isalpha x = true → decide (d = x) = false := by
    intro x hx
    simp only [decide_eq_false_iff_not]
    rintro rfl
    rw [halpha] at hx
    exact Bool.noConfusion hx
  exact ⟨hd.1.1.1.2, hne 't' (by decide), hne 'f' (by decide)⟩

theorem Next_token_irrelevant (t1 t2 : Option Token) (cs : List Char) :
    Tokenizer.Next ⟨t1, cs⟩ = Tokenizer.Next ⟨t2, cs⟩ := rfl

theorem Next_append (t0 : Option Token) (cs : List Char) (d : Char) (R : List Char)
    (hd : IsMiddleSymbolToken d = false) :
    Tokenizer.Next ⟨t0, cs ++ d :: R⟩ =
      (match Tokenizer.Next ⟨t0, cs⟩ with
       | .error e => .error e
       | .ok tk => tk.extend (d :: R)) := by
  obtain ⟨hdig, ht, hf⟩ := not_middle_facts d hd
  cases hdw : cs.dropWhile isspace with
  | nil =>
    have h1 := dropWhile_append_of_nil isspace (d :: R) cs hdw
    have h2 : Tokenizer.Next ⟨t0, cs⟩ = .ok ⟨none, []⟩ := by
      simp only [Tokenizer.Next, hdw]
    rw [h2]
    simp only [Tokenizer.extend, Option.isSome_none, Bool.false_eq_true, if_false]
    simp only [Tokenizer.Next, h1]
  | cons c rest =>
    have h1 := dropWhile_append_of_cons isspace (d :: R) c rest cs hdw
    have hp1 := peekIs_append (fun x => decide (x = 't')) d R ht rest
    have hp2 := peekIs_append (fun x => decide (x = 'f')) d R hf rest
    have hp3 := peekIs_append isdigit d R hdig rest
    obtain ⟨hs1, hs2⟩ := takeWhile_append_stop IsMiddleSymbolToken d R hd rest
    obtain ⟨hc1, hc2⟩ := takeWhile_append_stop IsMiddleConstantToken d R hdig rest
    simp only [Tokenizer.Next, hdw, h1, hp1, hp2, hp3, hs1, hs2, hc1, hc2]
    split_ifs with g1 g2 g3 g4 g5 g6 g7 g8
    · rfl
    · rfl
    · rfl
    · rfl
    · cases rest with
      | nil => simp [peekIs] at g5
      | cons x xs => rfl
    · rfl
    · rfl
    · cases stoll (c :: List.takeWhile IsMiddleConstantToken rest) <;> rfl
    · rfl

/-! ## Fuel of the parser: more fuel does not change a result -/

theorem Read_fuel_step :
    ∀ fuel : Nat,
      (∀ tk, Read fuel tk ≠ .error .OutOfFuel → Read (fuel + 1) tk = Read fuel tk) ∧
      (∀ tk root d n, ReadList fuel tk root d n ≠ .error .OutOfFuel →
        ReadList (fuel + 1) tk root d n = ReadList fuel tk root d n) := by
  intro fuel
  induction fuel with
  | zero =>
    exact ⟨fun tk h => absurd (Read.eq_1 tk) h,
      fun tk root d n h => absurd (ReadList.eq_1 tk root d n) h⟩
  | succ f ih =>
    obtain ⟨ihR, ihL⟩ := ih
    constructor
    · intro tk h
      rw [Read.eq_2 tk (f + 1)]
      rw [Read.eq_2 tk f] at h ⊢
      cases htok : tk.token_ with
      | none => rfl
      | some token =>
        rw [htok] at h
        cases hnext : tk.Next with
        | error e => rfl
        | ok tk1 =>
          rw [hnext] at h
          cases token with
          | BracketToken b =>
            cases b with
            | OPEN => exact ihL tk1 .null false false h
            | CLOSE => rfl
          | SymbolToken name => rfl
          | ConstantToken value => rfl
          | BooleanToken value => rfl
          | DotToken => rfl
          | QuoteToken =>
            by_cases hq : Read f tk1 = .error .OutOfFuel
            · exact absurd (by simp only [hq]) h
            · simp only [ihR tk1 hq]
    · intro tk root d n h
      rw [ReadList.eq_2 tk root d n (f + 1)]
      rw [ReadList.eq_2 tk root d n f] at h ⊢
      have helem : ∀ tok : Token,
          (if n = true then (Except.error Error.SyntaxError : Except Error (Obj × Tokenizer))
           else
            match Read f tk with
            | .error e => .error e
            | .ok (head, tokenizer) =>
              if root.isNull = true then ReadList f tokenizer (.cell head .null true) d n
              else if d = true then
                ReadList f tokenizer (SetSecondOfLast root (SetIsHead false head)) false true
              else ReadList f tokenizer (SetSecondOfLast root (.cell head .null false)) d n) ≠
            .error .OutOfFuel →
          (if n = true then (Except.error Error.SyntaxError : Except Error (Obj × Tokenizer))
           else
            match Read (f + 1) tk with
            | .error e => .error e
            | .ok (head, tokenizer) =>
              if root.isNull = true then ReadList (f + 1) tokenizer (.cell head .null true) d n
              else if d = true then
                ReadList (f + 1) tokenizer (SetSecondOfLast root (SetIsHead false head)) false
                  true
              else
                ReadList (f + 1) tokenizer (SetSecondOfLast root (.cell head .null false)) d n) =
          (if n = true then (Except.error Error.SyntaxError : Except Error (Obj × Tokenizer))
           else
            match Read f tk with
            | .error e => .error e
            | .ok (head, tokenizer) =>
              if root.isNull = true then ReadList f tokenizer (.cell head .null true) d n
              else if d = true then
                ReadList f tokenizer (SetSecondOfLast root (SetIsHead false head)) false true
              else ReadList f tokenizer (SetSecondOfLast root (.cell head .null false)) d n) := by
        intro _ h
        cases n with
        | true => rfl
        | false =>
          simp only [Bool.false_eq_true, if_false] at h ⊢
          by_cases hq : Read f tk = .error .OutOfFuel
          · exact absurd (by simp only [hq]) h
          · rw [ihR tk hq]
            cases hr : Read f tk with
            | error e => rfl
            | ok r =>
              obtain ⟨head, tk2⟩ := r
              rw [hr] at h
              simp only at h ⊢
              cases hrn : root.isNull with
              | true =>
                rw [hrn] at h
                simp only [if_true] at h ⊢
                exact ihL _ _ _ _ h
              | false =>
                rw [hrn] at h
                cases d with
                | true =>
                  simp only [Bool.false_eq_true, if_false, if_true] at h ⊢
                  exact ihL _ _ _ _ h
                | false =>
                  simp only [Bool.false_eq_true, if_false] at h ⊢
                  exact ihL _ _ _ _ h
      cases htok : tk.token_ with
      | none => rfl
      | some token =>
        rw [htok] at h
        cases token with
        | BracketToken b =>
          cases b with
          | OPEN => exact helem (.BracketToken .OPEN) h
          | CLOSE => rfl
        | SymbolToken name => exact helem (.SymbolToken name) h
        | ConstantToken value => exact helem (.ConstantToken value) h
        | BooleanToken value => exact helem (.BooleanToken value) h
        | QuoteToken => exact helem .QuoteToken h
        | DotToken =>
          simp only at h ⊢
          cases n with
          | true => rfl
          | false =>
            cases hrn : root.isNull with
            | true => rfl
            | false =>
              rw [hrn] at h
              simp only [Bool.false_eq_true, if_false] at h ⊢
              cases hnext : tk.Next with
              | error e => rfl
              | ok tk1 =>
                rw [hnext] at h
                exact ihL _ _ _ _ h

theorem Read_fuel_add (tk : Tokenizer) (fuel : Nat) (h : Read fuel tk ≠ .error .OutOfFuel) :
    ∀ k : Nat, Read (fuel + k) tk = Read fuel tk := by
  intro k
  induction k with
  | zero => rfl
  | succ k ih =>
    have hk : Read (fuel + k) tk ≠ .error .OutOfFuel := by rw [ih]; exact h
    rw [← Nat.add_assoc, (Read_fuel_step (fuel + k)).1 tk hk, ih]

theorem Read_fuel_le (tk : Tokenizer) (f f' : Nat) (r : Obj × Tokenizer)
    (h : Read f tk = .ok r) (hle : f ≤ f') : Read f' tk = .ok r := by
  obtain ⟨k, rfl⟩ : ∃ k, f' = f + k := ⟨f' - f, by omega⟩
  rw [Read_fuel_add tk f (by rw [h]; exact fun hc => Except.noConfusion hc) k, h]

theorem ReadList_fuel_add (tk : Tokenizer) (root : Obj) (d n : Bool) (fuel : Nat)
    (h : ReadList fuel tk root d n ≠ .error .OutOfFuel) :
    ∀ k : Nat, ReadList (fuel + k) tk root d n = ReadList fuel tk root d n := by
  intro k
  induction k with
  | zero => rfl
  | succ k ih =>
    have hk : ReadList (fuel + k) tk root d n ≠ .error .OutOfFuel := by rw [ih]; exact h
    rw [← Nat.add_assoc, (Read_fuel_step (fuel + k)).2 tk root d n hk, ih]

theorem Read_ok_token (fuel : Nat) (tk : Tokenizer) (r : Obj × Tokenizer)
    (h : Read fuel tk = .ok r) : tk.token_.isSome = true := by
  cases fuel with
  | zero => rw [Read.eq_1] at h; exact Except.noConfusion h
  | succ f =>
    rw [Read.eq_2] at h
    cases htok : tk.token_ with
    | none => rw [htok] at h; exact Except.noConfusion h
    | some token => rfl

theorem ReadList_ok_token (fuel : Nat) (tk : Tokenizer) (root : Obj) (d n : Bool)
    (r : Obj × Tokenizer) (h : ReadList fuel tk root d n = .ok r) :
    tk.token_.isSome = true := by
  cases fuel with
  | zero => rw [ReadList.eq_1] at h; exact Except.noConfusion h
  | succ f =>
    rw [ReadList.eq_2] at h
    cases htok : tk.token_ with
    | none => rw [htok] at h; exact Except.noConfusion h
    | some token => rfl

theorem extend_of_isSome (S : List Char) (tk : Tokenizer) (h : tk.token_.isSome = true) :
    tk.extend S = .ok ⟨tk.token_, tk.in_ ++ S⟩ := by
  simp only [Tokenizer.extend, h, if_true]

/-! ## The parser is local: a text that follows does not change the expression read -/

theorem Read_extend_step (d : Char) (R : List Char) (hd : IsMiddleSymbolToken d = false) :
    ∀ fuel : Nat,
      (∀ (tok : Option Token) (inp : List Char) (o : Obj) (tk' : Tokenizer),
        Read fuel ⟨tok, inp⟩ = .ok (o, tk') →
        Read fuel ⟨tok, inp ++ d :: R⟩ =
          (match tk'.extend (d :: R) with
           | .error e => .error e
           | .ok t => .ok (o, t))) ∧
      (∀ (tok : Option Token) (inp : List Char) (root : Obj) (dt n : Bool) (o : Obj)
        (tk' : Tokenizer),
        ReadList fuel ⟨tok, inp⟩ root dt n = .ok (o, tk') →
        ReadList fuel ⟨tok, inp ++ d :: R⟩ root dt n =
          (match tk'.extend (d :: R) with
           | .error e => .error e
           | .ok t => .ok (o, t))) := by
  intro fuel
  induction fuel with
  | zero =>
    constructor
    · intro tok inp o tk' h
      rw [Read.eq_1] at h
      exact Except.noConfusion h
    · intro tok inp root dt n o tk' h
      rw [ReadList.eq_1] at h
      exact Except.noConfusion h
  | succ f ih =>
    obtain ⟨ihR, ihL⟩ := ih
    constructor
    · intro tok inp o tk' h
      rw [Read.eq_2] at h ⊢
      cases tok with
      | none => exact Except.noConfusion h
      | some token =>
        simp only at h ⊢
        rw [Next_append (some token) inp d R hd]
        cases hnext : Tokenizer.Next ⟨some token, inp⟩ with
        | error e => rw [hnext] at h; exact Except.noConfusion h
        | ok tk1 =>
          rw [hnext] at h
          obtain ⟨tok1, inp1⟩ := tk1
          simp only at h ⊢
          cases token with
          | BracketToken b =>
            cases b with
            | OPEN =>
              simp only at h ⊢
              have hs := ReadList_ok_token _ _ _ _ _ _ h
              rw [extend_of_isSome _ _ hs]
              exact ihL tok1 inp1 .null false false o tk' h
            | CLOSE => exact Except.noConfusion h
          | SymbolToken name =>
            simp only [Except.ok.injEq, Prod.mk.injEq] at h
            obtain ⟨rfl, rfl⟩ := h
            rfl
          | ConstantToken value =>
            simp only [Except.ok.injEq, Prod.mk.injEq] at h
            obtain ⟨rfl, rfl⟩ := h
            rfl
          | BooleanToken value =>
            simp only [Except.ok.injEq, Prod.mk.injEq] at h
            obtain ⟨rfl, rfl⟩ := h
            rfl
          | DotToken => exact Except.noConfusion h
          | QuoteToken =>
            simp only at h ⊢
            cases hr : Read f ⟨tok1, inp1⟩ with
            | error e => rw [hr] at h; exact Except.noConfusion h
            | ok r =>
              obtain ⟨first_subcell, tk2⟩ := r
              rw [hr] at h
              simp only [Except.ok.injEq, Prod.mk.injEq] at h
              obtain ⟨rfl, rfl⟩ := h
              have hs := Read_ok_token _ _ _ hr
              rw [extend_of_isSome _ _ hs]
              simp only
              rw [ihR tok1 inp1 first_subcell tk2 hr]
              cases tk2.extend (d :: R) <;> rfl
    · intro tok inp root dt n o tk' h
      rw [ReadList.eq_2] at h ⊢
      have helem :
          (if n = true then (Except.error Error.SyntaxError : Except Error (Obj × Tokenizer))
           else
            match Read f ⟨tok, inp⟩ with
            | .error e => .error e
            | .ok (head, tokenizer) =>
              if root.isNull = true then ReadList f tokenizer (.cell head .null true) dt n
              else if dt = true then
                ReadList f tokenizer (SetSecondOfLast root (SetIsHead false head)) false true
              else ReadList f tokenizer (SetSecondOfLast root (.cell head .null false)) dt n) =
            .ok (o, tk') →
          (if n = true then (Except.error Error.SyntaxError : Except Error (Obj × Tokenizer))
           else
            match Read f ⟨tok, inp ++ d :: R⟩ with
            | .error e => .error e
            | .ok (head, tokenizer) =>
              if root.isNull = true then ReadList f tokenizer (.cell head .null true) dt n
              else if dt = true then
                ReadList f tokenizer (SetSecondOfLast root (SetIsHead false head)) false true
              else ReadList f tokenizer (SetSecondOfLast root (.cell head .null false)) dt n) =
          (match tk'.extend (d :: R) with
           | .error e => .error e
           | .ok t => .ok (o, t)) := by
        intro h
        cases n with
        | true => exact Except.noConfusion h
        | false =>
          simp only [Bool.false_eq_true, if_false] at h ⊢
          cases hr : Read f ⟨tok, inp⟩ with
          | error e => rw [hr] at h; exact Except.noConfusion h
          | ok r =>
            obtain ⟨head, tk2⟩ := r
            obtain ⟨tok2, inp2⟩ := tk2
            rw [hr] at h
            simp only at h
            have hs : (Tokenizer.mk tok2 inp2).token_.isSome = true := by
              cases hrn : root.isNull with
              | true =>
                rw [hrn] at h
                exact ReadList_ok_token _ _ _ _ _ _ h
              | false =>
                rw [hrn] at h
                cases dt with
                | true => exact ReadList_ok_token _ _ _ _ _ _ h
                | false => exact ReadList_ok_token _ _ _ _ _ _ h
            rw [ihR tok inp head ⟨tok2, inp2⟩ hr, extend_of_isSome _ _ hs]
            simp only
            cases hrn : root.isNull with
            | true =>
              rw [hrn] at h
              exact ihL _ _ _ _ _ _ _ h
            | false =>
              rw [hrn] at h
              cases dt with
              | true => exact ihL _ _ _ _ _ _ _ h
              | false => exact ihL _ _ _ _ _ _ _ h
      cases tok with
      | none => exact Except.noConfusion h
      | some token =>
        cases token with
        | BracketToken b =>
          cases b with
          | OPEN => exact helem h
          | CLOSE =>
            simp only at h ⊢
            cases dt with
            | true => exact Except.noConfusion h
            | false =>
              simp only [Bool.false_eq_true, if_false] at h ⊢
              rw [Next_append _ inp d R hd]
              cases hnext : Tokenizer.Next ⟨some (.BracketToken .CLOSE), inp⟩ with
              | error e => rw [hnext] at h; exact Except.noConfusion h
              | ok tk1 =>
                rw [hnext] at h
                simp only [Except.ok.injEq, Prod.mk.injEq] at h
                obtain ⟨rfl, rfl⟩ := h
                rfl
        | SymbolToken name => exact helem h
        | ConstantToken value => exact helem h
        | BooleanToken value => exact helem h
        | QuoteToken => exact helem h
        | DotToken =>
          simp only at h ⊢
          cases n with
          | true => exact Except.noConfusion h
          | false =>
            cases hrn : root.isNull with
            | true => rw [hrn] at h; exact Except.noConfusion h
            | false =>
              rw [hrn] at h
              simp only [Bool.false_eq_true, if_false] at h ⊢
              rw [Next_append _ inp d R hd]
              cases hnext : Tokenizer.Next ⟨some .DotToken, inp⟩ with
              | error e => rw [hnext] at h; exact Except.noConfusion h
              | ok tk1 =>
                obtain ⟨tok1, inp1⟩ := tk1
                rw [hnext] at h
                simp only at h ⊢
                have hs := ReadList_ok_token _ _ _ _ _ _ h
                rw [extend_of_isSome _ _ hs]
                exact ihL _ _ _ _ _ _ _ h

/-! ## Parsing a text that contains complete expressions -/

theorem Parse_mk (cs : List Char) :
    Interpreter.Parse (String.mk cs) =
      (match Tokenizer.new cs with
       | .error e => .error e
       | .ok tk =>
         match Read (2 * cs.length + 2) tk with
         | .error e => .error e
         | .ok (expr, tk') => if !tk'.IsEnd then .error .SyntaxError else .ok expr) := rfl

theorem Parse_ok (cs : List Char) (o : Obj) (h : Interpreter.Parse (String.mk cs) = .ok o) :
    ∃ tk tk', Tokenizer.Next ⟨none, cs⟩ = .ok tk ∧ Read (2 * cs.length + 2) tk = .ok (o, tk') ∧
      tk'.token_.isSome = false := by
  rw [Parse_mk] at h
  unfold Tokenizer.new at h
  cases hn : Tokenizer.Next ⟨none, cs⟩ with
  | error e => rw [hn] at h; exact Except.noConfusion h
  | ok tk =>
    rw [hn] at h
    simp only at h
    cases hr : Read (2 * cs.length + 2) tk with
    | error e => rw [hr] at h; exact Except.noConfusion h
    | ok r =>
      obtain ⟨expr, tk'⟩ := r
      rw [hr] at h
      simp only [Tokenizer.IsEnd] at h
      cases ht : tk'.token_ with
      | some t => simp [ht] at h
      | none =>
        simp only [ht, Option.isNone_none, Bool.not_true, Bool.false_eq_true, if_false,
          Except.ok.injEq] at h
        subst h
        exact ⟨tk, tk', rfl, hr, by rw [ht]; rfl⟩

theorem Next_skip_spaces (t0 : Option Token) (cs : List Char) :
    ∀ w : List Char, (∀ c ∈ w, isspace c = true) →
      Tokenizer.Next ⟨t0, w ++ cs⟩ = Tokenizer.Next ⟨t0, cs⟩ := by
  intro w
  induction w with
  | nil => intro _; rfl
  | cons x xs ih =>
    intro h
    have hx := h x (List.mem_cons_self _ _)
    rw [← ih (fun c hc => h c (List.mem_cons_of_mem _ hc))]
    simp only [Tokenizer.Next, List.cons_append, List.dropWhile, hx]
    rfl

theorem Next_all_spaces (t0 : Option Token) (w : List Char) (h : ∀ c ∈ w, isspace c = true) :
    Tokenizer.Next ⟨t0, w⟩ = .ok ⟨none, []⟩ := by
  have := Next_skip_spaces t0 [] w h
  rw [List.append_nil] at this
  rw [this]
  rfl

/-- An expression read in context: when `X` is a complete expression text that parses to `o`
and the text `d :: R` follows it, `d` not continuing a token, then the tokenizer over
`X ++ d :: R` starts on a token and `Read` returns `o` and leaves the tokenizer on the first
token of `d :: R`. -/
theorem Read_in_context (X : List Char) (o : Obj) (d : Char) (R : List Char) (tS : Tokenizer)
    (hX : Interpreter.Parse (String.mk X) = .ok o) (hd : IsMiddleSymbolToken d = false)
    (hS : Tokenizer.Next ⟨none, d :: R⟩ = .ok tS) (t0 : Option Token) :
    ∃ tkX, Tokenizer.Next ⟨t0, X ++ d :: R⟩ = .ok tkX ∧
      ∀ fuel, 2 * X.length + 2 ≤ fuel → Read fuel tkX = .ok (o, tS) := by
  obtain ⟨tk, tk', hnew, hread, hend⟩ := Parse_ok X o hX
  obtain ⟨tok, inp⟩ := tk
  have hs := Read_ok_token _ _ _ hread
  refine ⟨⟨tok, inp ++ d :: R⟩, ?_, fun fuel hf => ?_⟩
  · rw [Next_append t0 X d R hd, Next_token_irrelevant t0 none, hnew]
    exact extend_of_isSome _ _ hs
  · have h1 := (Read_extend_step d R hd (2 * X.length + 2)).1 tok inp o tk' hread
    have h2 : tk'.extend (d :: R) = .ok tS := by
      simp only [Tokenizer.extend, hend, Bool.false_eq_true, if_false, hS]
    rw [h2] at h1
    exact Read_fuel_le _ _ _ _ h1 hf

/-! ## The branches of the loop of `ReadList` -/

theorem ReadList_element (f : Nat) (tk : Tokenizer) (root : Obj) (dt n : Bool) (head : Obj)
    (tk2 : Tokenizer) (hr : Read f tk = .ok (head, tk2)) :
    ReadList (f + 1) tk root dt n =
      (if n = true then .error .SyntaxError
       else if root.isNull = true then ReadList f tk2 (.cell head .null true) dt n
       else if dt = true then
        ReadList f tk2 (SetSecondOfLast root (SetIsHead false head)) false true
       else ReadList f tk2 (SetSecondOfLast root (.cell head .null false)) dt n) := by
  have hr2 := hr
  cases f with
  | zero => rw [Read.eq_1] at hr; exact Except.noConfusion hr
  | succ g =>
    rw [Read.eq_2] at hr2
    rw [ReadList.eq_2]
    cases htok : tk.token_ with
    | none => rw [htok] at hr2; exact Except.noConfusion hr2
    | some token =>
      rw [htok] at hr2
      cases hnext : tk.Next with
      | error e => rw [hnext] at hr2; exact Except.noConfusion hr2
      | ok tk1 =>
        rw [hnext] at hr2
        cases token with
        | BracketToken b =>
          cases b with
          | OPEN => simp only [hr]
          | CLOSE => exact Except.noConfusion hr2
        | SymbolToken name => simp only [hr]
        | ConstantToken value => simp only [hr]
        | BooleanToken value => simp only [hr]
        | QuoteToken => simp only [hr]
        | DotToken => exact Except.noConfusion hr2

theorem ReadList_close (f : Nat) (tk : Tokenizer) (root : Obj) (n : Bool)
    (htok : tk.token_ = some (.BracketToken .CLOSE)) :
    ReadList (f + 1) tk root false n =
      (match tk.Next with
       | .error e => .error e
       | .ok t => .ok (root, t)) := by
  rw [ReadList.eq_2, htok]
  rfl

theorem ReadList_dangling_dot (f : Nat) (tk : Tokenizer) (root : Obj) (n : Bool)
    (htok : tk.token_ = some (.BracketToken .CLOSE)) :
    ReadList (f + 1) tk root true n = .error .SyntaxError := by
  rw [ReadList.eq_2, htok]
  rfl

theorem ReadList_dot (f : Nat) (tk : Tokenizer) (root : Obj) (dt : Bool)
    (htok : tk.token_ = some .DotToken) :
    ReadList (f + 1) tk root dt false =
      (if root.isNull = true then .error .SyntaxError
       else
        match tk.Next with
        | .error e => .error e
        | .ok t => ReadList f t root true false) := by
  rw [ReadList.eq_2, htok]
  rfl

theorem ReadList_need_close (f : Nat) (tk : Tokenizer) (root : Obj) (dt : Bool)
    (htok : tk.token_ ≠ some (.BracketToken .CLOSE)) :
    ReadList (f + 1) tk root dt true = .error .SyntaxError := by
  rw [ReadList.eq_2]
  cases h : tk.token_ with
  | none => rfl
  | some token =>
    cases token with
    | BracketToken b =>
      cases b with
      | OPEN => rfl
      | CLOSE => exact absurd h htok
    | SymbolToken name => rfl
    | ConstantToken value => rfl
    | BooleanToken value => rfl
    | QuoteToken => rfl
    | DotToken => rfl

/-! ## Quote sugar -/

theorem Parse_quote_sugar (X : List Char) (o : Obj)
    (hX : Interpreter.Parse (String.mk X) = .ok o) :
    Interpreter.Parse (String.mk ('\'' :: X)) =
      .ok (.cell (.symbol "quote") (.cell o .null false) false) := by
  obtain ⟨tk, tk', hnew, hread, hend⟩ := Parse_ok X o hX
  have hfuel : 2 * ('\'' :: X).length + 2 = (2 * X.length + 3) + 1 := by
    simp only [List.length_cons]; omega
  have hnew' : Tokenizer.new ('\'' :: X) = .ok ⟨some .QuoteToken, X⟩ := rfl
  have hnext : Tokenizer.Next ⟨some .QuoteToken, X⟩ = .ok tk := hnew
  have hread' := Read_fuel_le tk _ (2 * X.length + 3) _ hread (by omega)
  have hisEnd : tk'.IsEnd = true := by
    cases ht : tk'.token_ with
    | none => simp [Tokenizer.IsEnd, ht]
    | some t => rw [ht] at hend; exact Bool.noConfusion hend
  rw [Parse_mk, hnew', hfuel]
  simp only
  rw [Read.eq_2]
  simp only [hnext, hread', hisEnd, Bool.not_true, Bool.false_eq_true, if_false]

theorem Parse_quote_form (X : List Char) (o : Obj)
    (hX : Interpreter.Parse (String.mk X) = .ok o) :
    Interpreter.Parse (String.mk (QuoteFormText X)) =
      .ok (.cell (.symbol "quote") (.cell o .null false) true) := by
  have hclose : Tokenizer.Next ⟨none, [')']⟩ = .ok ⟨some (.BracketToken .CLOSE), []⟩ := rfl
  obtain ⟨tkX, hnextX, hreadX⟩ :=
    Read_in_context X o ')' [] _ hX (by decide) hclose (some (.SymbolToken "quote"))
  have hfuel : 2 * (QuoteFormText X).length + 2 = (2 * X.length + 14) + 1 + 1 + 1 + 1 := by
    simp only [QuoteFormText, List.length_cons, List.length_append, List.length_nil]; omega
  have hnew : Tokenizer.new (QuoteFormText X) =
      .ok ⟨some (.BracketToken .OPEN), 'q' :: 'u' :: 'o' :: 't' :: 'e' :: ' ' :: (X ++ [')'])⟩ :=
    rfl
  have hquote : Tokenizer.Next
      ⟨some (.BracketToken .OPEN), 'q' :: 'u' :: 'o' :: 't' :: 'e' :: ' ' :: (X ++ [')'])⟩ =
      .ok ⟨some (.SymbolToken "quote"), ' ' :: (X ++ [')'])⟩ := rfl
  have hsym : Read (2 * X.length + 14 + 1 + 1)
      ⟨some (.SymbolToken "quote"), ' ' :: (X ++ [')'])⟩ = .ok (.symbol "quote", tkX) := by
    rw [Read.eq_2]
    simp only [Next_space, hnextX]
  have hexpr := hreadX (2 * X.length + 14 + 1) (by omega)
  rw [Parse_mk, hnew, hfuel]
  simp only
  rw [Read.eq_2]
  simp only [hquote]
  rw [ReadList_element _ _ _ _ _ _ _ hsym]
  simp only [Bool.false_eq_true, if_false, Obj.isNull, if_true]
  rw [ReadList_element _ _ _ _ _ _ _ hexpr]
  simp only [Bool.false_eq_true, if_false, Obj.isNull, SetSecondOfLast]
  rw [ReadList_close _ _ _ _ rfl]
  rfl

/-- C18: for every text `X` that parses to an expression `o`, the text `'X` parses to the
two-element proper list whose first element is the Symbol `quote` and whose second element is
`o`, and the text `(quote X)` parses to the same `first`/`second` tree (the two differ in the
list-head flag of the outer cell only). -/
theorem quote_sugar (X : List Char) (o : Obj) (hX : Interpreter.Parse (String.mk X) = .ok o) :
    ∃ p q : Obj,
      Interpreter.Parse (String.mk ('\'' :: X)) = .ok p ∧
      Interpreter.Parse (String.mk (QuoteFormText X)) = .ok q ∧
      p.eraseFlags = q.eraseFlags ∧
      p = .cell (.symbol "quote") (.cell o .null false) false ∧
      GetArgsList p = .ok [.symbol "quote", o] ∧ IsListImpl p = true :=
  ⟨_, _, Parse_quote_sugar X o hX, Parse_quote_form X o hX, rfl, rfl, rfl, rfl⟩

/-- Witness of C18 at the text `(1 2)`: `'(1 2)` and `(quote (1 2))`. -/
theorem quote_sugar_witness :
    Interpreter.Parse "(1 2)" =
      .ok (.cell (.number 1) (.cell (.number 2) .null false) true) ∧
    ∃ p q : Obj,
      Interpreter.Parse "'(1 2)" = .ok p ∧
      Interpreter.Parse "(quote (1 2))" = .ok q ∧
      p.eraseFlags = q.eraseFlags ∧
      p = .cell (.symbol "quote")
        (.cell (.cell (.number 1) (.cell (.number 2) .null false) true) .null false) false ∧
      GetArgsList p =
        .ok [.symbol "quote", .cell (.number 1) (.cell (.number 2) .null false) true] ∧
      IsListImpl p = true :=
  ⟨by decide, quote_sugar "(1 2)".toList _ (by decide)⟩

/-! ## One top-level expression -/

theorem IsEnd_of_not_isSome (tk : Tokenizer) (h : tk.token_.isSome = false) :
    tk.IsEnd = true := by
  cases ht : tk.token_ with
  | none => simp [Tokenizer.IsEnd, ht]
  | some t => rw [ht] at h; exact Bool.noConfusion h

theorem IsEnd_of_isSome (tk : Tokenizer) (h : tk.token_.isSome = true) :
    tk.IsEnd = false := by
  cases ht : tk.token_ with
  | none => rw [ht] at h; exact Bool.noConfusion h
  | some t => simp [Tokenizer.IsEnd, ht]

theorem Parse_leading_spaces (X w : List Char) (o : Obj)
    (hX : Interpreter.Parse (String.mk X) = .ok o) (hw : ∀ c ∈ w, isspace c = true) :
    Interpreter.Parse (String.mk (w ++ X)) = .ok o := by
  obtain ⟨tk, tk', hnew, hread, hend⟩ := Parse_ok X o hX
  have hnew' : Tokenizer.new (w ++ X) = .ok tk := by
    unfold Tokenizer.new
    rw [Next_skip_spaces none X w hw, hnew]
  have hread' := Read_fuel_le tk _ (2 * (w ++ X).length + 2) _ hread
    (by simp only [List.length_append]; omega)
  rw [Parse_mk, hnew']
  simp only [hread', IsEnd_of_not_isSome tk' hend, Bool.not_true, Bool.false_eq_true, if_false]

theorem Parse_followed (X w : List Char) (o : Obj) (d : Char) (R : List Char) (tS : Tokenizer)
    (hX : Interpreter.Parse (String.mk X) = .ok o) (hw : ∀ c ∈ w, isspace c = true)
    (hd : IsMiddleSymbolToken d = false) (hS : Tokenizer.Next ⟨none, d :: R⟩ = .ok tS) :
    Interpreter.Parse (String.mk (w ++ (X ++ d :: R))) =
      (if !tS.IsEnd then .error .SyntaxError else .ok o) := by
  obtain ⟨tkX, hnextX, hreadX⟩ := Read_in_context X o d R tS hX hd hS none
  have hnew : Tokenizer.new (w ++ (X ++ d :: R)) = .ok tkX := by
    unfold Tokenizer.new
    rw [Next_skip_spaces none _ w hw, hnextX]
  have hread := hreadX (2 * (w ++ (X ++ d :: R)).length + 2)
    (by simp only [List.length_append]; omega)
  rw [Parse_mk, hnew]
  simp only [hread]

/-- C15: `Parse` accepts exactly one top-level expression.  A text that is empty or only white
space fails with `SyntaxError`.  Whenever the tokenizer is not at its end after `Read` has
returned the first expression, `Parse` fails with `SyntaxError`; so it does on a complete
expression text `X` followed by a text that does not continue the last token of `X` and holds a
token.  A complete expression text surrounded by white space parses to the expression of the
text alone. -/
theorem parse_one_expression :
    (∀ w : List Char, (∀ c ∈ w, isspace c = true) →
      Interpreter.Parse (String.mk w) = .error .SyntaxError) ∧
    (∀ (cs : List Char) (tk tk' : Tokenizer) (o : Obj), Tokenizer.new cs = .ok tk →
      Read (2 * cs.length + 2) tk = .ok (o, tk') → tk'.IsEnd = false →
      Interpreter.Parse (String.mk cs) = .error .SyntaxError) ∧
    (∀ (X : List Char) (o : Obj) (d : Char) (R : List Char) (tS : Tokenizer),
      Interpreter.Parse (String.mk X) = .ok o → IsMiddleSymbolToken d = false →
      Tokenizer.new (d :: R) = .ok tS → tS.IsEnd = false →
      Interpreter.Parse (String.mk (X ++ d :: R)) = .error .SyntaxError) ∧
    (∀ (X w1 w2 : List Char) (o : Obj), Interpreter.Parse (String.mk X) = .ok o →
      (∀ c ∈ w1, isspace c = true) → (∀ c ∈ w2, isspace c = true) →
      Interpreter.Parse (String.mk (w1 ++ X ++ w2)) = .ok o) := by
  refine ⟨fun w hw => ?_, fun cs tk tk' o hnew hread hend => ?_,
    fun X o d R tS hX hd hS hend => ?_, fun X w1 w2 o hX hw1 hw2 => ?_⟩
  · have hnew : Tokenizer.new w = .ok ⟨none, []⟩ := Next_all_spaces none w hw
    rw [Parse_mk, hnew]
    have hfuel : 2 * w.length + 2 = (2 * w.length + 1) + 1 := rfl
    rw [hfuel]
    simp only
    rw [Read.eq_2]
  · rw [Parse_mk, hnew]
    simp only [hread, hend, Bool.not_false, if_true]
  · have h := Parse_followed X [] o d R tS hX (fun c hc => by simp at hc) hd hS
    rw [List.nil_append] at h
    rw [h, hend]
    rfl
  · cases w2 with
    | nil =>
      rw [List.append_nil]
      exact Parse_leading_spaces X w1 o hX hw1
    | cons d R =>
      have hd : IsMiddleSymbolToken d = false := by
        have hsp := hw2 d (List.mem_cons_self _ _)
        have hb : d.toNat = 32 ∨ (9 ≤ d.toNat ∧ d.toNat ≤ 13) := by simpa [isspace] using hsp
        have hne : ∀ x : Char, isspace x = false → decide (d = x) = false := by
          intro x hx
          simp only [decide_eq_false_iff_not]
          rintro rfl
          rw [hx] at hsp
          exact Bool.noConfusion hsp
        have halpha : isalpha d = false := by
          simp only [isalpha, Bool.or_eq_false_iff, decide_eq_false_iff_not,
            Bool.and_eq_false_iff, Nat.not_le]
          omega
        have hdigit : isdigit d = false := by
          simp only [isdigit, decide_eq_false_iff_not, Bool.and_eq_false_iff, Nat.not_le]
          omega
        simp only [IsMiddleSymbolToken, IsFirstSymbolToken, halpha, hdigit,
          hne '<' (by decide), hne '=' (by decide), hne '>' (by decide), hne '*' (by decide),
          hne '/' (by decide), hne '#' (by decide), hne '?' (by decide), hne '!' (by decide),
          hne '-' (by decide), Bool.or_self]
      have h := Parse_followed X w1 o d R ⟨none, []⟩ hX hw1 hd
        (Next_all_spaces none (d :: R) hw2)
      rw [List.append_assoc, h]
      rfl

/-- Witness of C15 at the texts of spaces, `1 2`, `(1) )` and ` (1) `. -/
theorem parse_one_expression_witness :
    Interpreter.Parse "  " = .error .SyntaxError ∧
    Interpreter.Parse "1 2" = .error .SyntaxError ∧
    Interpreter.Parse "(1) )" = .error .SyntaxError ∧
    Interpreter.Parse "(1)" = .ok (.cell (.number 1) .null true) ∧
    Interpreter.Parse " (1) " = .ok (.cell (.number 1) .null true) :=
  ⟨parse_one_expression.1 "  ".toList (by decide),
    parse_one_expression.2.1 "1 2".toList ⟨some (.ConstantToken 1), " 2".toList⟩
      ⟨some (.ConstantToken 2), []⟩ (.number 1) (by decide) (by decide) (by decide),
    parse_one_expression.2.2.1 "(1)".toList (.cell (.number 1) .null true) ' ' [')']
      ⟨some (.BracketToken .CLOSE), []⟩ (by decide) (by decide) (by decide) (by decide),
    by decide,
    parse_one_expression.2.2.2 "(1)".toList " ".toList " ".toList
      (.cell (.number 1) .null true) (by decide) (by decide) (by decide)⟩

/-! ## Lists of complete expressions, and what may follow a dotted tail -/

theorem length_ElementsText (T : List Char) :
    ∀ es : List (List Char), es.length + T.length ≤ (ElementsText es T).length ∧
      ∀ e ∈ es, e.length + es.length + T.length ≤ (ElementsText es T).length := by
  intro es
  induction es with
  | nil => exact ⟨by simp [ElementsText], fun e he => by simp at he⟩
  | cons x xs ih =>
    obtain ⟨ih1, ih2⟩ := ih
    constructor
    · simp only [ElementsText, List.length_cons, List.length_append]
      omega
    · intro e he
      simp only [ElementsText, List.length_cons, List.length_append]
      rcases List.mem_cons.mp he with rfl | he
      · omega
      · have := ih2 e he
        omega

theorem Next_ElementsText (T : List Char) (tT : Tokenizer)
    (hT : Tokenizer.Next ⟨none, T⟩ = .ok tT) :
    ∀ es : List (List Char × Obj), (∀ p ∈ es, Interpreter.Parse (String.mk p.1) = .ok p.2) →
      ∃ tk, Tokenizer.Next ⟨none, ElementsText (es.map Prod.fst) T⟩ = .ok tk := by
  intro es
  induction es with
  | nil => intro _; exact ⟨tT, hT⟩
  | cons p ps ih =>
    intro hes
    obtain ⟨tk', htk'⟩ := ih (fun q hq => hes q (List.mem_cons_of_mem _ hq))
    have hsp : Tokenizer.Next ⟨none, ' ' :: ElementsText (ps.map Prod.fst) T⟩ = .ok tk' := by
      rw [Next_space, htk']
    obtain ⟨tkX, hX, _⟩ := Read_in_context p.1 p.2 ' ' _ tk' (hes p (List.mem_cons_self _ _))
      (by decide) hsp none
    exact ⟨tkX, hX⟩

theorem ReadList_elements (T : List Char) (tT : Tokenizer)
    (hT : Tokenizer.Next ⟨none, T⟩ = .ok tT) :
    ∀ es : List (List Char × Obj), (∀ p ∈ es, Interpreter.Parse (String.mk p.1) = .ok p.2) →
      ∀ (tk : Tokenizer), Tokenizer.Next ⟨none, ElementsText (es.map Prod.fst) T⟩ = .ok tk →
      ∀ (f : Nat), (∀ p ∈ es, 2 * p.1.length + 2 ≤ f) → ∀ root : Obj,
        ReadList (f + es.length) tk root false false =
          ReadList f tT (es.foldl (fun r p => AppendElement r p.2) root) false false := by
  intro es
  induction es with
  | nil =>
    intro _ tk htk f _ root
    have : tk = tT := by
      have h := htk.symm.trans hT
      exact Except.ok.inj h
    subst this
    rfl
  | cons p ps ih =>
    intro hes tk htk f hf root
    have hes' : ∀ q ∈ ps, Interpreter.Parse (String.mk q.1) = .ok q.2 :=
      fun q hq => hes q (List.mem_cons_of_mem _ hq)
    obtain ⟨tk', htk'⟩ := Next_ElementsText T tT hT ps hes'
    have hsp : Tokenizer.Next ⟨none, ' ' :: ElementsText (ps.map Prod.fst) T⟩ = .ok tk' := by
      rw [Next_space, htk']
    obtain ⟨tkX, hX, hread⟩ := Read_in_context p.1 p.2 ' ' _ tk'
      (hes p (List.mem_cons_self _ _)) (by decide) hsp none
    have : tk = tkX := by
      have h := htk.symm.trans hX
      exact Except.ok.inj h
    subst this
    have hr := hread (f + ps.length) (by have := hf p (List.mem_cons_self _ _); omega)
    have hlen : f + (p :: ps).length = (f + ps.length) + 1 := by
      simp only [List.length_cons]; omega
    rw [hlen, ReadList_element _ _ _ _ _ _ _ hr]
    simp only [Bool.false_eq_true, if_false, List.foldl_cons]
    rw [← ih hes' tk' htk' f (fun q hq => hf q (List.mem_cons_of_mem _ hq))]
    unfold AppendElement
    cases root.isNull <;> rfl

theorem Parse_element_after_tail (es : List (List Char × Obj)) (t Y : List Char) (ot : Obj)
    (tY : Tokenizer) (hes : ∀ p ∈ es, Interpreter.Parse (String.mk p.1) = .ok p.2)
    (ht : Interpreter.Parse (String.mk t) = .ok ot) (hY : Tokenizer.new Y = .ok tY)
    (hne : tY.token_ ≠ some (.BracketToken .CLOSE)) :
    Interpreter.Parse
      (String.mk ('(' :: ElementsText (es.map Prod.fst) ('.' :: ' ' :: (t ++ ' ' :: Y)))) =
        .error .SyntaxError := by
  have hT : Tokenizer.Next ⟨none, '.' :: ' ' :: (t ++ ' ' :: Y)⟩ =
      .ok ⟨some .DotToken, ' ' :: (t ++ ' ' :: Y)⟩ := rfl
  obtain ⟨tk, htk⟩ := Next_ElementsText _ _ hT es hes
  have hspY : Tokenizer.Next ⟨none, ' ' :: Y⟩ = .ok tY := by rw [Next_space]; exact hY
  obtain ⟨tkt, hnextt, hreadt⟩ :=
    Read_in_context t ot ' ' Y tY ht (by decide) hspY (some .DotToken)
  obtain ⟨hlen1, hlen2⟩ := length_ElementsText ('.' :: ' ' :: (t ++ ' ' :: Y)) (es.map Prod.fst)
  simp only [List.length_map, List.length_cons, List.length_append] at hlen1 hlen2
  obtain ⟨f3, hF⟩ : ∃ f3, 2 * ('(' :: ElementsText (es.map Prod.fst)
      ('.' :: ' ' :: (t ++ ' ' :: Y))).length + 2 = (f3 + 1 + 1 + 1 + es.length) + 1 ∧
      2 * (ElementsText (es.map Prod.fst) ('.' :: ' ' :: (t ++ ' ' :: Y))).length =
        f3 + es.length :=
    ⟨2 * (ElementsText (es.map Prod.fst) ('.' :: ' ' :: (t ++ ' ' :: Y))).length - es.length,
      by simp only [List.length_cons]; omega, by omega⟩
  have hb : ∀ p ∈ es, 2 * p.1.length + 2 ≤ f3 + 1 + 1 + 1 := by
    intro p hp
    have := hlen2 p.1 (List.mem_map_of_mem _ hp)
    omega
  have hnew : Tokenizer.new ('(' :: ElementsText (es.map Prod.fst)
      ('.' :: ' ' :: (t ++ ' ' :: Y))) = .ok ⟨some (.BracketToken .OPEN),
        ElementsText (es.map Prod.fst) ('.' :: ' ' :: (t ++ ' ' :: Y))⟩ := rfl
  have hnext : Tokenizer.Next ⟨some (.BracketToken .OPEN),
      ElementsText (es.map Prod.fst) ('.' :: ' ' :: (t ++ ' ' :: Y))⟩ = .ok tk := htk
  have hrt := hreadt (f3 + 1) (by omega)
  rw [Parse_mk, hnew, hF.1]
  simp only
  rw [Read.eq_2]
  simp only [hnext]
  rw [ReadList_elements _ _ hT es hes tk htk (f3 + 1 + 1 + 1) hb .null, ReadList_dot _ _ _ _ rfl]
  cases hrn : (es.foldl (fun r p => AppendElement r p.2) Obj.null).isNull with
  | true => rfl
  | false =>
    simp only [Bool.false_eq_true, if_false, Next_space, hnextt]
    rw [ReadList_element _ _ _ _ _ _ _ hrt]
    simp only [Bool.false_eq_true, if_false, hrn, if_true]
    rw [ReadList_need_close _ _ _ _ hne]

theorem Parse_dangling_dot (es : List (List Char × Obj)) (D : List Char) (tD : Tokenizer)
    (hes : ∀ p ∈ es, Interpreter.Parse (String.mk p.1) = .ok p.2)
    (hD : Tokenizer.new D = .ok tD) (hclose : tD.token_ = some (.BracketToken .CLOSE)) :
    Interpreter.Parse (String.mk ('(' :: ElementsText (es.map Prod.fst) ('.' :: D))) =
      .error .SyntaxError := by
  have hT : Tokenizer.Next ⟨none, '.' :: D⟩ = .ok ⟨some .DotToken, D⟩ := rfl
  obtain ⟨tk, htk⟩ := Next_ElementsText _ _ hT es hes
  obtain ⟨hlen1, hlen2⟩ := length_ElementsText ('.' :: D) (es.map Prod.fst)
  simp only [List.length_map, List.length_cons] at hlen1 hlen2
  obtain ⟨f2, hF⟩ : ∃ f2, 2 * ('(' :: ElementsText (es.map Prod.fst) ('.' :: D)).length + 2 =
      (f2 + 1 + 1 + es.length) + 1 ∧
      2 * (ElementsText (es.map Prod.fst) ('.' :: D)).length + 1 = f2 + es.length :=
    ⟨2 * (ElementsText (es.map Prod.fst) ('.' :: D)).length + 1 - es.length,
      by simp only [List.length_cons]; omega, by omega⟩
  have hb : ∀ p ∈ es, 2 * p.1.length + 2 ≤ f2 + 1 + 1 := by
    intro p hp
    have := hlen2 p.1 (List.mem_map_of_mem _ hp)
    omega
  have hnew : Tokenizer.new ('(' :: ElementsText (es.map Prod.fst) ('.' :: D)) =
      .ok ⟨some (.BracketToken .OPEN), ElementsText (es.map Prod.fst) ('.' :: D)⟩ := rfl
  have hnext : Tokenizer.Next ⟨some (.BracketToken .OPEN),
      ElementsText (es.map Prod.fst) ('.' :: D)⟩ = .ok tk := htk
  have hnextD : Tokenizer.Next ⟨some .DotToken, D⟩ = .ok tD := hD
  rw [Parse_mk, hnew, hF.1]
  simp only
  rw [Read.eq_2]
  simp only [hnext]
  rw [ReadList_elements _ _ hT es hes tk htk (f2 + 1 + 1) hb .null, ReadList_dot _ _ _ _ rfl]
  cases hrn : (es.foldl (fun r p => AppendElement r p.2) Obj.null).isNull with
  | true => rfl
  | false =>
    simp only [Bool.false_eq_true, if_false, hnextD]
    rw [ReadList_dangling_dot _ _ _ _ hclose]

/-- C13: a list text in which a further element follows the dotted tail's element fails with
`SyntaxError`, and so does one in which the closing bracket directly follows the dot.  In the
loop of `ReadList`: once the dotted tail is installed every token but the closing bracket is a
`SyntaxError`, and so is the closing bracket while the tail is awaited.  On texts: for complete
expression texts `e1 .. ek` and `t`, the text `(e1 ... ek . t Y` fails when `Y` does not start
with the closing bracket, and `(e1 ... ek .D` fails when `D` starts with the closing bracket. -/
theorem dotted_tail_must_close :
    (∀ (f : Nat) (tk : Tokenizer) (root : Obj) (dt : Bool),
      tk.token_ ≠ some (.BracketToken .CLOSE) →
      ReadList (f + 1) tk root dt true = .error .SyntaxError) ∧
    (∀ (f : Nat) (tk : Tokenizer) (root : Obj) (n : Bool),
      tk.token_ = some (.BracketToken .CLOSE) →
      ReadList (f + 1) tk root true n = .error .SyntaxError) ∧
    (∀ (es : List (List Char × Obj)) (t Y : List Char) (ot : Obj) (tY : Tokenizer),
      (∀ p ∈ es, Interpreter.Parse (String.mk p.1) = .ok p.2) →
      Interpreter.Parse (String.mk t) = .ok ot → Tokenizer.new Y = .ok tY →
      tY.token_ ≠ some (.BracketToken .CLOSE) →
      Interpreter.Parse
        (String.mk ('(' :: ElementsText (es.map Prod.fst) ('.' :: ' ' :: (t ++ ' ' :: Y)))) =
          .error .SyntaxError) ∧
    (∀ (es : List (List Char × Obj)) (D : List Char) (tD : Tokenizer),
      (∀ p ∈ es, Interpreter.Parse (String.mk p.1) = .ok p.2) →
      Tokenizer.new D = .ok tD → tD.token_ = some (.BracketToken .CLOSE) →
      Interpreter.Parse (String.mk ('(' :: ElementsText (es.map Prod.fst) ('.' :: D))) =
        .error .SyntaxError) :=
  ⟨fun f tk root dt h => ReadList_need_close f tk root dt h,
    fun f tk root n h => ReadList_dangling_dot f tk root n h,
    fun es t Y ot tY hes ht hY hne => Parse_element_after_tail es t Y ot tY hes ht hY hne,
    fun es D tD hes hD hc => Parse_dangling_dot es D tD hes hD hc⟩

/-- Witness of C13 at the texts `(1 2 . 3 4)` and `(1 2 . )`. -/
theorem dotted_tail_must_close_witness :
    Interpreter.Parse "(1 2 . 3 4)" = .error .SyntaxError ∧
    Interpreter.Parse "(1 2 . )" = .error .SyntaxError ∧
    Interpreter.Parse "(1 2 . 3)" =
      .ok (.cell (.number 1) (.cell (.number 2) (.number 3) false) true) :=
  ⟨dotted_tail_must_close.2.2.1 [("1".toList, .number 1), ("2".toList, .number 2)]
      "3".toList "4)".toList (.number 3) ⟨some (.ConstantToken 4), [')']⟩
      (fun p hp => by
        simp only [List.mem_cons, List.mem_singleton, List.not_mem_nil, or_false] at hp
        rcases hp with rfl | rfl <;> decide)
      (by decide) (by decide) (by decide),
    dotted_tail_must_close.2.2.2 [("1".toList, .number 1), ("2".toList, .number 2)]
      " )".toList ⟨some (.BracketToken .CLOSE), []⟩
      (fun p hp => by
        simp only [List.mem_cons, List.mem_singleton, List.not_mem_nil, or_false] at hp
        rcases hp with rfl | rfl <;> decide)
      (by decide) (by decide),
    by decide⟩

/-! ## Scope -/

theorem lookup_assign_self (s : List (String × Obj)) (name : String) (obj : Obj) :
    (Scope.assign s name obj).lookup name = some obj := by
  simp [Scope.assign, List.lookup]

theorem lookup_filter_ne (name other : String) (hne : other ≠ name) :
    ∀ s : List (String × Obj),
      (s.filter (fun kv => kv.1 != name)).lookup other = s.lookup other := by
  intro s
  induction s with
  | nil => rfl
  | cons kv s ih =>
    obtain ⟨k, v⟩ := kv
    by_cases hk : k = name
    · subst hk
      have hne' : (other == k) = false := by simpa using hne
      simp [List.filter, List.lookup, hne', ih]
    · have hk' : (k != name) = true := by simpa using hk
      simp only [List.filter, hk', List.lookup]
      cases hok : other == k with
      | true => rfl
      | false => exact ih

theorem lookup_assign_other (s : List (String × Obj)) (name other : String) (obj : Obj)
    (hne : other ≠ name) : (Scope.assign s name obj).lookup other = s.lookup other := by
  have hne' : (other == name) = false := by simpa using hne
  simp only [Scope.assign, List.lookup, hne']
  exact lookup_filter_ne name other hne s

theorem LookUp_Define_self (scope : Scope) (name : String) (obj : Obj) :
    (scope.Define name obj).LookUp name = .ok obj := by
  match scope with
  | .mk s none => simp only [Scope.Define, Scope.LookUp, lookup_assign_self]
  | .mk s (some p) => simp only [Scope.Define, Scope.LookUp, lookup_assign_self]

theorem LookUp_Define_other (scope : Scope) (name other : String) (obj : Obj)
    (hne : other ≠ name) : (scope.Define name obj).LookUp other = scope.LookUp other := by
  match scope with
  | .mk s none => simp only [Scope.Define, Scope.LookUp, lookup_assign_other s name other obj hne]
  | .mk s (some p) =>
    simp only [Scope.Define, Scope.LookUp, lookup_assign_other s name other obj hne]

theorem Reset_eq_Define (scope : Scope) (name : String) (obj : Obj) :
    scope.Reset name obj = scope.Define name obj := by
  match scope with
  | .mk s p => rfl

/-- C21: after `Define(name, value)`, and equally after `Reset(name, value)`, `LookUp(name)`
returns `value` and `LookUp` of every other name gives the outcome it gave before; `LookUp` of
a name bound neither in the scope nor in an ancestor fails with `NameError`. -/
theorem scope_define_lookup (scope : Scope) (name : String) (value : Obj) :
    (scope.Define name value).LookUp name = .ok value ∧
    (scope.Reset name value).LookUp name = .ok value ∧
    (∀ other, other ≠ name →
      (scope.Define name value).LookUp other = scope.LookUp other ∧
      (scope.Reset name value).LookUp other = scope.LookUp other) ∧
    (scope.Bound name = false → scope.LookUp name = .error .NameError) := by
  refine ⟨LookUp_Define_self scope name value, ?_, fun other hne => ⟨?_, ?_⟩,
    LookUp_of_not_Bound scope name⟩
  · rw [Reset_eq_Define]; exact LookUp_Define_self scope name value
  · exact LookUp_Define_other scope name other value hne
  · rw [Reset_eq_Define]; exact LookUp_Define_other scope name other value hne

/-- Witness of C21 in the global scope: `car` is rebound to `1`, `cdr` keeps its binding, and
`undefined-symbol`, bound nowhere, fails with `NameError`. -/
theorem scope_define_lookup_witness :
    (global_scope_.Define "car" (.number 1)).LookUp "cdr" = global_scope_.LookUp "cdr" ∧
    global_scope_.LookUp "cdr" = .ok (.function .Cdr) ∧
    (global_scope_.Define "car" (.number 1)).LookUp "car" = .ok (.number 1) ∧
    global_scope_.Bound "undefined-symbol" = false ∧
    global_scope_.LookUp "undefined-symbol" = .error .NameError :=
  ⟨((scope_define_lookup global_scope_ "car" (.number 1)).2.2.1 "cdr" (by decide)).1,
    by decide, by decide, by decide,
    (scope_define_lookup global_scope_ "undefined-symbol" .null).2.2.2 (by decide)⟩

/-! ## Procedures are neither evaluated nor rendered -/

/-- C22, counterexample: evaluating the Procedure `car` and rendering it fail with
`RuntimeError`, not with `InternalError`. -/
theorem procedure_error_counterexample :
    Interpreter.Eval (.function .Car) = .error .RuntimeError ∧
    Interpreter.Eval (.function .Car) ≠ .error .InternalError ∧
    ToString (.function .Car) = .error .RuntimeError ∧
    ToString (.function .Car) ≠ .error .InternalError := by
  refine ⟨by decide, by decide, by decide, by decide⟩

/-- C22, amended: evaluating a Procedure value directly and rendering a Procedure value each
fail with `RuntimeError`, in every scope and for every Procedure. -/
theorem procedure_error (f : Builtin) (fuel : Nat) (scope : Scope) :
    Eval fuel scope (.function f) = .error .RuntimeError ∧
    ObjectEval scope (.function f) = .error .RuntimeError ∧
    Interpreter.Eval (.function f) = .error .RuntimeError ∧
    ToString (.function f) = .error .RuntimeError ∧
    Render (.function f) = .error .RuntimeError := by
  refine ⟨?_, rfl, rfl, rfl, rfl⟩
  cases fuel <;> rfl

/-! ## Evaluation terminates: with fuel for the depth it never runs out of fuel -/

theorem GetArgsList_error (obj : Obj) :
    ∀ e, GetArgsList obj = .error e → e = .RuntimeError := by
  induction obj with
  | cell first second is_head _ ih2 =>
    intro e h
    cases second with
    | null => rw [GetArgsList_cell_null] at h; exact Except.noConfusion h
    | cell f2 s2 h2 =>
      rw [GetArgsList_cell_cell] at h
      cases hr : GetArgsList (.cell f2 s2 h2) with
      | error e2 =>
        rw [hr] at h
        have := ih2 e2 hr
        simp only [Except.error.injEq] at h
        rw [← h, this]
      | ok rest => rw [hr] at h; exact Except.noConfusion h
    | number _ => simp only [GetArgsList, Except.error.injEq] at h; exact h.symm
    | symbol _ => simp only [GetArgsList, Except.error.injEq] at h; exact h.symm
    | boolean _ => simp only [GetArgsList, Except.error.injEq] at h; exact h.symm
    | function _ => simp only [GetArgsList, Except.error.injEq] at h; exact h.symm
  | null => intro e h; simp [GetArgsList] at h
  | number _ => intro e h; simp [GetArgsList] at h
  | symbol _ => intro e h; simp [GetArgsList] at h
  | boolean _ => intro e h; simp [GetArgsList] at h
  | function _ => intro e h; simp [GetArgsList] at h

theorem LookUp_error (scope : Scope) (name : String) :
    ∀ e, scope.LookUp name = .error e → e = .NameError := by
  intro e h
  match scope with
  | .mk s none =>
    simp only [Scope.LookUp] at h
    cases hl : s.lookup name with
    | none => rw [hl] at h; simp only [Except.error.injEq] at h; exact h.symm
    | some obj => rw [hl] at h; exact Except.noConfusion h
  | .mk s (some p) =>
    simp only [Scope.LookUp] at h
    cases hl : s.lookup name with
    | none => rw [hl] at h; exact LookUp_error p name e h
    | some obj => rw [hl] at h; exact Except.noConfusion h

theorem EvalArgsLoop_no_fuel (ev : Obj → Except Error Obj) (args : List Obj)
    (h : ∀ a ∈ args, ev a ≠ .error .OutOfFuel) : EvalArgsLoop ev args ≠ .error .OutOfFuel := by
  induction args with
  | nil => exact fun hc => Except.noConfusion hc
  | cons a rest ih =>
    have ha := h a (List.mem_cons_self _ _)
    have hrest := ih (fun x hx => h x (List.mem_cons_of_mem _ hx))
    rw [EvalArgsLoop]
    cases a.isNull with
    | true => exact fun hc => by cases hc
    | false =>
      simp only [Bool.false_eq_true, if_false]
      cases hv : ev a with
      | error e =>
        rw [hv] at ha
        simpa using ha
      | ok v =>
        cases hvs : EvalArgsLoop ev rest with
        | error e =>
          rw [hvs] at hrest
          simpa using hrest
        | ok vs => exact fun hc => by cases hc

theorem EvalOrNull_no_fuel (ev : Obj → Except Error Obj) (a : Obj)
    (h : ev a ≠ .error .OutOfFuel) : EvalOrNull ev a ≠ .error .OutOfFuel := by
  unfold EvalOrNull
  cases a.isNull with
  | true => exact fun hc => by cases hc
  | false => simpa using h

theorem AndLoop_no_fuel (ev : Obj → Except Error Obj) (args : List Obj)
    (h : ∀ a ∈ args, ev a ≠ .error .OutOfFuel) :
    ∀ r, AndLoop ev args r ≠ .error .OutOfFuel := by
  induction args with
  | nil => exact fun r hc => Except.noConfusion hc
  | cons a rest ih =>
    intro r
    have ha := EvalOrNull_no_fuel ev a (h a (List.mem_cons_self _ _))
    have hrest := ih (fun x hx => h x (List.mem_cons_of_mem _ hx))
    rw [AndLoop]
    cases hv : EvalOrNull ev a with
    | error e => rw [hv] at ha; simpa using ha
    | ok v =>
      cases v with
      | boolean b =>
        cases b with
        | false => exact fun hc => by cases hc
        | true => exact hrest _
      | null => exact hrest _
      | number _ => exact hrest _
      | symbol _ => exact hrest _
      | cell _ _ _ => exact hrest _
      | function _ => exact hrest _

theorem OrLoop_no_fuel (ev : Obj → Except Error Obj) (args : List Obj)
    (h : ∀ a ∈ args, ev a ≠ .error .OutOfFuel) :
    ∀ r, OrLoop ev args r ≠ .error .OutOfFuel := by
  induction args with
  | nil => exact fun r hc => Except.noConfusion hc
  | cons a rest ih =>
    intro r
    have ha := EvalOrNull_no_fuel ev a (h a (List.mem_cons_self _ _))
    have hrest := ih (fun x hx => h x (List.mem_cons_of_mem _ hx))
    rw [OrLoop]
    cases hv : EvalOrNull ev a with
    | error e => rw [hv] at ha; simpa using ha
    | ok v =>
      cases v with
      | boolean b =>
        cases b with
        | false => exact hrest _
        | true => exact fun hc => by cases hc
      | null => exact fun hc => by cases hc
      | number _ => exact fun hc => by cases hc
      | symbol _ => exact fun hc => by cases hc
      | cell _ _ _ => exact fun hc => by cases hc
      | function _ => exact fun hc => by cases hc

theorem ValidateArgs_no_fuel (count : Nat) (list : List Obj) :
    ValidateArgs count list ≠ .error .OutOfFuel := by
  unfold ValidateArgs
  split
  · exact fun hc => by cases hc
  · split <;> exact fun hc => by cases hc

theorem GetValue_no_fuel (obj : Obj) : GetValue obj ≠ .error .OutOfFuel := by
  cases obj <;> exact fun hc => by cases hc

theorem Fold_no_fuel (f : Int → Int → Except Error Int)
    (hf : ∀ a b, f a b ≠ .error .OutOfFuel) :
    ∀ (list : List Obj) (acc : Int), Fold f list acc ≠ .error .OutOfFuel := by
  intro list
  induction list with
  | nil => exact fun acc hc => Except.noConfusion hc
  | cons x rest ih =>
    intro acc
    rw [Fold]
    cases hv : GetValue x with
    | error e =>
      have := GetValue_no_fuel x
      rw [hv] at this
      simpa using this
    | ok value =>
      simp only
      cases hr : f acc value with
      | error e =>
        have := hf acc value
        rw [hr] at this
        simpa using this
      | ok acc2 => exact ih acc2

theorem ArithmeticFolder_no_fuel (f : Int → Int → Except Error Int)
    (hf : ∀ a b, f a b ≠ .error .OutOfFuel) (seed : Int) (list : List Obj) :
    ArithmeticFolder f seed list ≠ .error .OutOfFuel := by
  unfold ArithmeticFolder
  cases hv : ValidateArgs 0 list with
  | error e =>
    have := ValidateArgs_no_fuel 0 list
    rw [hv] at this
    simpa using this
  | ok u =>
    cases hr : Fold f list seed with
    | error e =>
      have := Fold_no_fuel f hf list seed
      rw [hr] at this
      simpa using this
    | ok r => exact fun hc => by cases hc

theorem NotEmptyFolder_no_fuel (f : Int → Int → Except Error Int)
    (hf : ∀ a b, f a b ≠ .error .OutOfFuel) (list : List Obj) :
    NotEmptyFolder f list ≠ .error .OutOfFuel := by
  unfold NotEmptyFolder
  cases hv : ValidateArgs 0 list with
  | error e =>
    have := ValidateArgs_no_fuel 0 list
    rw [hv] at this
    simpa using this
  | ok u =>
    cases list with
    | nil => exact fun hc => by cases hc
    | cons front rest =>
      simp only
      cases hg : GetValue front with
      | error e =>
        have := GetValue_no_fuel front
        rw [hg] at this
        simpa using this
      | ok seed =>
        simp only
        cases hr : Fold f rest seed with
        | error e =>
          have := Fold_no_fuel f hf rest seed
          rw [hr] at this
          simpa using this
        | ok r => exact fun hc => by cases hc

theorem ComparisonLoop_no_fuel (f : Int → Int → Bool) :
    ∀ (list : List Obj) (prev : Obj), ComparisonLoop f prev list ≠ .error .OutOfFuel := by
  intro list
  induction list with
  | nil => exact fun prev hc => by cases hc
  | cons x rest ih =>
    intro prev
    rw [ComparisonLoop]
    cases GetValue prev with
    | error e => exact fun hc => by cases hc
    | ok a =>
      cases GetValue x with
      | error e => exact fun hc => by cases hc
      | ok b =>
        simp only
        cases f a b with
        | true => simpa using ih x
        | false => exact fun hc => by cases hc

theorem Comparison_no_fuel (f : Int → Int → Bool) (list : List Obj) :
    Comparison f list ≠ .error .OutOfFuel := by
  unfold Comparison
  cases hv : ValidateArgs 0 list with
  | error e =>
    have := ValidateArgs_no_fuel 0 list
    rw [hv] at this
    simpa using this
  | ok u =>
    cases list with
    | nil => exact fun hc => by cases hc
    | cons front rest =>
      cases rest with
      | nil => exact fun hc => by cases hc
      | cons x xs => exact ComparisonLoop_no_fuel f _ _

theorem IsExpectedType_no_fuel (is : Obj → Bool) (list : List Obj) :
    IsExpectedType is list ≠ .error .OutOfFuel := by
  unfold IsExpectedType
  split <;> exact fun hc => by cases hc

theorem AbsApply_no_fuel (list : List Obj) : AbsApply list ≠ .error .OutOfFuel := by
  unfold AbsApply
  cases hv : ValidateArgs 1 list with
  | error e =>
    have := ValidateArgs_no_fuel 1 list
    rw [hv] at this
    simpa using this
  | ok u =>
    cases list with
    | nil => exact fun hc => by cases hc
    | cons front rest =>
      simp only
      cases hg : GetValue front with
      | error e =>
        have := GetValue_no_fuel front
        rw [hg] at this
        simpa using this
      | ok v => exact fun hc => by cases hc

theorem NotApply_no_fuel (list : List Obj) : NotApply list ≠ .error .OutOfFuel := by
  unfold NotApply
  split <;> exact fun hc => by cases hc

theorem ConsApply_no_fuel (list : List Obj) : ConsApply list ≠ .error .OutOfFuel := by
  unfold ConsApply
  split <;> exact fun hc => by cases hc

theorem CarApply_no_fuel (list : List Obj) : CarApply list ≠ .error .OutOfFuel := by
  unfold CarApply
  split <;> exact fun hc => by cases hc

theorem CdrApply_no_fuel (list : List Obj) : CdrApply list ≠ .error .OutOfFuel := by
  unfold CdrApply
  split
  · split <;> exact fun hc => by cases hc
  · exact fun hc => by cases hc

theorem MakeListRefApply_no_fuel (list : List Obj) :
    MakeListRefApply list ≠ .error .OutOfFuel := by
  unfold MakeListRefApply
  split
  · rename_i front back
    split
    · exact fun hc => by cases hc
    · cases hg : GetArgsList front with
      | error e =>
        have := GetArgsList_error front e hg
        subst this
        exact fun hc => by cases hc
      | ok values =>
        simp only
        cases hv : GetValue back with
        | error e =>
          have := GetValue_no_fuel back
          rw [hv] at this
          simpa using this
        | ok n =>
          simp only
          split <;> exact fun hc => by cases hc
  · exact fun hc => by cases hc

theorem MakeListTailApply_no_fuel (list : List Obj) :
    MakeListTailApply list ≠ .error .OutOfFuel := by
  unfold MakeListTailApply
  split
  · rename_i front back
    split
    · exact fun hc => by cases hc
    · cases hg : GetArgsList front with
      | error e =>
        have := GetArgsList_error front e hg
        subst this
        exact fun hc => by cases hc
      | ok values =>
        simp only
        cases hv : GetValue back with
        | error e =>
          have := GetValue_no_fuel back
          rw [hv] at this
          simpa using this
        | ok n =>
          simp only
          split <;> exact fun hc => by cases hc
  · exact fun hc => by cases hc

theorem arithmetic_no_fuel :
    (∀ a b, plus a b ≠ .error .OutOfFuel) ∧ (∀ a b, multiplies a b ≠ .error .OutOfFuel) ∧
    (∀ a b, minus a b ≠ .error .OutOfFuel) ∧ (∀ a b, divides a b ≠ .error .OutOfFuel) ∧
    (∀ a b, MinFunction a b ≠ .error .OutOfFuel) ∧
    (∀ a b, MaxFunction a b ≠ .error .OutOfFuel) := by
  refine ⟨?_, ?_, ?_, ?_, ?_, ?_⟩
  · intro a b hc; cases hc
  · intro a b hc; cases hc
  · intro a b hc; cases hc
  · intro a b
    unfold divides
    split <;> exact fun hc => by cases hc
  · intro a b hc; cases hc
  · intro a b hc; cases hc

theorem ApplyEvaluated_no_fuel (f : Builtin) (list : List Obj) :
    ApplyEvaluated f list ≠ .error .OutOfFuel := by
  obtain ⟨h1, h2, h3, h4, h5, h6⟩ := arithmetic_no_fuel
  cases f with
  | IsNumber => exact IsExpectedType_no_fuel _ list
  | IsBoolean => exact IsExpectedType_no_fuel _ list
  | IsPair => exact IsExpectedType_no_fuel _ list
  | IsSymbol => exact IsExpectedType_no_fuel _ list
  | IsNull => exact IsExpectedType_no_fuel _ list
  | IsList => exact IsExpectedType_no_fuel _ list
  | Add => exact ArithmeticFolder_no_fuel _ h1 _ list
  | Multiply => exact ArithmeticFolder_no_fuel _ h2 _ list
  | Subtract => exact NotEmptyFolder_no_fuel _ h3 list
  | Divide => exact NotEmptyFolder_no_fuel _ h4 list
  | Min => exact NotEmptyFolder_no_fuel _ h5 list
  | Max => exact NotEmptyFolder_no_fuel _ h6 list
  | Equal => exact Comparison_no_fuel _ list
  | Less => exact Comparison_no_fuel _ list
  | Greater => exact Comparison_no_fuel _ list
  | LessEqual => exact Comparison_no_fuel _ list
  | GreaterEqual => exact Comparison_no_fuel _ list
  | Abs => exact AbsApply_no_fuel list
  | Not => exact NotApply_no_fuel list
  | Cons => exact ConsApply_no_fuel list
  | Car => exact CarApply_no_fuel list
  | Cdr => exact CdrApply_no_fuel list
  | MakeList => exact fun hc => by cases hc
  | MakeListRef => exact MakeListRefApply_no_fuel list
  | MakeListTail => exact MakeListTailApply_no_fuel list
  | And => exact fun hc => by cases hc
  | Or => exact fun hc => by cases hc
  | Quote => exact fun hc => by cases hc

theorem FunctionApply_no_fuel (ev : Obj → Except Error Obj) (f : Builtin) (obj : Obj)
    (h : ∀ args, GetArgsList obj = .ok args → ∀ a ∈ args, ev a ≠ .error .OutOfFuel) :
    FunctionApply ev f obj ≠ .error .OutOfFuel := by
  have hlist : ∀ g : Builtin,
      (match EvalArgsList ev obj with
       | .error e => (Except.error e : Except Error Obj)
       | .ok list => ApplyEvaluated g list) ≠ .error .OutOfFuel := by
    intro g
    unfold EvalArgsList
    cases hg : GetArgsList obj with
    | error e =>
      have := GetArgsList_error obj e hg
      subst this
      exact fun hc => by cases hc
    | ok args =>
      simp only
      cases hl : EvalArgsLoop ev args with
      | error e =>
        have := EvalArgsLoop_no_fuel ev args (h args hg)
        rw [hl] at this
        simpa using this
      | ok list => exact ApplyEvaluated_no_fuel g list
  have hand : AndApply ev obj ≠ .error .OutOfFuel := by
    unfold AndApply
    cases hg : GetArgsList obj with
    | error e =>
      have := GetArgsList_error obj e hg
      subst this
      exact fun hc => by cases hc
    | ok args =>
      simp only
      split
      · exact fun hc => by cases hc
      · exact AndLoop_no_fuel ev args (h args hg) _
  have hor : OrApply ev obj ≠ .error .OutOfFuel := by
    unfold OrApply
    cases hg : GetArgsList obj with
    | error e =>
      have := GetArgsList_error obj e hg
      subst this
      exact fun hc => by cases hc
    | ok args =>
      simp only
      split
      · exact fun hc => by cases hc
      · exact OrLoop_no_fuel ev args (h args hg) _
  have hquote : QuoteApply obj ≠ .error .OutOfFuel := by
    unfold QuoteApply
    split
    · split <;> exact fun hc => by cases hc
    · exact fun hc => by cases hc
  cases f <;> first | exact hand | exact hor | exact hquote | exact hlist _

theorem CellEval_no_fuel (ev : Obj → Except Error Obj) (scope : Scope) (first second : Obj)
    (h : ∀ args, GetArgsList second = .ok args → ∀ a ∈ args, ev a ≠ .error .OutOfFuel) :
    CellEval ev scope first second ≠ .error .OutOfFuel := by
  unfold CellEval
  split
  · exact fun hc => by cases hc
  · cases first with
    | symbol name =>
      simp only
      cases hl : scope.LookUp name with
      | error e =>
        have := LookUp_error scope name e hl
        subst this
        exact fun hc => by cases hc
      | ok function =>
        simp only
        split
        · cases function with
          | function f => exact FunctionApply_no_fuel ev f second h
          | null => exact fun hc => by cases hc
          | number _ => exact fun hc => by cases hc
          | symbol _ => exact fun hc => by cases hc
          | boolean _ => exact fun hc => by cases hc
          | cell _ _ _ => exact fun hc => by cases hc
        · exact fun hc => by cases hc
    | null => exact fun hc => by cases hc
    | number _ => exact fun hc => by cases hc
    | boolean _ => exact fun hc => by cases hc
    | cell _ _ _ => exact fun hc => by cases hc
    | function _ => exact fun hc => by cases hc

theorem ObjectEval_no_fuel (scope : Scope) :
    ∀ (n : Nat) (obj : Obj), obj.depth ≤ n → ObjectEval scope obj ≠ .error .OutOfFuel := by
  intro n
  induction n with
  | zero =>
    intro obj hn
    cases obj with
    | cell first second h => simp only [Obj.depth] at hn; omega
    | null => exact fun hc => by cases hc
    | number _ => exact fun hc => by cases hc
    | symbol _ => exact fun hc => by cases hc
    | boolean _ => exact fun hc => by cases hc
    | function _ => exact fun hc => by cases hc
  | succ n ih =>
    intro obj hn
    cases obj with
    | cell first second h =>
      rw [ObjectEval_cell]
      apply CellEval_no_fuel
      intro args hargs a ha
      have hd := GetArgsList_depth second args hargs a ha
      simp only [Obj.depth] at hn
      exact ih a (by omega)
    | null => exact fun hc => by cases hc
    | number _ => exact fun hc => by cases hc
    | symbol _ => exact fun hc => by cases hc
    | boolean _ => exact fun hc => by cases hc
    | function _ => exact fun hc => by cases hc

/-- C24: evaluation is total.  For every expression tree and every scope, any fuel that covers
the depth of the tree gives one and the same outcome, which is a value or an error of the
program and never the exhaustion of the fuel: the evaluation terminates.  So does
`Interpreter::Eval` in the built-in global scope.  The recursion is on strict sub-expressions:
the arguments that `Cell::Eval` hands on for evaluation are less deep than the cell. -/
theorem evaluation_total (scope : Scope) (expression : Obj) :
    (∀ fuel, expression.depth ≤ fuel →
      Eval fuel scope expression = ObjectEval scope expression) ∧
    ObjectEval scope expression ≠ .error .OutOfFuel ∧
    Interpreter.Eval expression ≠ .error .OutOfFuel ∧
    (∀ first second is_head args, expression = .cell first second is_head →
      GetArgsList second = .ok args → ∀ a ∈ args, a.depth < expression.depth) := by
  refine ⟨fun fuel h => Eval_eq_ObjectEval scope expression fuel h,
    ObjectEval_no_fuel scope _ expression (le_refl _), ?_,
    fun first second is_head args he hargs a ha => ?_⟩
  · unfold Interpreter.Eval
    split
    · exact fun hc => by cases hc
    · exact ObjectEval_no_fuel global_scope_ _ expression (le_refl _)
  · subst he
    have := GetArgsList_depth second args hargs a ha
    simp only [Obj.depth]
    omega

/-- Witness of C24 at `(+ 1 (car (quote (2))))`, of depth 6, with fuel 9. -/
theorem evaluation_total_witness :
    TotalWitnessExpr.depth ≤ 9 ∧
    Eval 9 global_scope_ TotalWitnessExpr = ObjectEval global_scope_ TotalWitnessExpr ∧
    ObjectEval global_scope_ TotalWitnessExpr = .ok (.number 3) ∧
    (∀ a ∈ [Obj.number 1, CarExpr (QuoteExpr (.cell (.number 2) .null true)) true false],
      a.depth < TotalWitnessExpr.depth) :=
  ⟨by decide, (evaluation_total global_scope_ TotalWitnessExpr).1 9 (by decide), by decide,
    (evaluation_total global_scope_ TotalWitnessExpr).2.2.2 _ _ _ _ rfl (by rfl)⟩

/-! ## The list-head flag in the trees of the parser -/

/-- C23, the failing input: the text `'x` parses to a Pair, the head of the list
`(quote x)`, that is the `second` of no Pair and whose list-head flag is not set: `Read`
builds the cells of the quote form without `SetIsHead(true)`, which `ReadList` calls on the
first cell of every list.  The value of `(quote 'x)` therefore renders as `quote x)`, where
that of `(quote (quote x))` renders as `(quote x)`.  Interior cells and dotted tails are not
flagged, as claimed. -/
theorem quote_form_not_flagged :
    Interpreter.Parse "'x" =
      .ok (.cell (.symbol "quote") (.cell (.symbol "x") .null false) false) ∧
    Interpreter.Parse "(quote x)" =
      .ok (.cell (.symbol "quote") (.cell (.symbol "x") .null false) true) ∧
    Interpreter.Run "(quote 'x)" = .ok "quote x)" ∧
    Interpreter.Run "(quote (quote x))" = .ok "(quote x)" ∧
    Interpreter.Parse "(1 2 . (3 4))" =
      .ok (.cell (.number 1) (.cell (.number 2)
        (.cell (.number 3) (.cell (.number 4) .null false) false) false) true) := by
  refine ⟨by decide, by decide, by decide, by decide, by decide⟩

/-! ## `list-tail` against `list-ref` -/

theorem GetArgsList_MakeAllListsTail (x : Obj) (rest : List Obj) (is_head : Bool) :
    GetArgsList (.cell x (MakeAllListsTail rest) is_head) = .ok (x :: rest) := by
  induction rest generalizing x is_head with
  | nil => rfl
  | cons y ys ih =>
    show GetArgsList (.cell x (.cell y (MakeAllListsTail ys) false) is_head) = _
    rw [GetArgsList_cell_cell, ih]

theorem GetArgsList_MakeAllListsImpl (values : List Obj) :
    GetArgsList (MakeAllListsImpl values) = .ok values := by
  cases values with
  | nil => rfl
  | cons x rest => exact GetArgsList_MakeAllListsTail x rest true

theorem eval_quote (X : Obj) (h1 h2 : Bool) :
    Interpreter.Eval (.cell (.symbol "quote") (.cell X .null h2) h1) = .ok X := by
  rw [Interpreter_Eval_cell]
  rfl

theorem wrap32_small (k : Int) (h0 : 0 ≤ k) (h32 : k ≤ 2147483647) : wrap32 k = k := by
  unfold wrap32
  omega

theorem MakeListRefApply_small (L : Obj) (values : List Obj) (k : Int)
    (hlist : IsListImpl L = true) (hvals : GetArgsList L = .ok values)
    (h0 : 0 ≤ k) (hn : k < (values.length : Int)) (h32 : k ≤ 2147483647) :
    MakeListRefApply [L, .number k] = .ok (values.getD k.toNat .null) := by
  have hlt : ¬ (k < 0) := by omega
  have hge : ¬ (k ≥ (values.length : Int)) := by omega
  simp only [MakeListRefApply, hlist, hvals, Obj.IsNumber, GetValue, Number.GetValue,
    wrap32_small k h0 h32]
  simp [hlt, hge]

theorem MakeListTailApply_small (L : Obj) (values : List Obj) (k : Int)
    (hlist : IsListImpl L = true) (hvals : GetArgsList L = .ok values)
    (h0 : 0 ≤ k) (hn : k ≤ (values.length : Int)) (h32 : k ≤ 2147483647) :
    MakeListTailApply [L, .number k] = .ok (MakeAllListsImpl (values.drop k.toNat)) := by
  have hlt : ¬ (k < 0) := by omega
  have hgt : ¬ (k > (values.length : Int)) := by omega
  simp only [MakeListTailApply, hlist, hvals, Obj.IsNumber, GetValue, Number.GetValue,
    wrap32_small k h0 h32]
  simp [hlt, hgt]

theorem eval_list_ref (eL L : Obj) (k : Int) (h1 h2 h3 : Bool)
    (hL : Interpreter.Eval eL = .ok L) :
    Interpreter.Eval (ListRefExpr eL k h1 h2 h3) = MakeListRefApply [L, .number k] := by
  obtain ⟨hn, hv⟩ := Interpreter_Eval_ok eL L hL
  unfold ListRefExpr
  rw [Interpreter_Eval_cell]
  rw [CellEval_builtin (ObjectEval global_scope_) "list-ref" .MakeListRef _ [eL, .number k]
    [L, .number k] (by rfl) (by rfl)
    (by simp [EvalArgsLoop, hn, hv, show (Obj.number k).isNull = false from rfl,
      show ObjectEval global_scope_ (.number k) = .ok (.number k) from rfl])
    (by decide) (by decide) (by decide)]
  rfl

theorem eval_list_tail (eL L : Obj) (k : Int) (h1 h2 h3 : Bool)
    (hL : Interpreter.Eval eL = .ok L) :
    Interpreter.Eval (ListTailExpr eL k h1 h2 h3) = MakeListTailApply [L, .number k] := by
  obtain ⟨hn, hv⟩ := Interpreter_Eval_ok eL L hL
  unfold ListTailExpr
  rw [Interpreter_Eval_cell]
  rw [CellEval_builtin (ObjectEval global_scope_) "list-tail" .MakeListTail _ [eL, .number k]
    [L, .number k] (by rfl) (by rfl)
    (by simp [EvalArgsLoop, hn, hv, show (Obj.number k).isNull = false from rfl,
      show ObjectEval global_scope_ (.number k) = .ok (.number k) from rfl])
    (by decide) (by decide) (by decide)]
  rfl

theorem eval_car (e v : Obj) (h1 h2 : Bool) (he : Interpreter.Eval e = .ok v) :
    Interpreter.Eval (CarExpr e h1 h2) = CarApply [v] := by
  obtain ⟨hn, hv⟩ := Interpreter_Eval_ok e v he
  unfold CarExpr
  rw [Interpreter_Eval_cell]
  rw [CellEval_builtin (ObjectEval global_scope_) "car" .Car _ [e] [v] (by rfl) (by rfl)
    (by simp [EvalArgsLoop, hn, hv]) (by decide) (by decide) (by decide)]
  rfl

theorem eval_car_error (e : Obj) (err : Error) (h1 h2 : Bool) (hn : e.isNull = false)
    (he : Interpreter.Eval e = .error err) :
    Interpreter.Eval (CarExpr e h1 h2) = .error err := by
  have hv : ObjectEval global_scope_ e = .error err := by
    unfold Interpreter.Eval at he
    rw [hn] at he
    simpa using he
  unfold CarExpr
  rw [Interpreter_Eval_cell]
  simp [CellEval, show (Obj.symbol "car").isNull = false from rfl,
    show (Obj.function Builtin.Car).isNull = false from rfl, Apply, FunctionApply,
    EvalArgsList, GetArgsList, EvalArgsLoop, hn, hv,
    show global_scope_.LookUp "car" = .ok (.function .Car) from rfl]

/-- For an index that fits the 32-bit `int`, `(car (list-tail L k))` and `(list-ref L k)` both
return the element of `L` at `k`. -/
theorem list_tail_ref_agree_small (eL L : Obj) (values : List Obj) (k : Int)
    (h1 h2 h3 h4 h5 h6 h7 h8 : Bool)
    (hL : Interpreter.Eval eL = .ok L)
    (hlist : IsListImpl L = true) (hvals : GetArgsList L = .ok values)
    (h0 : 0 ≤ k) (hn : k < (values.length : Int)) (h32 : k ≤ 2147483647) :
    Interpreter.Eval (ListRefExpr eL k h1 h2 h3) = .ok (values.getD k.toNat .null) ∧
    Interpreter.Eval (CarExpr (ListTailExpr eL k h4 h5 h6) h7 h8) =
      .ok (values.getD k.toNat .null) := by
  have hlt : k.toNat < values.length := by omega
  refine ⟨?_, ?_⟩
  · rw [eval_list_ref eL L k h1 h2 h3 hL]
    exact MakeListRefApply_small L values k hlist hvals h0 hn h32
  · have htail : Interpreter.Eval (ListTailExpr eL k h4 h5 h6) =
        .ok (MakeAllListsImpl (values.drop k.toNat)) := by
      rw [eval_list_tail eL L k h4 h5 h6 hL]
      exact MakeListTailApply_small L values k hlist hvals h0 (by omega) h32
    rw [eval_car _ _ h7 h8 htail, List.drop_eq_getElem_cons hlt, List.getD_eq_getElem _ _ hlt]
    rfl

/-- The value of `(list-tail L 0)` is a fresh proper list with the elements of `L`. -/
theorem list_tail_zero (eL L : Obj) (values : List Obj) (h1 h2 h3 : Bool)
    (hL : Interpreter.Eval eL = .ok L)
    (hlist : IsListImpl L = true) (hvals : GetArgsList L = .ok values) :
    Interpreter.Eval (ListTailExpr eL 0 h1 h2 h3) = .ok (MakeAllListsImpl values) ∧
    IsListImpl (MakeAllListsImpl values) = true ∧
    GetArgsList (MakeAllListsImpl values) = .ok values := by
  refine ⟨?_, IsListImpl_MakeAllListsImpl values, GetArgsList_MakeAllListsImpl values⟩
  rw [eval_list_tail eL L 0 h1 h2 h3 hL]
  have h := MakeListTailApply_small L values 0 hlist hvals (le_refl 0) (by omega) (by omega)
  simpa using h

theorem wrap32_2_31 : wrap32 2147483648 = -2147483648 := by decide

/-- The index 2147483648 is read as -2147483648, whatever the length of the list. -/
theorem MakeListRefApply_2_31 (L : Obj) (values : List Obj)
    (hlist : IsListImpl L = true) (hvals : GetArgsList L = .ok values) :
    MakeListRefApply [L, .number 2147483648] = .error .RuntimeError ∧
    MakeListTailApply [L, .number 2147483648] = .error .RuntimeError := by
  constructor
  · simp only [MakeListRefApply, hlist, hvals, Obj.IsNumber, GetValue, Number.GetValue,
      wrap32_2_31]
    simp
  · simp only [MakeListTailApply, hlist, hvals, Obj.IsNumber, GetValue, Number.GetValue,
      wrap32_2_31]
    simp

theorem length_HugeList : (List.replicate HugeLength (Obj.number 0)).length = 2147483649 := by
  rw [List.length_replicate]
  rfl

/-- C25, the failing input: `L` is the proper list `(0 0 ... 0)` of 2147483649 elements and
`k` is 2147483648, so `0 <= k < n`.  `(list-ref L k)` and `(car (list-tail L k))` both fail with
`RuntimeError`, where the claim says that the second succeeds: both read the index through
`Number::GetValue`, which cuts it to 32 bits, here to -2147483648. -/
theorem list_tail_ref_index_truncates :
    Interpreter.Eval (QuoteExpr HugeChain) = .ok HugeChain ∧
    IsListImpl HugeChain = true ∧
    GetArgsList HugeChain = .ok (List.replicate HugeLength (.number 0)) ∧
    (2147483648 : Int) < ((List.replicate HugeLength (Obj.number 0)).length : Int) ∧
    Interpreter.Eval (ListRefExpr (QuoteExpr HugeChain) 2147483648 true false false) =
      .error .RuntimeError ∧
    Interpreter.Eval (ListTailExpr (QuoteExpr HugeChain) 2147483648 true false false) =
      .error .RuntimeError ∧
    Interpreter.Eval (CarExpr (ListTailExpr (QuoteExpr HugeChain) 2147483648 true false false)
      true false) = .error .RuntimeError := by
  have hq : Interpreter.Eval (QuoteExpr HugeChain) = .ok HugeChain :=
    eval_quote HugeChain true false
  have hlist : IsListImpl HugeChain = true := IsListImpl_MakeAllListsImpl _
  have hvals : GetArgsList HugeChain = .ok (List.replicate HugeLength (.number 0)) :=
    GetArgsList_MakeAllListsImpl _
  have hfail := MakeListRefApply_2_31 HugeChain _ hlist hvals
  have htail : Interpreter.Eval (ListTailExpr (QuoteExpr HugeChain) 2147483648 true false false) =
      .error .RuntimeError := by
    rw [eval_list_tail _ HugeChain 2147483648 true false false hq]
    exact hfail.2
  refine ⟨hq, hlist, hvals, ?_, ?_, htail, ?_⟩
  · rw [length_HugeList]
    decide
  · rw [eval_list_ref _ HugeChain 2147483648 true false false hq]
    exact hfail.1
  · exact eval_car_error _ _ true false rfl htail

/-! ## The half of the flag invariant that the parser keeps -/

theorem SecondsUnflagged_SetIsHead (b : Bool) (x : Obj) :
    SecondsUnflagged (SetIsHead b x) = SecondsUnflagged x := by
  cases x <;> rfl

theorem IsFlagged_SetIsHead_false (x : Obj) : (SetIsHead false x).IsFlagged = false := by
  cases x <;> rfl

theorem IsFlagged_SetSecondOfLast (root x : Obj) :
    (SetSecondOfLast root x).IsFlagged = root.IsFlagged := by
  cases root with
  | cell first second is_head => cases second <;> rfl
  | _ => rfl

theorem SecondsUnflagged_SetSecondOfLast (x : Obj) (hx : SecondsUnflagged x = true)
    (hf : x.IsFlagged = false) :
    ∀ root : Obj, SecondsUnflagged root = true →
      SecondsUnflagged (SetSecondOfLast root x) = true := by
  intro root
  induction root with
  | cell first second is_head _ ih =>
    intro h
    cases second with
    | null =>
      simp only [SecondsUnflagged, Bool.and_eq_true] at h
      simp [SetSecondOfLast, SecondsUnflagged, h.1.1, hx, hf]
    | cell f2 s2 h2 =>
      have h0 := h
      simp only [SecondsUnflagged, Bool.and_eq_true] at h
      have hs : SecondsUnflagged (Obj.cell f2 s2 h2) = true := by
        simp only [SecondsUnflagged, Bool.and_eq_true]
        exact h.1.2
      have hfl := IsFlagged_SetSecondOfLast (Obj.cell f2 s2 h2) x
      have hrec := ih hs
      have hflag : (Obj.cell f2 s2 h2).IsFlagged = false := by simpa using h.2
      rw [show SetSecondOfLast (Obj.cell first (Obj.cell f2 s2 h2) is_head) x =
        Obj.cell first (SetSecondOfLast (Obj.cell f2 s2 h2) x) is_head from rfl]
      rw [show SecondsUnflagged (Obj.cell first (SetSecondOfLast (Obj.cell f2 s2 h2) x) is_head)
        = (SecondsUnflagged first && SecondsUnflagged (SetSecondOfLast (Obj.cell f2 s2 h2) x)
            && !(SetSecondOfLast (Obj.cell f2 s2 h2) x).IsFlagged) from rfl]
      rw [hrec, hfl, hflag, h.1.1]
      rfl
    | number v => exact h
    | symbol v => exact h
    | boolean v => exact h
    | function v => exact h
  | _ => intro h; exact h

theorem Read_seconds_unflagged :
    ∀ fuel : Nat,
      (∀ (tk : Tokenizer) (o : Obj) (tk' : Tokenizer),
        Read fuel tk = .ok (o, tk') → SecondsUnflagged o = true) ∧
      (∀ (tk : Tokenizer) (root : Obj) (dt n : Bool) (o : Obj) (tk' : Tokenizer),
        ReadList fuel tk root dt n = .ok (o, tk') → SecondsUnflagged root = true →
        SecondsUnflagged o = true) := by
  intro fuel
  induction fuel with
  | zero =>
    constructor
    · intro tk o tk' h
      rw [Read.eq_1] at h
      exact Except.noConfusion h
    · intro tk root dt n o tk' h
      rw [ReadList.eq_1] at h
      exact Except.noConfusion h
  | succ f ih =>
    obtain ⟨ihR, ihL⟩ := ih
    constructor
    · intro tk o tk' h
      rw [Read.eq_2] at h
      cases htok : tk.token_ with
      | none => rw [htok] at h; exact Except.noConfusion h
      | some token =>
        rw [htok] at h
        simp only at h
        cases hnext : tk.Next with
        | error e => rw [hnext] at h; exact Except.noConfusion h
        | ok tk1 =>
          rw [hnext] at h
          simp only at h
          cases token with
          | BracketToken b =>
            cases b with
            | OPEN => exact ihL _ _ _ _ _ _ h rfl
            | CLOSE => exact Except.noConfusion h
          | SymbolToken name =>
            simp only [Except.ok.injEq, Prod.mk.injEq] at h
            rw [← h.1]
            rfl
          | ConstantToken value =>
            simp only [Except.ok.injEq, Prod.mk.injEq] at h
            rw [← h.1]
            rfl
          | BooleanToken value =>
            simp only [Except.ok.injEq, Prod.mk.injEq] at h
            rw [← h.1]
            rfl
          | QuoteToken =>
            simp only at h
            cases hr : Read f tk1 with
            | error e => rw [hr] at h; exact Except.noConfusion h
            | ok r =>
              obtain ⟨o1, tk2⟩ := r
              rw [hr] at h
              simp only [Except.ok.injEq, Prod.mk.injEq] at h
              rw [← h.1]
              simp [SecondsUnflagged, Obj.IsFlagged, ihR _ _ _ hr]
          | DotToken => exact Except.noConfusion h
    · intro tk root dt n o tk' h hroot
      rw [ReadList.eq_2] at h
      have helem : ∀ hd : Obj × Tokenizer, Read f tk = .ok hd →
          (if root.isNull = true then ReadList f hd.2 (.cell hd.1 .null true) dt n
           else if dt = true then
             ReadList f hd.2 (SetSecondOfLast root (SetIsHead false hd.1)) false true
           else ReadList f hd.2 (SetSecondOfLast root (.cell hd.1 .null false)) dt n) =
            .ok (o, tk') → SecondsUnflagged o = true := by
        intro hd hr h2
        obtain ⟨head, tk2⟩ := hd
        have hhead := ihR _ _ _ hr
        simp only at h2
        cases hrn : root.isNull with
        | true =>
          rw [hrn] at h2
          simp only [if_true] at h2
          exact ihL _ _ _ _ _ _ h2 (by simp [SecondsUnflagged, Obj.IsFlagged, hhead])
        | false =>
          rw [hrn] at h2
          cases dt with
          | true =>
            simp only [Bool.false_eq_true, if_false, if_true] at h2
            exact ihL _ _ _ _ _ _ h2 (SecondsUnflagged_SetSecondOfLast _
              (by rw [SecondsUnflagged_SetIsHead]; exact hhead)
              (IsFlagged_SetIsHead_false head) root hroot)
          | false =>
            simp only [Bool.false_eq_true, if_false] at h2
            exact ihL _ _ _ _ _ _ h2 (SecondsUnflagged_SetSecondOfLast (.cell head .null false)
              (by simp [SecondsUnflagged, Obj.IsFlagged, hhead]) rfl root hroot)
      have hother : ∀ token : Token,
          (if n = true then (Except.error Error.SyntaxError : Except Error (Obj × Tokenizer))
           else
            match Read f tk with
            | .error e => .error e
            | .ok (head, tokenizer) =>
              if root.isNull = true then ReadList f tokenizer (.cell head .null true) dt n
              else if dt = true then
                ReadList f tokenizer (SetSecondOfLast root (SetIsHead false head)) false true
              else ReadList f tokenizer (SetSecondOfLast root (.cell head .null false)) dt n) =
            .ok (o, tk') → SecondsUnflagged o = true := by
        intro _ h2
        cases n with
        | true => exact Except.noConfusion h2
        | false =>
          simp only [Bool.false_eq_true, if_false] at h2
          cases hr : Read f tk with
          | error e => rw [hr] at h2; exact Except.noConfusion h2
          | ok hd =>
            rw [hr] at h2
            exact helem hd hr h2
      cases htok : tk.token_ with
      | none => rw [htok] at h; exact Except.noConfusion h
      | some token =>
        rw [htok] at h
        cases token with
        | BracketToken b =>
          cases b with
          | OPEN => exact hother (.BracketToken .OPEN) h
          | CLOSE =>
            simp only at h
            cases dt with
            | true => exact Except.noConfusion h
            | false =>
              simp only [Bool.false_eq_true, if_false] at h
              cases hnext : tk.Next with
              | error e => rw [hnext] at h; exact Except.noConfusion h
              | ok tk1 =>
                rw [hnext] at h
                simp only [Except.ok.injEq, Prod.mk.injEq] at h
                rw [← h.1]
                exact hroot
        | SymbolToken name => exact hother (.SymbolToken name) h
        | ConstantToken value => exact hother (.ConstantToken value) h
        | BooleanToken value => exact hother (.BooleanToken value) h
        | QuoteToken => exact hother .QuoteToken h
        | DotToken =>
          simp only at h
          cases n with
          | true => exact Except.noConfusion h
          | false =>
            cases hrn : root.isNull with
            | true => rw [hrn] at h; exact Except.noConfusion h
            | false =>
              rw [hrn] at h
              simp only [Bool.false_eq_true, if_false] at h
              cases hnext : tk.Next with
              | error e => rw [hnext] at h; exact Except.noConfusion h
              | ok tk1 =>
                rw [hnext] at h
                exact ihL _ _ _ _ _ _ h hroot

/-- In every tree returned by `Parse`, no Pair that is the `second` of another Pair has its
list-head flag set. -/
theorem Parse_seconds_unflagged (text : String) (e : Obj)
    (h : Interpreter.Parse text = .ok e) : SecondsUnflagged e = true := by
  unfold Interpreter.Parse at h
  cases hnew : Tokenizer.new text.toList with
  | error err => rw [hnew] at h; exact Except.noConfusion h
  | ok tk =>
    rw [hnew] at h
    simp only at h
    cases hr : Read (2 * text.length + 2) tk with
    | error err => rw [hr] at h; exact Except.noConfusion h
    | ok r =>
      obtain ⟨o, tk2⟩ := r
      rw [hr] at h
      simp only at h
      split at h
      · exact Except.noConfusion h
      · simp only [Except.ok.injEq] at h
        rw [← h]
        exact (Read_seconds_unflagged _).1 _ _ _ hr

end Scheme
